import Mathlib

/-!
# Wordle (`wordle.c`): the hint printer, the session loop, the dictionary and the arguments

Characters are byte values (`Nat`), in the "C" locale.  A C string passed as a
`char*` argument is given by its content, the bytes before the terminating
NUL; a buffer (`strdup` copy, `modifyWord`, `input`) is the list of all its
bytes, NUL included.  Buffer reads are `peek` and writes are `List.set`: an
index outside the buffer reads 0 and a write there is dropped.  In C both are
undefined; in `echo_hint` they do not occur when the guess and the answer
have length `n`.

Printed lines are recorded by format string and argument values (`Out`), not
as bytes, except for the hint, which is the byte string `echo_hint` prints.

Standard input is a list of bytes.  One call `fgets(input, 52, stdin)` takes
at most 51 of them, so a line of more than 50 characters reaches the session
in pieces, each validated as a guess; the theorems about guesses as input
lines speak of the lines that fit the buffer (`shortLine`).
-/

namespace Wordle

/-! # Definitions -/

/-! ## Characters and C strings -/

/-- The C library `tolower` on a byte value. -/
def tolower (c : Nat) : Nat := if 65 ≤ c ∧ c ≤ 90 then c + 32 else c

/-- The C library `toupper` on a byte value. -/
def toupper (c : Nat) : Nat := if 97 ≤ c ∧ c ≤ 122 then c - 32 else c

/-- The C library `isalpha` on a byte value. -/
def isalpha (c : Nat) : Bool := (65 ≤ c && c ≤ 90) || (97 ≤ c && c ≤ 122)

/-- The string held in a buffer: the bytes before the first NUL. -/
def cstr (buf : List Nat) : List Nat := buf.takeWhile (fun c => c ≠ 0)

/-- The C library `strlen`. -/
def strlen (buf : List Nat) : Nat := (cstr buf).length

/-- The C library `strdup`: a fresh buffer with the string and its NUL. -/
def strdup (s : List Nat) : List Nat := cstr s ++ [0]

/-- The byte at index `i` of a buffer (`buf[i]`). -/
def peek (buf : List Nat) (i : Nat) : Nat := buf.getD i 0

/-- The bytes of a string literal. -/
def bytes (s : String) : List Nat := s.toList.map Char.toNat

/-! ## `echo_hint` (wordle.c, lines 253-295) -/

/-- The three buffers of `echo_hint`: the copies `a` and `g` and `modifyWord`. -/
structure HintState where
  a : List Nat
  g : List Nat
  modifyWord : List Nat
deriving DecidableEq, Repr

/-- Body of the first loop (line 259): lowercase `g[x]` and `a[x]`. -/
def lowerStep (s : HintState) (x : Nat) : HintState :=
  { s with g := s.g.set x (tolower (peek s.g x)),
           a := s.a.set x (tolower (peek s.a x)) }

/-- Body of the second loop (line 264): `modifyWord[p] = '-'`. -/
def resetStep (s : HintState) (p : Nat) : HintState :=
  { s with modifyWord := s.modifyWord.set p 45 }

/-- Body of the third loop (line 271): an equal pair is hinted in upper case
and both letters are replaced by `'-'`. -/
def pairStep (s : HintState) (j : Nat) : HintState :=
  if peek s.a j = peek s.g j then
    { modifyWord := s.modifyWord.set j (toupper (peek s.g j)),
      a := s.a.set j 45,
      g := s.g.set j 45 }
  else s

/-- The inner loop of the fourth loop (line 283) over the indices `js`, for
the guess index `i`: the first `j` with `g[i] == a[j] && g[i] != '-'` is
hinted in lower case at `i`, replaced by `'-'` in `a`, and the loop breaks. -/
def scanLoop (i : Nat) : List Nat → HintState → HintState
  | [], s => s
  | j :: js, s =>
    if peek s.g i = peek s.a j ∧ peek s.g i ≠ 45 then
      { s with modifyWord := s.modifyWord.set i (tolower (peek s.g i)),
               a := s.a.set j 45 }
    else scanLoop i js s

/-- The state of `echo_hint` before its first loop.  `modifyWord[n + 1]` is
uninitialised in C; every one of its bytes is written before it is read. -/
def hintInit (guess answerWord : List Nat) (n : Nat) : HintState :=
  { a := strdup answerWord, g := strdup guess, modifyWord := List.replicate (n + 1) 0 }

/-- The state after the first loop (lines 259-262), `x = 0 .. n`. -/
def hintLowered (guess answerWord : List Nat) (n : Nat) : HintState :=
  (List.range (n + 1)).foldl lowerStep (hintInit guess answerWord n)

/-- The state after the second loop and `modifyWord[n] = 0` (lines 264-267). -/
def hintReset (guess answerWord : List Nat) (n : Nat) : HintState :=
  let s := (List.range (n + 1)).foldl resetStep (hintLowered guess answerWord n)
  { s with modifyWord := s.modifyWord.set n 0 }

/-- The state after the third loop (lines 271-277), `j = 0 .. n`. -/
def hintPaired (guess answerWord : List Nat) (n : Nat) : HintState :=
  (List.range (n + 1)).foldl pairStep (hintReset guess answerWord n)

/-- The state after the fourth loop (lines 282-290), `i = 0 .. n`, `j = 0 .. n`. -/
def hintScanned (guess answerWord : List Nat) (n : Nat) : HintState :=
  (List.range (n + 1)).foldl (fun s i => scanLoop i (List.range (n + 1)) s)
    (hintPaired guess answerWord n)

/-- The string in `modifyWord` when `echo_hint` prints it (line 293). -/
def hint (guess answerWord : List Nat) (n : Nat) : List Nat :=
  cstr (hintScanned guess answerWord n).modifyWord

/-- The bytes `echo_hint` writes to stdout: the hint and a newline. -/
def echo_hint (guess answerWord : List Nat) (n : Nat) : List Nat :=
  hint guess answerWord n ++ [10]

/-! ## Auxiliary forms of the loops of `echo_hint` -/

/-- A loop body that rewrites index `j` of the three buffers from their
values at `j`. -/
def pwStep (f : Nat → Nat → Nat → Nat × Nat × Nat) (s : HintState) (j : Nat) : HintState :=
  { a := s.a.set j (f (peek s.a j) (peek s.g j) (peek s.modifyWord j)).1,
    g := s.g.set j (f (peek s.a j) (peek s.g j) (peek s.modifyWord j)).2.1,
    modifyWord := s.modifyWord.set j (f (peek s.a j) (peek s.g j) (peek s.modifyWord j)).2.2 }

/-- A word is alphabetic: `isalpha` holds of every character. -/
def alphabetic (w : List Nat) : Prop := ∀ c ∈ w, isalpha c = true

instance (w : List Nat) : Decidable (alphabetic w) := by
  unfold alphabetic; infer_instance

/-- The first `n` bytes of `a` after the third loop. -/
def pairedA (guess answer : List Nat) : List Nat :=
  List.zipWith (fun x y => if tolower x = tolower y then 45 else tolower x) answer guess

/-- The first `n` bytes of `g` after the third loop. -/
def pairedG (guess answer : List Nat) : List Nat :=
  List.zipWith (fun x y => if tolower x = tolower y then 45 else tolower y) answer guess

/-- The first `n` bytes of `modifyWord` after the third loop. -/
def pairedM (guess answer : List Nat) : List Nat :=
  List.zipWith (fun x y => if tolower x = tolower y then toupper (tolower y) else 45) answer guess

/-- The effect of one inner scan on the first `n` bytes of `a`: the first
byte equal to `c` becomes `'-'`; `none` when no byte equals `c`. -/
def claim (c : Nat) : List Nat → Option (List Nat)
  | [] => none
  | x :: xs => if c = x then some (45 :: xs) else (claim c xs).map (fun r => x :: r)

/-- The effect of the fourth loop on the first `n` bytes of `modifyWord`, from
the first `n` bytes of `g`, of `modifyWord` and of `a`. -/
def pass2 : List Nat → List Nat → List Nat → List Nat
  | gi :: gs, mi :: ms, a =>
    if gi = 45 then mi :: pass2 gs ms a
    else
      match claim gi a with
      | some r => tolower gi :: pass2 gs ms r
      | none => mi :: pass2 gs ms a
  | _, _, _ => []

/-! ## The spec's two-pass scorer (spec §4.1), over the positions `0 .. n-1` -/

/-- Spec §4.1 steps 1 and 2 at one position, from the guess and answer
letters there: the normalized letters are compared; on an exact match both
are consumed (`none`) and the HintString symbol is the uppercase form of the
guess letter, otherwise both stay available and the symbol is the
placeholder.  Result: guess letter, guess slot, HintString symbol, answer slot. -/
def specExact (gch ach : Nat) : Nat × Option Nat × Nat × Option Nat :=
  if tolower gch = tolower ach then (gch, none, toupper gch, none)
  else (gch, some (tolower gch), 45, some (tolower ach))

/-- Spec §4.1 step 3, the scan for one guess letter `c`: the unconsumed answer
positions in ascending order; the first one equal to `c` is consumed and the
scan stops.  `none` when no unconsumed answer position equals `c`. -/
def specScan (c : Nat) : List (Option Nat) → Option (List (Option Nat))
  | [] => none
  | x :: xs => if x = some c then some (none :: xs) else (specScan c xs).map (fun r => x :: r)

/-- Spec §4.1 steps 3 and 4 over the guess positions in ascending order: a
position resolved in pass 1 keeps its symbol; an unresolved one whose scan
succeeds gets the lowercase form of its guess letter; otherwise it keeps the
placeholder. -/
def specPresent : List (Nat × Option Nat × Nat) → List (Option Nat) → List Nat
  | [], _ => []
  | (_, none, h) :: rest, answer => h :: specPresent rest answer
  | (gch, some c, h) :: rest, answer =>
    match specScan c answer with
    | some answer1 => tolower gch :: specPresent rest answer1
    | none => h :: specPresent rest answer

/-- The HintString of the spec's two-pass algorithm (spec §4.1) for a guess
and an answer, over their positions only. -/
def spec_score (guess answer : List Nat) : List Nat :=
  specPresent ((List.zipWith specExact guess answer).map (fun t => (t.1, t.2.1, t.2.2.1)))
    ((List.zipWith specExact guess answer).map (fun t => t.2.2.2))

/-- A consumed slot read as the byte the code stores for it. -/
def slotByte (o : Option Nat) : Nat := o.getD 45

/-! ## Comparison ignoring case -/

/-- The C library `strcasecmp` on two strings: the difference of the first
two lowercased characters that differ (the terminating NUL included), 0 when
there is none. -/
def strcasecmp : List Nat → List Nat → Int
  | [], [] => 0
  | [], y :: _ => 0 - (tolower y : Int)
  | x :: _, [] => (tolower x : Int)
  | x :: xs, y :: ys =>
    if tolower x = tolower y then strcasecmp xs ys else (tolower x : Int) - (tolower y : Int)

/-! ## The dictionary (wordle.c, lines 60-91 and 132-148) -/

/-- The digits `sprintf(_, "%d", k)` writes for `k ≥ 0`, with `fuel` bounding
the number of digits. -/
def sprintfDigits : Nat → Nat → List Nat
  | 0, k => [48 + k % 10]
  | fuel + 1, k => if k < 10 then [48 + k] else sprintfDigits fuel (k / 10) ++ [48 + k % 10]

/-- The string `sprintf(_, "%d", k)` writes for `k ≥ 0`. -/
def sprintf_d (k : Nat) : List Nat := sprintfDigits k k

/-- The C library `isspace` on a byte value. -/
def isspace (c : Nat) : Bool := c = 32 || (9 ≤ c && c ≤ 13)

/-- The digit loop of `atoi`: the value of the leading decimal digits. -/
def atoiDigits (acc : Nat) : List Nat → Nat
  | [] => acc
  | c :: cs => if 48 ≤ c ∧ c ≤ 57 then atoiDigits (acc * 10 + (c - 48)) cs else acc

/-- The number written at the start of a string: leading white space, an
optional sign, then the leading decimal digits. -/
def decimalValue (s : List Nat) : Int :=
  match s.dropWhile isspace with
  | 45 :: r => - (atoiDigits 0 r : Int)
  | 43 :: r => (atoiDigits 0 r : Int)
  | r => (atoiDigits 0 r : Int)

/-- The C library `strtol(s, NULL, 10)` with a 64-bit `long`: a number above
`LONG_MAX` or below `LONG_MIN` is replaced by that bound. -/
def strtol (s : List Nat) : Int :=
  if decimalValue s > 9223372036854775807 then 9223372036854775807
  else if decimalValue s < -9223372036854775808 then -9223372036854775808
  else decimalValue s

/-- Conversion of a `long` to a 32-bit `int`: the low 32 bits, read in two's
complement. -/
def longToInt (v : Int) : Int := (v + 2147483648) % 4294967296 - 2147483648

/-- The C library `atoi`, which glibc computes as `(int) strtol(s, NULL, 10)`:
a number that fits an `int` is returned as it is, a larger one is cut to its
low 32 bits.  (The C standard leaves the result for such a number undefined.) -/
def atoi (s : List Nat) : Int := longToInt (strtol s)

/-- The array `read_file` returns, from the white-space separated words
`fscanf(fp, "%s", _)` reads from the file: a word is stored when all its
characters are letters and its length is `n`; slot 0 holds the number of
slots, printed with `"%d"`. -/
def read_file (fileWords : List (List Nat)) (n : Nat) : List (List Nat) :=
  let gameWords := fileWords.foldl
    (fun gw w => if w.all isalpha ∧ w.length = n then gw ++ [w] else gw) [[]]
  gameWords.set 0 (sprintf_d gameWords.length)

/-! ## Output and validation (wordle.c, lines 102-148, 369-391) -/

/-- The lines the program prints, by format string, with the values of
their `%d` and `%s` arguments. -/
inductive Out where
  /-- stdout: `Welcome to Wordle!` -/
  | welcome
  /-- stdout: `Enter a %d letter word (last attempt):` -/
  | promptLast (n : Nat)
  /-- stdout: `Enter a %d letter word (%d attempts remaining):` -/
  | promptRemaining (n m : Nat)
  /-- stdout: `Words must be %d letters long - try again.` -/
  | wrongLength (n : Nat)
  /-- stdout: `Words must contain only letters - try again.` -/
  | lettersOnly
  /-- stdout: `Word not found in the dictionary - try again.` -/
  | notInDict
  /-- stdout: `Correct!` -/
  | correct
  /-- stdout: the bytes `echo_hint` writes -/
  | hintLine (text : List Nat)
  /-- stderr: `Bad luck - the word is "%s".` -/
  | badLuck (answer : List Nat)
  /-- stderr: `Usage: wordle [-len word-length] [-max max-guesses] [dictionary]` -/
  | usage
deriving DecidableEq, Repr

/-- Validation by `check_guess` (lines 102-120): the return value and the
line it prints. -/
def check_guess (guess : List Nat) (n : Nat) : Bool × List Out :=
  if strlen guess ≠ n then (false, [Out.wrongLength n])
  else if (List.range n).all (fun i => isalpha (peek guess i)) then (true, [])
  else (false, [Out.lettersOnly])

/-- Lookup by `word_in_dict` (lines 132-148): the return value and the line
it prints.  The loop runs over the slots `1 .. dictLen - 1`. -/
def word_in_dict (word : List Nat) (dictionary : List (List Nat)) : Bool × List Out :=
  let dictLen := atoi (dictionary.getD 0 [])
  let inDict := (List.range' 1 (dictLen.toNat - 1)).any
    (fun i => decide (strcasecmp word (dictionary.getD i []) = 0))
  (inDict, if inDict then [] else [Out.notInDict])

/-- The line `prompt(n, m)` prints (lines 383-391). -/
def prompt (n m : Nat) : Out :=
  if m = 1 then Out.promptLast n else Out.promptRemaining n m

/-- The line `game_over(answer)` prints and its exit status (lines 369-373). -/
def game_over (answer : List Nat) : List Out × Option Nat := ([Out.badLuck answer], some 3)

/-! ## Standard input and the session loop of `main` (wordle.c, lines 401-432) -/

/-- The stream `stdin`: the bytes not yet read and its end-of-file indicator. -/
structure Stdin where
  rest : List Nat
  eof : Bool
deriving DecidableEq, Repr

/-- The bytes one `fgets` call takes when `k` more bytes fit: it stops after
a newline, at the end of the stream (reported by the last component), or
when no more bytes fit.  Result: bytes taken, bytes left, end of file met. -/
def fgetsRead : Nat → List Nat → List Nat × List Nat × Bool
  | 0, rest => ([], rest, false)
  | _ + 1, [] => ([], [], true)
  | k + 1, c :: rest =>
    if c = 10 then ([10], rest, false)
    else (c :: (fgetsRead k rest).1, (fgetsRead k rest).2.1, (fgetsRead k rest).2.2)

/-- The C library `fgets(buf, size, stdin)`: whether the result is non-NULL,
the buffer and the stream afterwards.  When the end of the stream is met
before any byte, the result is NULL and the buffer is unchanged. -/
def fgets (buf : List Nat) (size : Nat) (s : Stdin) : Bool × List Nat × Stdin :=
  let r := fgetsRead (size - 1) s.rest
  if r.1.isEmpty then (false, buf, { rest := r.2.1, eof := s.eof || r.2.2 })
  else (true, r.1 ++ 0 :: buf.drop (r.1.length + 1), { rest := r.2.1, eof := s.eof || r.2.2 })

/-- Lines 407-409 and 421-423: a final `'\n'` of the string in `input` is
replaced by NUL.  For the empty string the C code indexes `input[-1]`,
outside the buffer; the buffer itself is then unchanged. -/
def stripNewline (input : List Nat) : List Nat :=
  if strlen input ≠ 0 ∧ peek input (strlen input - 1) = 10 then input.set (strlen input - 1) 0
  else input

/-- How the `while` loop of lines 414-425 ends. -/
inductive LoopEnd where
  /-- the process exited with this status -/
  | exited (code : Nat)
  /-- the loop condition failed: `input` holds a valid dictionary word -/
  | accepted (s : Stdin) (input : List Nat)
  /-- the iteration bound of the model was reached -/
  | stuck
deriving DecidableEq, Repr

/-- The lines printed while the loop condition of line 414,
`!check_guess(guess, n) || !word_in_dict(guess, dictionary)`, is evaluated:
`word_in_dict` is called only when `check_guess` returned 1. -/
def conditionLines (guess : List Nat) (n : Nat) (dictionary : List (List Nat)) : List Out :=
  if (check_guess guess n).1 = true
  then (check_guess guess n).2 ++ (word_in_dict guess dictionary).2
  else (check_guess guess n).2

/-- The `while` loop of lines 414-425 with `i` attempts remaining, at most
`fuel` evaluations of its condition: the lines printed and how it ends. -/
def guessLoop (n i : Nat) (answer : List Nat) (dictionary : List (List Nat)) :
    Nat → Stdin → List Nat → List Out × LoopEnd
  | 0, _, _ => ([], LoopEnd.stuck)
  | fuel + 1, s, input =>
    if (check_guess (cstr input) n).1 = true ∧ (word_in_dict (cstr input) dictionary).1 = true
    then (conditionLines (cstr input) n dictionary, LoopEnd.accepted s input)
    else
      if (fgets input 52 s).2.2.eof = true then
        (conditionLines (cstr input) n dictionary ++ prompt n i :: (game_over answer).1,
          LoopEnd.exited 3)
      else
        (conditionLines (cstr input) n dictionary ++ prompt n i ::
            (guessLoop n i answer dictionary fuel (fgets input 52 s).2.2
              (stripNewline (fgets input 52 s).2.1)).1,
          (guessLoop n i answer dictionary fuel (fgets input 52 s).2.2
            (stripNewline (fgets input 52 s).2.1)).2)

/-- The `for` loop of lines 402-431 from `i` attempts remaining, followed by
line 432: the lines printed and the exit status (`none` only when the
iteration bound of `guessLoop` was reached). -/
def sessionLoop (n : Nat) (answer : List Nat) (dictionary : List (List Nat)) :
    Nat → Stdin → List Out × Option Nat
  | 0, _ => game_over answer
  | i + 1, s =>
    let r := fgets (List.replicate 52 0) 52 s
    if r.2.2.eof = true ∧ r.1 = false then
      (prompt n (i + 1) :: (game_over answer).1, (game_over answer).2)
    else
      match guessLoop n (i + 1) answer dictionary (r.2.2.rest.length + 1) r.2.2
          (stripNewline r.2.1) with
      | (o, LoopEnd.exited code) => (prompt n (i + 1) :: o, some code)
      | (o, LoopEnd.stuck) => (prompt n (i + 1) :: o, none)
      | (o, LoopEnd.accepted s1 input1) =>
        if strcasecmp (cstr input1) answer = 0 then
          (prompt n (i + 1) :: o ++ [Out.correct], some 0)
        else
          (prompt n (i + 1) :: o ++ Out.hintLine (echo_hint (cstr input1) answer n) ::
              (sessionLoop n answer dictionary i s1).1,
            (sessionLoop n answer dictionary i s1).2)

/-- The session of `main` (lines 401-432) for word length `n`, `m` attempts,
the chosen answer, the dictionary array and the bytes on standard input: the
lines printed and the exit status. -/
def session (n m : Nat) (answer : List Nat) (dictionary : List (List Nat))
    (stdin : List Nat) : List Out × Option Nat :=
  (Out.welcome :: (sessionLoop n answer dictionary m { rest := stdin, eof := false }).1,
    (sessionLoop n answer dictionary m { rest := stdin, eof := false }).2)

/-! ## Auxiliary definitions for the session -/

/-- The words `read_file` keeps. -/
def storedWords (fileWords : List (List Nat)) (n : Nat) : List (List Nat) :=
  fileWords.filter (fun w => decide (w.all isalpha ∧ w.length = n))

/-- The number of attempts remaining that a prompt line shows: 1 for the
"last attempt" wording, otherwise the number printed. -/
def shownCount : Out → Option Nat
  | Out.promptLast _ => some 1
  | Out.promptRemaining _ m => some m
  | _ => none

/-- Reading the output from `k` attempts remaining: every prompt shows the
current count, a hint line lowers the count by one (and needs an attempt
left), and no other line changes it. -/
def countersOk : Nat → List Out → Bool
  | _, [] => true
  | k, Out.hintLine _ :: rest => decide (0 < k) && countersOk (k - 1) rest
  | k, e :: rest => decide (shownCount e = none ∨ shownCount e = some k) && countersOk k rest

/-- The lines the `while` loop can print with `k` attempts remaining. -/
def loopLine (n k : Nat) (answer : List Nat) (e : Out) : Prop :=
  e = prompt n k ∨ e = Out.wrongLength n ∨ e = Out.lettersOnly ∨ e = Out.notInDict ∨
    e = Out.badLuck answer

/-- The lines the `while` loop prints before it ends on an accepted guess. -/
def retryLine (n k : Nat) (e : Out) : Prop :=
  e = prompt n k ∨ e = Out.wrongLength n ∨ e = Out.lettersOnly ∨ e = Out.notInDict

/-- Whether a printed line is a hint line. -/
def isHint : Out → Bool
  | Out.hintLine _ => true
  | _ => false

/-- The number of hint lines in the output. -/
def hintCount (out : List Out) : Nat := out.countP isHint

/-- Reading the output for word length `n` from `k` attempts remaining: a
prompt has the "last attempt" wording exactly when the current count is 1
and otherwise prints the current count; a hint line lowers the count by one. -/
def promptsOk (n : Nat) : Nat → List Out → Bool
  | _, [] => true
  | k, Out.hintLine _ :: rest => promptsOk n (k - 1) rest
  | k, Out.promptLast n1 :: rest => decide (k = 1 ∧ n1 = n) && promptsOk n k rest
  | k, Out.promptRemaining n1 j :: rest =>
    decide (k ≠ 1 ∧ j = k ∧ n1 = n) && promptsOk n k rest
  | k, _ :: rest => promptsOk n k rest

/-! ## Input lines -/

/-- A line of input that one call `fgets(input, 52, stdin)` reads whole, its
newline included: at most 50 bytes, none of them NUL or newline. -/
def shortLine (l : List Nat) : Prop := l.length ≤ 50 ∧ ∀ c ∈ l, c ≠ 0 ∧ c ≠ 10

instance (l : List Nat) : Decidable (shortLine l) := by
  unfold shortLine
  infer_instance

/-- The loop condition of line 414 is false for the guess: `check_guess` and
`word_in_dict` both return 1. -/
def passes (n : Nat) (dictionary : List (List Nat)) (guess : List Nat) : Prop :=
  (check_guess guess n).1 = true ∧ (word_in_dict guess dictionary).1 = true

instance (n : Nat) (dictionary : List (List Nat)) (guess : List Nat) :
    Decidable (passes n dictionary guess) := by
  unfold passes
  infer_instance

/-- Input lines on the stream, each followed by its newline. -/
def joinLines : List (List Nat) → List Nat
  | [] => []
  | l :: ls => l ++ 10 :: joinLines ls

/-- The lines printed for input lines that are rejected one after the other
with `i` attempts remaining: for each the prompt and its diagnostic. -/
def retryLines (n i : Nat) (dictionary : List (List Nat)) : List (List Nat) → List Out
  | [] => []
  | l :: ls => prompt n i :: conditionLines l n dictionary ++ retryLines n i dictionary ls

/-- What follows the `while` loop in an attempt that leaves `i` attempts
(lines 426-431 and the later attempts): the lines printed from the start of
the loop on and the exit status. -/
def afterLoop (n : Nat) (answer : List Nat) (dictionary : List (List Nat)) (i : Nat) :
    List Out × LoopEnd → List Out × Option Nat
  | (o, LoopEnd.exited code) => (o, some code)
  | (o, LoopEnd.stuck) => (o, none)
  | (o, LoopEnd.accepted s1 input1) =>
    if strcasecmp (cstr input1) answer = 0 then (o ++ [Out.correct], some 0)
    else
      (o ++ Out.hintLine (echo_hint (cstr input1) answer n) ::
          (sessionLoop n answer dictionary i s1).1,
        (sessionLoop n answer dictionary i s1).2)

/-- Modelled from the spec (§4.2, step 4), not from the code: a guess is
valid when it has exactly `n` characters, all of them letters, and equals one
of the dictionary words ignoring case. -/
def spec_valid (n : Nat) (words : List (List Nat)) (guess : List Nat) : Prop :=
  guess.length = n ∧ alphabetic guess ∧ ∃ w ∈ words, strcasecmp guess w = 0

instance (n : Nat) (words : List (List Nat)) (guess : List Nat) :
    Decidable (spec_valid n words guess) := by
  unfold spec_valid
  infer_instance

/-! ## `get_random_word` (wordle.c, lines 233-243) -/

/-- The word `get_random_word` returns (lines 233-243) when the two calls of
`rand()` return `r1` and `r2`: the slot `rand() % size` of the last call,
where `size` is the number stored in slot 0.  (`size` is at least 1 for an
array built by `read_file`; `% 0` is undefined in C.) -/
def get_random_word (dict : List (List Nat)) (_n : Nat) (r1 r2 : Nat) : List Nat :=
  let size := atoi (dict.getD 0 [])
  let randomPosition := [r1, r2].foldl (fun _ r => (r : Int) % size) 0
  dict.getD randomPosition.toNat []

/-! ## Command-line arguments (wordle.c, lines 160-191 and 311-361) -/

/-- The comparison loop of `strcmp` on two strings: the difference of the
first two characters that differ (the terminating NUL included), 0 when
there is none. -/
def strcmpFrom : List Nat → List Nat → Int
  | [], [] => 0
  | [], y :: _ => 0 - (y : Int)
  | x :: _, [] => (x : Int)
  | x :: xs, y :: ys => if x = y then strcmpFrom xs ys else (x : Int) - (y : Int)

/-- The C library `strcmp`. -/
def strcmp (s t : List Nat) : Int := strcmpFrom (cstr s) (cstr t)

/-- The counters of `check_args` (lines 312-314): `lenCount`, `maxCount`,
`errorPresent`. -/
structure ArgCount where
  lenCount : Nat
  maxCount : Nat
  errorPresent : Nat
deriving DecidableEq, Repr

/-- Body of the loop of `check_args` over the arguments (lines 318-327). -/
def argStep (c : ArgCount) (arg : List Nat) : ArgCount :=
  { lenCount := c.lenCount + (if strcmp arg (bytes "-len") = 0 then 1 else 0),
    maxCount := c.maxCount + (if strcmp arg (bytes "-max") = 0 then 1 else 0),
    errorPresent := c.errorPresent + (if strcmp arg [] = 0 then 1 else 0) +
      (if peek arg 0 = 45 ∧ strcmp arg (bytes "-len") ≠ 0 ∧ strcmp arg (bytes "-max") ≠ 0
        then 1 else 0) }

/-- The test of lines 335-340 and 350-355 on a flag slot and its value slot:
1 when the flag is neither `-len` nor `-max`, or else when the value is not a
one-character string with `atoi` between 3 and 9. -/
def slotError (flag value : List Nat) : Nat :=
  if strcmp flag (bytes "-len") ≠ 0 ∧ strcmp flag (bytes "-max") ≠ 0 then 1
  else if atoi value < 3 ∨ atoi value > 9 ∨ strlen value ≠ 1 then 1
  else 0

/-- The value of `errorPresent` at line 357 of `check_args`, for
`argc = argv.length`. -/
def errorPresent (argv : List (List Nat)) : Nat :=
  let c := argv.foldl argStep
    { lenCount := 0, maxCount := 0, errorPresent := if argv.length > 6 then 1 else 0 }
  c.errorPresent + (if c.lenCount > 1 ∨ c.maxCount > 1 then 1 else 0) +
    (if argv.length = 2 then (if peek (argv.getD 1 []) 0 = 45 then 1 else 0) else 0) +
    (if argv.length ≥ 3 then slotError (argv.getD 1 []) (argv.getD 2 []) else 0) +
    (if argv.length = 4 then
      (if strcmp (argv.getD 3 []) (bytes "-len") = 0 ∨ strcmp (argv.getD 3 []) (bytes "-max") = 0
        then 1 else 0)
     else 0) +
    (if argv.length ≥ 5 then slotError (argv.getD 3 []) (argv.getD 4 []) else 0)

/-- The outcome of `check_args` (lines 311-361): `none` when it returns, or
the usage line and exit status 1. -/
def check_args (argv : List (List Nat)) : Option (List Out × Nat) :=
  if errorPresent argv ≠ 0 then some ([Out.usage], 1) else none

/-- The value of `get_len` (lines 160-170). -/
def get_len (argv : List (List Nat)) : Int :=
  (List.range argv.length).foldl
    (fun n i =>
      if strcmp (argv.getD i []) (bytes "-len") = 0 ∧ i ≠ argv.length - 1
      then atoi (argv.getD (i + 1) []) else n) 5

/-- The value of `get_max` (lines 181-191). -/
def get_max (argv : List (List Nat)) : Int :=
  (List.range argv.length).foldl
    (fun m i =>
      if strcmp (argv.getD i []) (bytes "-max") = 0 ∧ i ≠ argv.length - 1
      then atoi (argv.getD (i + 1) []) else m) 6

/-! # Theorems -/

/-! ## Buffer lemmas -/

theorem peek_set (l : List Nat) (i j v : Nat) :
    peek (l.set i v) j = if i = j ∧ i < l.length then v else peek l j := by
  simp only [peek, List.getD_eq_getElem?_getD, List.getElem?_set]
  by_cases h : i = j
  · subst h
    by_cases h2 : i < l.length
    · simp [h2]
    · simp [h2, List.getElem?_eq_none (Nat.le_of_not_lt h2)]
  · simp [h]

theorem peek_of_le (l : List Nat) (i : Nat) (h : l.length ≤ i) : peek l i = 0 := by
  simp [peek, List.getD_eq_getElem?_getD, List.getElem?_eq_none h]

theorem peek_of_lt (l : List Nat) (i : Nat) (h : i < l.length) : peek l i = l[i] := by
  simp [peek, List.getD_eq_getElem?_getD, List.getElem?_eq_getElem h]

theorem set_peek_self (l : List Nat) (i : Nat) : l.set i (peek l i) = l := by
  apply List.ext_getElem?
  intro j
  rw [List.getElem?_set]
  by_cases h : i = j
  · subst h
    by_cases h2 : i < l.length
    · simp [h2, peek, List.getD_eq_getElem?_getD, List.getElem?_eq_getElem h2]
    · simp [h2, List.getElem?_eq_none (Nat.le_of_not_lt h2)]
  · simp [h]

theorem ext_peek {l₁ l₂ : List Nat} (hl : l₁.length = l₂.length)
    (h : ∀ i, peek l₁ i = peek l₂ i) : l₁ = l₂ := by
  apply List.ext_getElem hl
  intro i h₁ h₂
  have := h i
  rwa [peek_of_lt l₁ i h₁, peek_of_lt l₂ i h₂] at this

theorem peek_append_left (l r : List Nat) (i : Nat) (h : i < l.length) :
    peek (l ++ r) i = peek l i := by
  unfold peek
  exact List.getD_append l r 0 i h

theorem peek_append_right (l r : List Nat) (i : Nat) (h : l.length ≤ i) :
    peek (l ++ r) i = peek r (i - l.length) := by
  unfold peek
  exact List.getD_append_right l r 0 i h

theorem peek_append_zero (l : List Nat) (i : Nat) : peek (l ++ [0]) i = peek l i := by
  by_cases h : i < l.length
  · exact peek_append_left l [0] i h
  · have h' : l.length ≤ i := Nat.le_of_not_lt h
    rw [peek_of_le l i h', peek_append_right l [0] i h']
    cases i - l.length <;> simp [peek]

/-! ## The first three loops are pointwise -/

theorem lowerStep_eq_pw : lowerStep = pwStep (fun x y z => (tolower x, tolower y, z)) := by
  funext s j
  simp [lowerStep, pwStep, set_peek_self]

theorem resetStep_eq_pw : resetStep = pwStep (fun x y _ => (x, y, 45)) := by
  funext s j
  simp [resetStep, pwStep, set_peek_self]

theorem pairStep_eq_pw :
    pairStep = pwStep (fun x y z => if x = y then (45, 45, toupper y) else (x, y, z)) := by
  funext s j
  unfold pairStep pwStep
  by_cases h : peek s.a j = peek s.g j
  · simp [h]
  · simp [h, set_peek_self]

theorem pwFold (f : Nat → Nat → Nat → Nat × Nat × Nat) (s : HintState) (N : Nat)
    (ha : s.a.length = N) (hg : s.g.length = N) (hm : s.modifyWord.length = N)
    (k : Nat) (hk : k ≤ N) :
    ((List.range k).foldl (pwStep f) s).a.length = N ∧
    ((List.range k).foldl (pwStep f) s).g.length = N ∧
    ((List.range k).foldl (pwStep f) s).modifyWord.length = N ∧
    ∀ idx,
      (peek ((List.range k).foldl (pwStep f) s).a idx,
       peek ((List.range k).foldl (pwStep f) s).g idx,
       peek ((List.range k).foldl (pwStep f) s).modifyWord idx) =
        if idx < k then f (peek s.a idx) (peek s.g idx) (peek s.modifyWord idx)
        else (peek s.a idx, peek s.g idx, peek s.modifyWord idx) := by
  induction k with
  | zero => simp [ha, hg, hm]
  | succ k ih =>
    obtain ⟨iha, ihg, ihm, ih⟩ := ih (Nat.le_of_succ_le hk)
    rw [List.range_succ, List.foldl_append]
    simp only [List.foldl_cons, List.foldl_nil]
    generalize (List.range k).foldl (pwStep f) s = r at *
    have hk' := ih k
    simp only [lt_irrefl, if_false, Prod.mk.injEq] at hk'
    obtain ⟨e1, e2, e3⟩ := hk'
    refine ⟨by simp [pwStep, iha], by simp [pwStep, ihg], by simp [pwStep, ihm], ?_⟩
    intro idx
    have hidx := ih idx
    simp only [pwStep, peek_set, e1, e2, e3, iha, ihg, ihm]
    by_cases h1 : k = idx
    · subst h1
      have : k < N := hk
      simp [this]
    · by_cases h2 : idx < k
      · have h3 : idx < k + 1 := by omega
        simp only [h1, h2, h3, if_true, false_and, if_false] at hidx ⊢
        exact hidx
      · have h3 : ¬ idx < k + 1 := by omega
        simp only [h1, h2, h3, if_true, false_and, if_false] at hidx ⊢
        exact hidx

/-! ## Closed form of the state after the third loop -/

theorem isalpha_ne_zero {c : Nat} (h : isalpha c = true) : c ≠ 0 := by
  rintro rfl
  simp [isalpha] at h

theorem cstr_of_alphabetic {w : List Nat} (h : alphabetic w) : cstr w = w := by
  unfold cstr
  rw [List.takeWhile_eq_self_iff]
  intro x hx
  simpa using isalpha_ne_zero (h x hx)

theorem cstr_append_zero {w : List Nat} (h : ∀ c ∈ w, c ≠ 0) (r : List Nat) :
    cstr (w ++ 0 :: r) = w := by
  unfold cstr
  induction w with
  | nil => simp
  | cons x xs ih =>
    have hx : x ≠ 0 := h x (List.mem_cons_self _ _)
    simp only [List.cons_append, List.takeWhile_cons, ne_eq, hx, not_false_eq_true,
      decide_True, if_true, List.cons.injEq, true_and]
    exact ih (fun c hc => h c (List.mem_cons_of_mem _ hc))

theorem peek_zipWith (f : Nat → Nat → Nat) (l₁ l₂ : List Nat) (i : Nat)
    (h₁ : i < l₁.length) (h₂ : i < l₂.length) :
    peek (List.zipWith f l₁ l₂) i = f (peek l₁ i) (peek l₂ i) := by
  rw [peek_of_lt _ _ h₁, peek_of_lt _ _ h₂, peek_of_lt _ _ (by simp [h₁, h₂])]
  simp

theorem peek_replicate_zero (k i : Nat) : peek (List.replicate k 0) i = 0 := by
  by_cases h : i < k
  · rw [peek_of_lt _ _ (by simpa using h)]; simp
  · exact peek_of_le _ _ (by simpa using h)

theorem tolower_zero : tolower 0 = 0 := by decide

theorem toupper_zero : toupper 0 = 0 := by decide

theorem hintInit_eq (guess answer : List Nat) (n : Nat)
    (hga : alphabetic guess) (haa : alphabetic answer) :
    hintInit guess answer n =
      { a := answer ++ [0], g := guess ++ [0], modifyWord := List.replicate (n + 1) 0 } := by
  simp [hintInit, strdup, cstr_of_alphabetic haa, cstr_of_alphabetic hga]

theorem hintLowered_spec (guess answer : List Nat) (n : Nat)
    (hg : guess.length = n) (ha : answer.length = n)
    (hga : alphabetic guess) (haa : alphabetic answer) :
    (hintLowered guess answer n).a.length = n + 1 ∧
    (hintLowered guess answer n).g.length = n + 1 ∧
    (hintLowered guess answer n).modifyWord.length = n + 1 ∧
    ∀ idx, peek (hintLowered guess answer n).a idx = tolower (peek answer idx) ∧
      peek (hintLowered guess answer n).g idx = tolower (peek guess idx) ∧
      peek (hintLowered guess answer n).modifyWord idx = 0 := by
  unfold hintLowered
  rw [hintInit_eq guess answer n hga haa]
  have h := pwFold (fun x y z => (tolower x, tolower y, z))
    { a := answer ++ [0], g := guess ++ [0], modifyWord := List.replicate (n + 1) 0 } (n + 1)
    (by simp [ha]) (by simp [hg]) (by simp) (n + 1) (le_refl _)
  rw [← lowerStep_eq_pw] at h
  obtain ⟨h1, h2, h3, h4⟩ := h
  refine ⟨h1, h2, h3, ?_⟩
  intro idx
  have h5 := h4 idx
  generalize List.foldl lowerStep _ _ = r at h5 ⊢
  simp only [peek_append_zero, peek_replicate_zero] at h5
  by_cases hi : idx < n + 1
  · simp only [hi, if_true, Prod.mk.injEq] at h5
    exact h5
  · simp only [hi, if_false, Prod.mk.injEq] at h5
    have e1 : peek answer idx = 0 := peek_of_le _ _ (by omega)
    have e2 : peek guess idx = 0 := peek_of_le _ _ (by omega)
    rw [e1, e2] at h5 ⊢
    simpa [tolower_zero] using h5

theorem hintReset_spec (guess answer : List Nat) (n : Nat)
    (hg : guess.length = n) (ha : answer.length = n)
    (hga : alphabetic guess) (haa : alphabetic answer) :
    (hintReset guess answer n).a.length = n + 1 ∧
    (hintReset guess answer n).g.length = n + 1 ∧
    (hintReset guess answer n).modifyWord.length = n + 1 ∧
    ∀ idx, peek (hintReset guess answer n).a idx = tolower (peek answer idx) ∧
      peek (hintReset guess answer n).g idx = tolower (peek guess idx) ∧
      peek (hintReset guess answer n).modifyWord idx = if idx < n then 45 else 0 := by
  obtain ⟨l1, l2, l3, l4⟩ := hintLowered_spec guess answer n hg ha hga haa
  have h := pwFold (fun x y _ => (x, y, 45)) (hintLowered guess answer n) (n + 1)
    l1 l2 l3 (n + 1) (le_refl _)
  rw [← resetStep_eq_pw] at h
  obtain ⟨h1, h2, h3, h4⟩ := h
  unfold hintReset
  generalize List.foldl resetStep _ _ = r at h1 h2 h3 h4 ⊢
  refine ⟨h1, h2, by simpa using h3, ?_⟩
  intro idx
  have h5 := h4 idx
  obtain ⟨m1, m2, m3⟩ := l4 idx
  simp only [peek_set, h3]
  by_cases hi : idx < n + 1
  · simp only [hi, if_true, Prod.mk.injEq] at h5
    obtain ⟨e1, e2, e3⟩ := h5
    refine ⟨by rw [e1, m1], by rw [e2, m2], ?_⟩
    by_cases hn : n = idx
    · subst hn; simp
    · have : idx < n := by omega
      simp [hn, this, e3]
  · simp only [hi, if_false, Prod.mk.injEq] at h5
    obtain ⟨e1, e2, e3⟩ := h5
    refine ⟨by rw [e1, m1], by rw [e2, m2], ?_⟩
    have h6 : ¬ n = idx := by omega
    have h7 : ¬ idx < n := by omega
    simp [h6, h7, e3, m3]

theorem hintPaired_eq (guess answer : List Nat) (n : Nat)
    (hg : guess.length = n) (ha : answer.length = n)
    (hga : alphabetic guess) (haa : alphabetic answer) :
    hintPaired guess answer n =
      { a := pairedA guess answer ++ [45],
        g := pairedG guess answer ++ [45],
        modifyWord := pairedM guess answer ++ [0] } := by
  obtain ⟨l1, l2, l3, l4⟩ := hintReset_spec guess answer n hg ha hga haa
  have h := pwFold (fun x y z => if x = y then (45, 45, toupper y) else (x, y, z))
    (hintReset guess answer n) (n + 1) l1 l2 l3 (n + 1) (le_refl _)
  rw [← pairStep_eq_pw] at h
  obtain ⟨h1, h2, h3, h4⟩ := h
  unfold hintPaired
  generalize List.foldl pairStep _ _ = r at h1 h2 h3 h4 ⊢
  have key : ∀ idx, peek r.a idx = peek (pairedA guess answer ++ [45]) idx ∧
      peek r.g idx = peek (pairedG guess answer ++ [45]) idx ∧
      peek r.modifyWord idx = peek (pairedM guess answer ++ [0]) idx := by
    intro idx
    have h5 := h4 idx
    obtain ⟨m1, m2, m3⟩ := l4 idx
    rw [m1, m2, m3] at h5
    rcases Nat.lt_trichotomy idx n with hlt | heq | hgt
    · have hi : idx < n + 1 := by omega
      have p1 : peek (pairedA guess answer ++ [45]) idx =
          if tolower (peek answer idx) = tolower (peek guess idx) then 45
          else tolower (peek answer idx) := by
        rw [peek_append_left _ _ _ (by simp [pairedA, hg, ha, hlt])]
        exact peek_zipWith _ _ _ _ (by omega) (by omega)
      have p2 : peek (pairedG guess answer ++ [45]) idx =
          if tolower (peek answer idx) = tolower (peek guess idx) then 45
          else tolower (peek guess idx) := by
        rw [peek_append_left _ _ _ (by simp [pairedG, hg, ha, hlt])]
        exact peek_zipWith _ _ _ _ (by omega) (by omega)
      have p3 : peek (pairedM guess answer ++ [0]) idx =
          if tolower (peek answer idx) = tolower (peek guess idx)
          then toupper (tolower (peek guess idx)) else 45 := by
        rw [peek_append_left _ _ _ (by simp [pairedM, hg, ha, hlt])]
        exact peek_zipWith _ _ _ _ (by omega) (by omega)
      rw [p1, p2, p3]
      simp only [hi, hlt, if_true] at h5
      by_cases hxy : tolower (peek answer idx) = tolower (peek guess idx)
      · simp only [hxy, if_true, Prod.mk.injEq] at h5 ⊢
        exact h5
      · simp only [hxy, if_false, Prod.mk.injEq] at h5 ⊢
        exact h5
    · subst heq
      have e1 : peek answer idx = 0 := peek_of_le _ _ (by omega)
      have e2 : peek guess idx = 0 := peek_of_le _ _ (by omega)
      have q1 : peek (pairedA guess answer ++ [45]) idx = 45 := by
        rw [peek_append_right _ _ _ (by simp [pairedA, hg, ha])]
        simp [pairedA, hg, ha, peek]
      have q2 : peek (pairedG guess answer ++ [45]) idx = 45 := by
        rw [peek_append_right _ _ _ (by simp [pairedG, hg, ha])]
        simp [pairedG, hg, ha, peek]
      have q3 : peek (pairedM guess answer ++ [0]) idx = 0 := by
        rw [peek_append_zero]
        exact peek_of_le _ _ (by simp [pairedM, hg, ha])
      rw [q1, q2, q3]
      simp only [e1, e2, tolower_zero, toupper_zero, lt_add_one, if_true, Prod.mk.injEq] at h5
      exact h5
    · have e1 : peek answer idx = 0 := peek_of_le _ _ (by omega)
      have e2 : peek guess idx = 0 := peek_of_le _ _ (by omega)
      have hi : ¬ idx < n + 1 := by omega
      have hi' : ¬ idx < n := by omega
      rw [peek_of_le (pairedA guess answer ++ [45]) idx (by simp [pairedA, hg, ha]; omega),
        peek_of_le (pairedG guess answer ++ [45]) idx (by simp [pairedG, hg, ha]; omega),
        peek_of_le (pairedM guess answer ++ [0]) idx (by simp [pairedM, hg, ha]; omega)]
      simp only [e1, e2, tolower_zero, hi, hi', if_false, Prod.mk.injEq] at h5
      exact h5
  have ea : r.a = pairedA guess answer ++ [45] :=
    ext_peek (by simp [h1, pairedA, hg, ha]) (fun i => (key i).1)
  have eg : r.g = pairedG guess answer ++ [45] :=
    ext_peek (by simp [h2, pairedG, hg, ha]) (fun i => (key i).2.1)
  have em : r.modifyWord = pairedM guess answer ++ [0] :=
    ext_peek (by simp [h3, pairedM, hg, ha]) (fun i => (key i).2.2)
  cases r
  simp_all

/-! ## The fourth loop as a list recursion -/

theorem claim_length (c : Nat) : ∀ (a r : List Nat), claim c a = some r → r.length = a.length
  | [], r, h => by simp [claim] at h
  | x :: xs, r, h => by
    unfold claim at h
    by_cases hx : c = x
    · simp only [hx, if_true, Option.some.injEq] at h
      subst h; simp
    · simp only [hx, if_false, Option.map_eq_some'] at h
      obtain ⟨r', hr', rfl⟩ := h
      simp [claim_length c xs r' hr']

theorem scanLoop_cons (i j : Nat) (js : List Nat) (s : HintState) :
    scanLoop i (j :: js) s =
      if peek s.g i = peek s.a j ∧ peek s.g i ≠ 45 then
        { s with modifyWord := s.modifyWord.set i (tolower (peek s.g i)),
                 a := s.a.set j 45 }
      else scanLoop i js s := rfl

theorem scanLoop_range' (i c : Nat) (g m : List Nat) (hc : peek g i = c) (hc45 : c ≠ 45) :
    ∀ (asuf apre : List Nat),
      scanLoop i (List.range' apre.length (asuf.length + 1))
        { a := apre ++ asuf ++ [45], g := g, modifyWord := m } =
      match claim c asuf with
      | some r => { a := apre ++ r ++ [45], g := g, modifyWord := m.set i (tolower c) }
      | none => { a := apre ++ asuf ++ [45], g := g, modifyWord := m } := by
  intro asuf
  induction asuf with
  | nil =>
    intro apre
    have h1 : peek (apre ++ [] ++ [45]) apre.length = 45 := by
      rw [peek_append_right _ _ _ (by simp)]
      simp [peek]
    simp only [List.length_nil, zero_add, List.range'_one, scanLoop, hc, h1, claim]
    simp [hc45]
  | cons x xs ih =>
    intro apre
    have h1 : peek (apre ++ x :: xs ++ [45]) apre.length = x := by
      rw [List.append_assoc, peek_append_right _ _ _ (le_refl _)]
      simp [peek]
    rw [List.length_cons, List.range'_succ, scanLoop_cons]
    simp only [hc, h1]
    by_cases hx : c = x
    · subst hx
      have h2 : (apre ++ c :: xs ++ [45]).set apre.length 45 = apre ++ 45 :: xs ++ [45] := by
        rw [List.append_assoc, List.set_append]
        simp
      simp [hc45, claim, h2]
    · have h3 := ih (apre ++ [x])
      simp only [List.length_append, List.length_singleton, List.append_assoc,
        List.singleton_append] at h3
      simp only [hx, false_and, if_false, claim]
      rw [List.append_assoc]
      rw [h3]
      cases claim c xs <;> simp

theorem scanLoop_dash (i : Nat) (js : List Nat) (s : HintState) (h : peek s.g i = 45) :
    scanLoop i js s = s := by
  induction js with
  | nil => rfl
  | cons j js ih => rw [scanLoop_cons]; simp [h, ih]

theorem scanLoop_full (n i c : Nat) (a g m : List Nat) (ha : a.length = n)
    (hc : peek g i = c) (hc45 : c ≠ 45) :
    scanLoop i (List.range (n + 1)) { a := a ++ [45], g := g, modifyWord := m } =
      match claim c a with
      | some r => { a := r ++ [45], g := g, modifyWord := m.set i (tolower c) }
      | none => { a := a ++ [45], g := g, modifyWord := m } := by
  have h := scanLoop_range' i c g m hc hc45 a []
  simp only [List.length_nil, List.nil_append, ha] at h
  rw [List.range_eq_range']
  exact h

theorem scanAll (n : Nat) (G : List Nat) :
    ∀ (gsuf gpre msuf mpre a : List Nat), gpre ++ gsuf = G → mpre.length = gpre.length →
      msuf.length = gsuf.length → a.length = n →
      ∃ r, r.length = n ∧
        (List.range' gpre.length gsuf.length).foldl
            (fun s i => scanLoop i (List.range (n + 1)) s)
            { a := a ++ [45], g := G ++ [45], modifyWord := mpre ++ msuf ++ [0] } =
          { a := r ++ [45], g := G ++ [45],
            modifyWord := mpre ++ pass2 gsuf msuf a ++ [0] } := by
  intro gsuf
  induction gsuf with
  | nil =>
    intro gpre msuf mpre a _ _ hm ha
    have : msuf = [] := List.length_eq_zero.mp (by simpa using hm)
    subst this
    exact ⟨a, ha, by simp [pass2]⟩
  | cons gi gs ih =>
    intro gpre msuf mpre a hG hmp hm ha
    cases msuf with
    | nil => simp at hm
    | cons mi ms =>
      have hm' : ms.length = gs.length := by simpa using hm
      have hpk : peek (G ++ [45]) gpre.length = gi := by
        rw [← hG, List.append_assoc, peek_append_right _ _ _ (le_refl _)]
        simp [peek]
      have hG' : (gpre ++ [gi]) ++ gs = G := by simpa using hG
      rw [List.length_cons, List.range'_succ, List.foldl_cons]
      by_cases h45 : gi = 45
      · rw [scanLoop_dash _ _ _ (by simpa [h45] using hpk)]
        obtain ⟨r, hr, e⟩ := ih (gpre ++ [gi]) ms (mpre ++ [mi]) a hG' (by simp [hmp]) hm' ha
        refine ⟨r, hr, ?_⟩
        simpa [pass2, h45] using e
      · rw [scanLoop_full n _ gi a _ _ ha hpk h45]
        cases hcl : claim gi a with
        | none =>
          obtain ⟨r, hr, e⟩ := ih (gpre ++ [gi]) ms (mpre ++ [mi]) a hG' (by simp [hmp]) hm' ha
          refine ⟨r, hr, ?_⟩
          simpa [pass2, h45, hcl] using e
        | some a1 =>
          have ha1 : a1.length = n := by rw [claim_length gi a a1 hcl, ha]
          obtain ⟨r, hr, e⟩ :=
            ih (gpre ++ [gi]) ms (mpre ++ [tolower gi]) a1 hG' (by simp [hmp]) hm' ha1
          refine ⟨r, hr, ?_⟩
          have hset : (mpre ++ mi :: ms ++ [0]).set gpre.length (tolower gi) =
              mpre ++ (tolower gi :: (ms ++ [0])) := by
            rw [List.append_assoc, List.set_append]
            simp [hmp]
          rw [hset]
          simpa [pass2, h45, hcl] using e

/-! ## Character facts -/

theorem tolower_idem (c : Nat) : tolower (tolower c) = tolower c := by
  unfold tolower; split_ifs <;> omega

theorem toupper_tolower (c : Nat) : toupper (tolower c) = toupper c := by
  unfold toupper tolower; split_ifs <;> omega

theorem tolower_toupper (c : Nat) : tolower (toupper c) = tolower c := by
  unfold toupper tolower; split_ifs <;> omega

theorem isalpha_iff (c : Nat) : isalpha c = true ↔ (65 ≤ c ∧ c ≤ 90) ∨ (97 ≤ c ∧ c ≤ 122) := by
  simp [isalpha]

theorem tolower_range {c : Nat} (h : isalpha c = true) : 97 ≤ tolower c ∧ tolower c ≤ 122 := by
  rw [isalpha_iff] at h
  unfold tolower; split_ifs <;> omega

theorem toupper_range {c : Nat} (h : isalpha c = true) : 65 ≤ toupper c ∧ toupper c ≤ 90 := by
  rw [isalpha_iff] at h
  unfold toupper; split_ifs <;> omega

theorem tolower_of_lower {c : Nat} (h : 97 ≤ c ∧ c ≤ 122) : tolower c = c := by
  unfold tolower; split_ifs <;> omega

/-! ## The hint is `pass2` of the paired state -/

theorem hintScanned_modifyWord (guess answer : List Nat) (n : Nat)
    (hg : guess.length = n) (ha : answer.length = n)
    (hga : alphabetic guess) (haa : alphabetic answer) :
    (hintScanned guess answer n).modifyWord =
      pass2 (pairedG guess answer) (pairedM guess answer) (pairedA guess answer) ++ [0] := by
  have hfold : ∀ (f : HintState → Nat → HintState) (s : HintState) (k : Nat),
      (List.range (k + 1)).foldl f s = f ((List.range k).foldl f s) k := by
    intro f s k
    rw [List.range_succ, List.foldl_append]
    rfl
  unfold hintScanned
  rw [hintPaired_eq guess answer n hg ha hga haa, hfold,
    List.range_eq_range' n]
  have hGl : (pairedG guess answer).length = n := by simp [pairedG, hg, ha]
  have hMl : (pairedM guess answer).length = n := by simp [pairedM, hg, ha]
  have hAl : (pairedA guess answer).length = n := by simp [pairedA, hg, ha]
  obtain ⟨r, _, e⟩ := scanAll n (pairedG guess answer) (pairedG guess answer) []
    (pairedM guess answer) [] (pairedA guess answer) rfl rfl (by rw [hGl, hMl]) hAl
  simp only [List.length_nil, List.nil_append, hGl] at e
  rw [e, scanLoop_dash]
  show peek (pairedG guess answer ++ [45]) n = 45
  rw [peek_append_right _ _ _ (by omega), hGl]
  simp [peek]

theorem pass2_length : ∀ (G M a : List Nat), G.length = M.length →
    (pass2 G M a).length = G.length
  | [], _, _, _ => by simp [pass2]
  | _ :: _, [], _, h => by simp at h
  | gi :: gs, mi :: ms, a, h => by
    have h' : gs.length = ms.length := by simpa using h
    unfold pass2
    by_cases h45 : gi = 45
    · simp [h45, pass2_length gs ms a h']
    · simp only [h45, if_false]
      cases claim gi a with
      | none => simp [pass2_length gs ms a h']
      | some r => simp [pass2_length gs ms r h']

theorem pass2_mem : ∀ (G M a : List Nat) (x : Nat), x ∈ pass2 G M a →
    x ∈ M ∨ ∃ c ∈ G, c ≠ 45 ∧ x = tolower c
  | [], _, _, x, h => by simp [pass2] at h
  | _ :: _, [], _, x, h => by simp [pass2] at h
  | gi :: gs, mi :: ms, a, x, h => by
    unfold pass2 at h
    by_cases h45 : gi = 45
    · simp only [h45, if_true, List.mem_cons] at h
      rcases h with h | h
      · left; simp [h]
      · rcases pass2_mem gs ms a x h with h | ⟨c, hc, hc2⟩
        · left; simp [h]
        · right; exact ⟨c, List.mem_cons_of_mem _ hc, hc2⟩
    · simp only [h45, if_false] at h
      cases hcl : claim gi a with
      | none =>
        simp only [hcl, List.mem_cons] at h
        rcases h with h | h
        · left; simp [h]
        · rcases pass2_mem gs ms a x h with h | ⟨c, hc, hc2⟩
          · left; simp [h]
          · right; exact ⟨c, List.mem_cons_of_mem _ hc, hc2⟩
      | some r =>
        simp only [hcl, List.mem_cons] at h
        rcases h with h | h
        · right; exact ⟨gi, List.mem_cons_self _ _, h45, h⟩
        · rcases pass2_mem gs ms r x h with h | ⟨c, hc, hc2⟩
          · left; simp [h]
          · right; exact ⟨c, List.mem_cons_of_mem _ hc, hc2⟩

theorem mem_zipWith_elim (f : Nat → Nat → Nat) : ∀ (l₁ l₂ : List Nat) (x : Nat),
    x ∈ List.zipWith f l₁ l₂ → ∃ u ∈ l₁, ∃ v ∈ l₂, x = f u v
  | [], _, x, h => by simp at h
  | _ :: _, [], x, h => by simp at h
  | u :: us, v :: vs, x, h => by
    simp only [List.zipWith_cons_cons, List.mem_cons] at h
    rcases h with h | h
    · exact ⟨u, List.mem_cons_self _ _, v, List.mem_cons_self _ _, h⟩
    · obtain ⟨u', hu, v', hv, e⟩ := mem_zipWith_elim f us vs x h
      exact ⟨u', List.mem_cons_of_mem _ hu, v', List.mem_cons_of_mem _ hv, e⟩

theorem pairedM_mem {guess answer : List Nat} (hga : alphabetic guess) {x : Nat}
    (h : x ∈ pairedM guess answer) : x = 45 ∨ (65 ≤ x ∧ x ≤ 90) := by
  obtain ⟨u, _, v, hv, e⟩ := mem_zipWith_elim _ _ _ _ h
  subst e
  have := toupper_range (hga v hv)
  rw [toupper_tolower]
  split_ifs
  · right; exact this
  · left; rfl

theorem pairedG_mem {guess answer : List Nat} (hga : alphabetic guess) {x : Nat}
    (h : x ∈ pairedG guess answer) : x = 45 ∨ (97 ≤ x ∧ x ≤ 122) := by
  obtain ⟨u, _, v, hv, e⟩ := mem_zipWith_elim _ _ _ _ h
  subst e
  have := tolower_range (hga v hv)
  split_ifs
  · left; rfl
  · right; exact this

theorem pairedA_mem {guess answer : List Nat} (haa : alphabetic answer) {x : Nat}
    (h : x ∈ pairedA guess answer) : x = 45 ∨ (97 ≤ x ∧ x ≤ 122) := by
  obtain ⟨u, hu, v, _, e⟩ := mem_zipWith_elim _ _ _ _ h
  subst e
  have := tolower_range (haa u hu)
  split_ifs
  · left; rfl
  · right; exact this

/-- The printed hint of `echo_hint` on alphabetic words of length `n`. -/
theorem hint_eq_pass2 (guess answer : List Nat) (n : Nat)
    (hg : guess.length = n) (ha : answer.length = n)
    (hga : alphabetic guess) (haa : alphabetic answer) :
    hint guess answer n =
      pass2 (pairedG guess answer) (pairedM guess answer) (pairedA guess answer) := by
  unfold hint
  rw [hintScanned_modifyWord guess answer n hg ha hga haa]
  apply cstr_append_zero
  intro c hc
  rcases pass2_mem _ _ _ _ hc with h | ⟨d, hd, _, e⟩
  · rcases pairedM_mem hga h with h | h <;> omega
  · rcases pairedG_mem hga hd with h | h
    · subst h; subst e; decide
    · rw [tolower_of_lower h] at e; omega

theorem hint_length (guess answer : List Nat) (n : Nat)
    (hg : guess.length = n) (ha : answer.length = n)
    (hga : alphabetic guess) (haa : alphabetic answer) :
    (hint guess answer n).length = n := by
  rw [hint_eq_pass2 guess answer n hg ha hga haa, pass2_length]
  · simp [pairedG, hg, ha]
  · simp [pairedG, pairedM]

/-! ## The spec's scorer and the code -/

theorem claim_slotByte (c : Nat) (hc : c ≠ 45) : ∀ (X : List (Option Nat)),
    claim c (X.map slotByte) = (specScan c X).map (List.map slotByte)
  | [] => rfl
  | x :: xs => by
    have h : c = slotByte x ↔ x = some c := by
      cases x with
      | none => simp [slotByte, hc]
      | some y => simp [slotByte, eq_comm]
    simp only [List.map_cons, claim, specScan, claim_slotByte c hc xs]
    by_cases hx : x = some c
    · simp [hx, slotByte]
    · simp only [hx, h, if_false]
      cases specScan c xs <;> simp

theorem pass2_eq_specPresent : ∀ (guess answer : List Nat) (X : List (Option Nat)),
    alphabetic guess →
    pass2 (pairedG guess answer) (pairedM guess answer) (X.map slotByte) =
      specPresent ((List.zipWith specExact guess answer).map (fun t => (t.1, t.2.1, t.2.2.1))) X
  | [], _, _, _ => by simp [pairedG, pairedM, pass2, specPresent]
  | _ :: _, [], _, _ => by simp [pairedG, pairedM, pass2, specPresent]
  | gch :: gs, ach :: as, X, hga => by
    have hgs : alphabetic gs := fun c hc => hga c (List.mem_cons_of_mem _ hc)
    have hlow := tolower_range (hga gch (List.mem_cons_self _ _))
    have ih := pass2_eq_specPresent gs as
    simp only [pairedG, pairedM] at ih ⊢
    simp only [List.zipWith_cons_cons, List.map_cons, specExact]
    by_cases he : tolower ach = tolower gch
    · simp only [he, if_true, pass2, specPresent]
      rw [ih X hgs, toupper_tolower]
    · have he' : ¬ tolower gch = tolower ach := fun h => he h.symm
      have h45 : tolower gch ≠ 45 := by omega
      simp only [he, he', if_false, pass2, h45, specPresent]
      rw [claim_slotByte _ h45]
      cases hs : specScan (tolower gch) X with
      | none => simp only [Option.map_none']; rw [ih X hgs]
      | some X1 => simp only [Option.map_some', tolower_idem]; rw [ih X1 hgs]

theorem pairedA_eq_slots : ∀ (guess answer : List Nat),
    pairedA guess answer =
      ((List.zipWith specExact guess answer).map (fun t => t.2.2.2)).map slotByte
  | [], _ => by simp [pairedA]
  | _ :: _, [] => by simp [pairedA]
  | gch :: gs, ach :: as => by
    have ih := pairedA_eq_slots gs as
    simp only [pairedA] at ih ⊢
    simp only [List.zipWith_cons_cons, List.map_cons, ih, specExact]
    by_cases he : tolower ach = tolower gch
    · simp [he, slotByte]
    · have he' : ¬ tolower gch = tolower ach := fun h => he h.symm
      simp [he, he', slotByte]

/-- On alphabetic words of length `n` the hint of `echo_hint` is the spec's HintString. -/
theorem hint_eq_spec_score (guess answer : List Nat) (n : Nat)
    (hg : guess.length = n) (ha : answer.length = n)
    (hga : alphabetic guess) (haa : alphabetic answer) :
    hint guess answer n = spec_score guess answer := by
  rw [hint_eq_pass2 guess answer n hg ha hga haa, pairedA_eq_slots,
    pass2_eq_specPresent guess answer _ hga]
  rfl

/-! ## Properties of `pass2` -/

theorem peek_cons_zero (x : Nat) (xs : List Nat) : peek (x :: xs) 0 = x := rfl

theorem peek_cons_succ (x : Nat) (xs : List Nat) (i : Nat) :
    peek (x :: xs) (i + 1) = peek xs i := rfl

theorem pass2_peek : ∀ (G M a : List Nat) (i : Nat), G.length = M.length → i < G.length →
    (peek G i = 45 → peek (pass2 G M a) i = peek M i) ∧
    (peek (pass2 G M a) i = peek M i ∨
      (peek G i ≠ 45 ∧ peek (pass2 G M a) i = tolower (peek G i)))
  | [], _, _, _, _, hi => by simp at hi
  | _ :: _, [], _, _, h, _ => by simp at h
  | gi :: gs, mi :: ms, a, i, h, hi => by
    have h' : gs.length = ms.length := by simpa using h
    unfold pass2
    by_cases h45 : gi = 45
    · simp only [h45, if_true]
      cases i with
      | zero => simp [peek_cons_zero]
      | succ i =>
        simp only [peek_cons_succ]
        exact pass2_peek gs ms a i h' (by simpa using hi)
    · simp only [h45, if_false]
      cases claim gi a with
      | none =>
        cases i with
        | zero => simp [peek_cons_zero]
        | succ i =>
          simp only [peek_cons_succ]
          exact pass2_peek gs ms a i h' (by simpa using hi)
      | some r =>
        cases i with
        | zero => simp [peek_cons_zero, h45]
        | succ i =>
          simp only [peek_cons_succ]
          exact pass2_peek gs ms r i h' (by simpa using hi)

theorem claim_eq_none {c : Nat} : ∀ {a : List Nat}, c ∉ a → claim c a = none
  | [], _ => rfl
  | x :: xs, h => by
    have hx : ¬ c = x := fun e => h (e ▸ List.mem_cons_self _ _)
    have hxs : c ∉ xs := fun e => h (List.mem_cons_of_mem _ e)
    simp [claim, hx, claim_eq_none hxs]

theorem pass2_untouched : ∀ (G M a : List Nat), G.length = M.length →
    (∀ c ∈ G, c = 45 ∨ c ∉ a) → pass2 G M a = M
  | [], [], _, _, _ => by simp [pass2]
  | [], _ :: _, _, h, _ => by simp at h
  | _ :: _, [], _, h, _ => by simp at h
  | gi :: gs, mi :: ms, a, h, hG => by
    have h' : gs.length = ms.length := by simpa using h
    have ih := pass2_untouched gs ms a h' (fun c hc => hG c (List.mem_cons_of_mem _ hc))
    unfold pass2
    rcases hG gi (List.mem_cons_self _ _) with h45 | hno
    · simp [h45, ih]
    · by_cases h45 : gi = 45
      · simp [h45, ih]
      · simp [h45, claim_eq_none hno, ih]

theorem claim_count (g c : Nat) : ∀ (a r : List Nat), claim g a = some r →
    r.count c + (if g = c then 1 else 0) = a.count c + (if 45 = c then 1 else 0)
  | [], r, h => by simp [claim] at h
  | x :: xs, r, h => by
    unfold claim at h
    by_cases hx : g = x
    · subst hx
      simp only [if_true, Option.some.injEq] at h
      subst h
      simp only [List.count_cons, beq_iff_eq]
      omega
    · simp only [hx, if_false, Option.map_eq_some'] at h
      obtain ⟨r', hr', rfl⟩ := h
      have ih := claim_count g c xs r' hr'
      simp only [List.count_cons, beq_iff_eq]
      omega

theorem not_mem_of_claim_none {c : Nat} : ∀ {a : List Nat}, claim c a = none → c ∉ a
  | [], _ => by simp
  | x :: xs, h => by
    unfold claim at h
    by_cases hx : c = x
    · simp [hx] at h
    · simp only [hx, if_false, Option.map_eq_none'] at h
      simp only [List.mem_cons, not_or]
      exact ⟨hx, not_mem_of_claim_none h⟩

/-- The number of marks `c` that the fourth loop leaves is the smaller of the
numbers of `c` in `g` and in `a` before it. -/
theorem pass2_count (c : Nat) (hc : c ≠ 45) : ∀ (G M a : List Nat), G.length = M.length →
    c ∉ M → (∀ x ∈ G, tolower x = x) →
    (pass2 G M a).count c = min (G.count c) (a.count c)
  | [], _, _, _, _, _ => by simp [pass2]
  | _ :: _, [], _, h, _, _ => by simp at h
  | gi :: gs, mi :: ms, a, h, hM, hG => by
    have h' : gs.length = ms.length := by simpa using h
    have hmi : ¬ mi = c := fun e => hM (e ▸ List.mem_cons_self _ _)
    have hms : c ∉ ms := fun e => hM (List.mem_cons_of_mem _ e)
    have hgs : ∀ x ∈ gs, tolower x = x := fun x hx => hG x (List.mem_cons_of_mem _ hx)
    have hgi : tolower gi = gi := hG gi (List.mem_cons_self _ _)
    unfold pass2
    by_cases h45 : gi = 45
    · have hne : ¬ (45 = c) := fun e => hc e.symm
      simp only [h45, if_true, List.count_cons, beq_iff_eq, hmi, hne, if_false, add_zero]
      exact pass2_count c hc gs ms a h' hms hgs
    · simp only [h45, if_false]
      cases hcl : claim gi a with
      | none =>
        have hno := not_mem_of_claim_none hcl
        have ih := pass2_count c hc gs ms a h' hms hgs
        simp only [List.count_cons, beq_iff_eq, hmi, if_false, add_zero, ih]
        by_cases hgc : gi = c
        · subst hgc
          have : a.count gi = 0 := List.count_eq_zero.mpr hno
          simp [this]
        · simp [hgc]
      | some r =>
        have ih := pass2_count c hc gs ms r h' hms hgs
        have hcnt := claim_count gi c a r hcl
        have hne : ¬ (45 = c) := fun e => hc e.symm
        simp only [hne, if_false, add_zero] at hcnt
        simp only [List.count_cons, beq_iff_eq, hgi, ih]
        by_cases hgc : gi = c
        · simp only [hgc, if_true] at hcnt ⊢
          omega
        · simp only [hgc, if_false, add_zero] at hcnt ⊢
          omega

theorem pass2_count_other (u : Nat) : ∀ (G M a : List Nat), G.length = M.length →
    (∀ x ∈ G, x ≠ 45 → tolower x ≠ u) → (∀ p ∈ G.zip M, p.1 ≠ 45 → p.2 ≠ u) →
    (pass2 G M a).count u = M.count u
  | [], [], _, _, _, _ => by simp [pass2]
  | [], _ :: _, _, h, _, _ => by simp at h
  | _ :: _, [], _, h, _, _ => by simp at h
  | gi :: gs, mi :: ms, a, h, hG, hZ => by
    have h' : gs.length = ms.length := by simpa using h
    have hgs : ∀ x ∈ gs, x ≠ 45 → tolower x ≠ u :=
      fun x hx => hG x (List.mem_cons_of_mem _ hx)
    have hzs : ∀ p ∈ gs.zip ms, p.1 ≠ 45 → p.2 ≠ u :=
      fun p hp => hZ p (by simp [List.zip_cons_cons, hp])
    unfold pass2
    by_cases h45 : gi = 45
    · simp only [h45, if_true, List.count_cons]
      rw [pass2_count_other u gs ms a h' hgs hzs]
    · have h1 : ¬ tolower gi = u := hG gi (List.mem_cons_self _ _) h45
      have h2 : ¬ mi = u := hZ (gi, mi) (by simp [List.zip_cons_cons]) h45
      simp only [h45, if_false]
      cases claim gi a with
      | none =>
        simp only [List.count_cons]
        rw [pass2_count_other u gs ms a h' hgs hzs]
      | some r =>
        simp only [List.count_cons, beq_iff_eq, h1, h2, if_false]
        rw [pass2_count_other u gs ms r h' hgs hzs]

/-! ## Letter counts in the paired state -/

theorem pairedA_count (c : Nat) (hc : c ≠ 45) : ∀ (guess answer : List Nat),
    (pairedA guess answer).count c =
      (List.zip guess answer).countP
        (fun p => decide (tolower p.2 = c ∧ tolower p.1 ≠ tolower p.2))
  | [], _ => by simp [pairedA]
  | _ :: _, [] => by simp [pairedA]
  | gch :: gs, ach :: as => by
    have ih := pairedA_count c hc gs as
    simp only [pairedA] at ih ⊢
    simp only [List.zipWith_cons_cons, List.zip_cons_cons, List.count_cons, List.countP_cons, ih]
    by_cases he : tolower ach = tolower gch
    · have hne : ¬ (45 = c) := fun e => hc e.symm
      simp [he, hne]
    · have he' : ¬ tolower gch = tolower ach := fun h => he h.symm
      simp [he, he']

theorem pairedM_pairedA_count (c : Nat) (hc : isalpha c = true) :
    ∀ (guess answer : List Nat), alphabetic guess →
    (pairedM guess answer).count (toupper c) + (pairedA guess answer).count (tolower c) ≤
      (answer.map tolower).count (tolower c)
  | [], _, _ => by simp [pairedM, pairedA]
  | _ :: _, [], _ => by simp [pairedM, pairedA]
  | gch :: gs, ach :: as, hga => by
    have hgs : alphabetic gs := fun x hx => hga x (List.mem_cons_of_mem _ hx)
    have ih := pairedM_pairedA_count c hc gs as hgs
    have hlow := tolower_range hc
    have hup := toupper_range hc
    simp only [pairedM, pairedA] at ih ⊢
    simp only [List.zipWith_cons_cons, List.map_cons, List.count_cons, beq_iff_eq]
    by_cases he : tolower ach = tolower gch
    · have h45 : ¬ (45 = tolower c) := by omega
      have key : toupper (tolower gch) = toupper c → tolower gch = tolower c := by
        intro hu
        have := congrArg tolower hu
        rwa [tolower_toupper, tolower_toupper, tolower_idem] at this
      simp only [he, if_true, h45, if_false, add_zero]
      split_ifs with h1 h2
      · omega
      · exact absurd (key h1) h2
      · omega
      · omega
    · have h45 : ¬ (45 = toupper c) := by omega
      simp only [he, if_false, h45, add_zero]
      omega

/-! ## Comparison ignoring case -/

theorem strcasecmp_eq_zero_iff : ∀ (s t : List Nat), alphabetic s → alphabetic t →
    (strcasecmp s t = 0 ↔ s.map tolower = t.map tolower)
  | [], [], _, _ => by simp [strcasecmp]
  | [], y :: ys, _, ht => by
    have := tolower_range (ht y (List.mem_cons_self _ _))
    simp only [strcasecmp, List.map_nil, List.map_cons]
    constructor
    · intro h; omega
    · intro h; simp at h
  | x :: xs, [], hs, _ => by
    have := tolower_range (hs x (List.mem_cons_self _ _))
    simp only [strcasecmp, List.map_nil, List.map_cons]
    constructor
    · intro h; omega
    · intro h; simp at h
  | x :: xs, y :: ys, hs, ht => by
    have ih := strcasecmp_eq_zero_iff xs ys (fun c hc => hs c (List.mem_cons_of_mem _ hc))
      (fun c hc => ht c (List.mem_cons_of_mem _ hc))
    simp only [strcasecmp, List.map_cons, List.cons.injEq]
    by_cases he : tolower x = tolower y
    · simp [he, ih]
    · simp only [he, if_false, false_and, iff_false]
      omega

theorem paired_congr {guess answer guess1 answer1 : List Nat}
    (hg : guess.map tolower = guess1.map tolower)
    (ha : answer.map tolower = answer1.map tolower) :
    pairedG guess answer = pairedG guess1 answer1 ∧
    pairedM guess answer = pairedM guess1 answer1 ∧
    pairedA guess answer = pairedA guess1 answer1 := by
  have e1 : ∀ (g a : List Nat), pairedG g a =
      List.zipWith (fun x y => if x = y then 45 else y) (a.map tolower) (g.map tolower) := by
    intro g a; simp [pairedG, List.zipWith_map]
  have e2 : ∀ (g a : List Nat), pairedM g a =
      List.zipWith (fun x y => if x = y then toupper y else 45)
        (a.map tolower) (g.map tolower) := by
    intro g a; simp [pairedM, List.zipWith_map]
  have e3 : ∀ (g a : List Nat), pairedA g a =
      List.zipWith (fun x y => if x = y then 45 else x) (a.map tolower) (g.map tolower) := by
    intro g a; simp [pairedA, List.zipWith_map]
  rw [e1, e2, e3, e1, e2, e3, hg, ha]
  exact ⟨rfl, rfl, rfl⟩

theorem paired_peek (guess answer : List Nat) (n i : Nat)
    (hg : guess.length = n) (ha : answer.length = n) (hi : i < n) :
    peek (pairedG guess answer) i =
      (if tolower (peek answer i) = tolower (peek guess i) then 45
       else tolower (peek guess i)) ∧
    peek (pairedM guess answer) i =
      (if tolower (peek answer i) = tolower (peek guess i) then toupper (tolower (peek guess i))
       else 45) :=
  ⟨peek_zipWith _ _ _ _ (by omega) (by omega), peek_zipWith _ _ _ _ (by omega) (by omega)⟩

theorem peek_mem (l : List Nat) (i : Nat) (h : i < l.length) : peek l i ∈ l := by
  rw [peek_of_lt l i h]
  exact List.getElem_mem h

theorem paired_zip : ∀ (guess answer : List Nat) (p : Nat × Nat),
    p ∈ (pairedG guess answer).zip (pairedM guess answer) → p.1 ≠ 45 → p.2 = 45
  | [], _, p, h, _ => by simp [pairedG] at h
  | _ :: _, [], p, h, _ => by simp [pairedG] at h
  | gch :: gs, ach :: as, p, h, hp => by
    have ih := paired_zip gs as p
    simp only [pairedG, pairedM] at ih h
    simp only [List.zipWith_cons_cons, List.zip_cons_cons, List.mem_cons] at h
    rcases h with h | h
    · subst h
      by_cases he : tolower ach = tolower gch
      · simp [he] at hp
      · simp [he]
    · exact ih h hp

theorem paired_self : ∀ (guess : List Nat),
    pairedG guess guess = guess.map (fun _ => 45) ∧
    pairedM guess guess = guess.map toupper
  | [] => by simp [pairedG, pairedM]
  | x :: xs => by
    have ih := paired_self xs
    simp only [pairedG, pairedM] at ih ⊢
    simp [ih.1, ih.2, toupper_tolower]

/-! ## The hint printed by `echo_hint` -/

/-- C1: for an alphabetic guess and answer of length `n`, `echo_hint`, whose
four loops run over the indices `0 .. n` inclusive, prints exactly the
HintString of the spec's two-pass algorithm run over the `n` positions
`0 .. n-1`, followed by a newline, and the hint has exactly `n` symbols. -/
theorem echo_hint_refines_spec (guess answer : List Nat) (n : Nat)
    (hg : guess.length = n) (ha : answer.length = n)
    (hga : alphabetic guess) (haa : alphabetic answer) :
    echo_hint guess answer n = spec_score guess answer ++ [10] ∧
    (hint guess answer n).length = n := by
  unfold echo_hint
  rw [hint_eq_spec_score guess answer n hg ha hga haa]
  refine ⟨rfl, ?_⟩
  rw [← hint_eq_spec_score guess answer n hg ha hga haa]
  exact hint_length guess answer n hg ha hga haa

theorem echo_hint_refines_spec_witness :
    (bytes "CRANE").length = 5 ∧ (bytes "SLATE").length = 5 ∧
    alphabetic (bytes "CRANE") ∧ alphabetic (bytes "SLATE") ∧
    echo_hint (bytes "CRANE") (bytes "SLATE") 5 =
      spec_score (bytes "CRANE") (bytes "SLATE") ++ [10] ∧
    (hint (bytes "CRANE") (bytes "SLATE") 5).length = 5 :=
  ⟨by decide, by decide, by decide, by decide,
    echo_hint_refines_spec (bytes "CRANE") (bytes "SLATE") 5
      (by decide) (by decide) (by decide) (by decide)⟩

/-- C2: for an alphabetic guess and answer of length `n` and a position
`i < n`, the hint symbol at `i` is the uppercase form of `guess[i]` exactly
when `guess[i]` and `answer[i]` are equal ignoring case; and at such a
position the fourth loop leaves `modifyWord[i]` as the third loop set it. -/
theorem exact_match_iff (guess answer : List Nat) (n : Nat)
    (hg : guess.length = n) (ha : answer.length = n)
    (hga : alphabetic guess) (haa : alphabetic answer) (i : Nat) (hi : i < n) :
    (peek (hint guess answer n) i = toupper (peek guess i) ↔
      tolower (peek guess i) = tolower (peek answer i)) ∧
    (tolower (peek guess i) = tolower (peek answer i) →
      peek (hintScanned guess answer n).modifyWord i =
        peek (hintPaired guess answer n).modifyWord i) := by
  have hGl : (pairedG guess answer).length = n := by simp [pairedG, hg, ha]
  have hMl : (pairedM guess answer).length = n := by simp [pairedM, hg, ha]
  obtain ⟨p1, p2⟩ := pass2_peek (pairedG guess answer) (pairedM guess answer)
    (pairedA guess answer) i (by rw [hGl, hMl]) (by omega)
  obtain ⟨eG, eM⟩ := paired_peek guess answer n i hg ha hi
  have halpha : isalpha (peek guess i) = true := hga _ (peek_mem guess i (by omega))
  have hlow := tolower_range halpha
  have hup := toupper_range halpha
  have hPl : (pass2 (pairedG guess answer) (pairedM guess answer)
      (pairedA guess answer)).length = n := by
    rw [pass2_length _ _ _ (by rw [hGl, hMl]), hGl]
  rw [hint_eq_pass2 guess answer n hg ha hga haa,
    hintScanned_modifyWord guess answer n hg ha hga haa,
    hintPaired_eq guess answer n hg ha hga haa]
  simp only
  rw [peek_append_left _ _ _ (by omega), peek_append_left _ _ _ (by omega)]
  by_cases he : tolower (peek answer i) = tolower (peek guess i)
  · simp only [he, if_true] at eG eM
    have := p1 eG
    rw [this, eM, toupper_tolower]
    simp [he]
  · have he' : ¬ tolower (peek guess i) = tolower (peek answer i) := fun h => he h.symm
    simp only [he, if_false] at eG eM
    simp only [he', iff_false, false_implies, and_true]
    rcases p2 with h | ⟨_, h⟩
    · rw [h, eM]; omega
    · rw [h, eG, tolower_idem]; omega

theorem exact_match_iff_witness :
    (bytes "EERIE").length = 5 ∧ (bytes "ERASE").length = 5 ∧
    alphabetic (bytes "EERIE") ∧ alphabetic (bytes "ERASE") ∧ 4 < 5 ∧
    ((peek (hint (bytes "EERIE") (bytes "ERASE") 5) 4 = toupper (peek (bytes "EERIE") 4) ↔
      tolower (peek (bytes "EERIE") 4) = tolower (peek (bytes "ERASE") 4)) ∧
    (tolower (peek (bytes "EERIE") 4) = tolower (peek (bytes "ERASE") 4) →
      peek (hintScanned (bytes "EERIE") (bytes "ERASE") 5).modifyWord 4 =
        peek (hintPaired (bytes "EERIE") (bytes "ERASE") 5).modifyWord 4)) :=
  ⟨by decide, by decide, by decide, by decide, by decide,
    exact_match_iff (bytes "EERIE") (bytes "ERASE") 5
      (by decide) (by decide) (by decide) (by decide) 4 (by decide)⟩

/-- C3: for an alphabetic guess and answer of length `n` and a letter `c`,
the hint positions marked present for `c` (lowercase `c`) are at most the
positions of the answer that hold `c` and are not exact matches, and the
positions marked correct or present for `c` are at most the occurrences of
`c` in the answer; guess "EERIE" against answer "ERASE" gives "E-r-E". -/
theorem present_cap (guess answer : List Nat) (n : Nat)
    (hg : guess.length = n) (ha : answer.length = n)
    (hga : alphabetic guess) (haa : alphabetic answer) (c : Nat) (hc : isalpha c = true) :
    (hint guess answer n).count (tolower c) ≤
      (List.zip guess answer).countP
        (fun p => decide (tolower p.2 = tolower c ∧ tolower p.1 ≠ tolower p.2)) ∧
    (hint guess answer n).count (toupper c) + (hint guess answer n).count (tolower c) ≤
      (answer.map tolower).count (tolower c) ∧
    hint (bytes "EERIE") (bytes "ERASE") 5 = bytes "E-r-E" := by
  have hlow := tolower_range hc
  have hup := toupper_range hc
  have hGl : (pairedG guess answer).length = (pairedM guess answer).length := by
    simp [pairedG, pairedM]
  have hGlow : ∀ x ∈ pairedG guess answer, tolower x = x := by
    intro x hx
    rcases pairedG_mem hga hx with h | h
    · subst h; decide
    · exact tolower_of_lower h
  have hM : tolower c ∉ pairedM guess answer := by
    intro h
    rcases pairedM_mem hga h with h | h <;> omega
  have h1 := pass2_count (tolower c) (by omega) (pairedG guess answer) (pairedM guess answer)
    (pairedA guess answer) hGl hM hGlow
  have h2 := pass2_count_other (toupper c) (pairedG guess answer) (pairedM guess answer)
    (pairedA guess answer) hGl
    (by
      intro x hx _
      rw [hGlow x hx]
      rcases pairedG_mem hga hx with h | h <;> omega)
    (by
      intro p hp hp1
      rw [paired_zip guess answer p hp hp1]
      omega)
  have h3 := pairedA_count (tolower c) (by omega) guess answer
  have h4 := pairedM_pairedA_count c hc guess answer hga
  rw [hint_eq_pass2 guess answer n hg ha hga haa, h1, h2]
  refine ⟨?_, ?_, by decide⟩
  · rw [← h3]; exact Nat.min_le_right _ _
  · have := Nat.min_le_right ((pairedG guess answer).count (tolower c))
      ((pairedA guess answer).count (tolower c))
    omega

theorem present_cap_witness :
    (bytes "EERIE").length = 5 ∧ (bytes "ERASE").length = 5 ∧
    alphabetic (bytes "EERIE") ∧ alphabetic (bytes "ERASE") ∧ isalpha 69 = true ∧
    ((hint (bytes "EERIE") (bytes "ERASE") 5).count (tolower 69) ≤
      (List.zip (bytes "EERIE") (bytes "ERASE")).countP
        (fun p => decide (tolower p.2 = tolower 69 ∧ tolower p.1 ≠ tolower p.2)) ∧
    (hint (bytes "EERIE") (bytes "ERASE") 5).count (toupper 69) +
        (hint (bytes "EERIE") (bytes "ERASE") 5).count (tolower 69) ≤
      ((bytes "ERASE").map tolower).count (tolower 69) ∧
    hint (bytes "EERIE") (bytes "ERASE") 5 = bytes "E-r-E") :=
  ⟨by decide, by decide, by decide, by decide, by decide,
    present_cap (bytes "EERIE") (bytes "ERASE") 5
      (by decide) (by decide) (by decide) (by decide) 69 (by decide)⟩

/-- C4: `echo_hint` on guess "SPEED" and answer "ERASE" with `n = 5` prints
"s-ee-": positions 0, 2 and 3 are present (`s`, `e`, `e`) and positions 1 and
4 are the placeholder. -/
theorem echo_hint_speed_erase :
    echo_hint (bytes "SPEED") (bytes "ERASE") 5 = bytes "s-ee-\n" ∧
    hint (bytes "SPEED") (bytes "ERASE") 5 = [115, 45, 101, 101, 45] := by
  decide

/-- C5: for an alphabetic guess and answer of length `n` that are equal
ignoring case, the hint of `echo_hint` is the guess with every letter in
upper case. -/
theorem all_correct_of_equal (guess answer : List Nat) (n : Nat)
    (hg : guess.length = n) (ha : answer.length = n)
    (hga : alphabetic guess) (haa : alphabetic answer)
    (heq : strcasecmp guess answer = 0) :
    hint guess answer n = guess.map toupper ∧
    echo_hint guess answer n = guess.map toupper ++ [10] := by
  have hmap := (strcasecmp_eq_zero_iff guess answer hga haa).mp heq
  obtain ⟨e1, e2, _⟩ := paired_congr (rfl : guess.map tolower = guess.map tolower) hmap
  obtain ⟨s1, s2⟩ := paired_self guess
  have hh : hint guess answer n = guess.map toupper := by
    rw [hint_eq_pass2 guess answer n hg ha hga haa, ← e1, ← e2, s1, s2]
    apply pass2_untouched
    · simp
    · intro c hc
      left
      simp only [List.mem_map] at hc
      obtain ⟨_, _, h⟩ := hc
      exact h.symm
  exact ⟨hh, by rw [echo_hint, hh]⟩

theorem all_correct_of_equal_witness :
    (bytes "Crane").length = 5 ∧ (bytes "cRANE").length = 5 ∧
    alphabetic (bytes "Crane") ∧ alphabetic (bytes "cRANE") ∧
    strcasecmp (bytes "Crane") (bytes "cRANE") = 0 ∧
    (hint (bytes "Crane") (bytes "cRANE") 5 = (bytes "Crane").map toupper ∧
    echo_hint (bytes "Crane") (bytes "cRANE") 5 = (bytes "Crane").map toupper ++ [10]) :=
  ⟨by decide, by decide, by decide, by decide, by decide,
    all_correct_of_equal (bytes "Crane") (bytes "cRANE") 5
      (by decide) (by decide) (by decide) (by decide) (by decide)⟩

/-- C6: for an alphabetic guess and answer of length `n` that share no
letter ignoring case, every one of the `n` hint positions of `echo_hint` is
the placeholder `'-'`. -/
theorem all_placeholder_of_disjoint (guess answer : List Nat) (n : Nat)
    (hg : guess.length = n) (ha : answer.length = n)
    (hga : alphabetic guess) (haa : alphabetic answer)
    (hdis : ∀ x ∈ guess, ∀ y ∈ answer, tolower x ≠ tolower y) :
    hint guess answer n = List.replicate n 45 ∧
    echo_hint guess answer n = List.replicate n 45 ++ [10] := by
  have hMl : (pairedM guess answer).length = n := by simp [pairedM, hg, ha]
  have hM : pairedM guess answer = List.replicate n 45 := by
    rw [List.eq_replicate_iff]
    refine ⟨hMl, ?_⟩
    intro b hb
    obtain ⟨u, hu, v, hv, e⟩ := mem_zipWith_elim _ _ _ _ hb
    have := hdis v hv u hu
    have hne : ¬ tolower u = tolower v := fun h => this h.symm
    simpa [hne] using e
  have hh : hint guess answer n = List.replicate n 45 := by
    rw [hint_eq_pass2 guess answer n hg ha hga haa]
    rw [pass2_untouched _ _ _ (by simp [pairedG, pairedM])]
    · exact hM
    · intro c hc
      obtain ⟨u, hu, v, hv, e⟩ := mem_zipWith_elim _ _ _ _ hc
      by_cases he : tolower u = tolower v
      · left; simpa [he] using e
      · right
        simp only [he, if_false] at e
        intro hcA
        obtain ⟨u1, hu1, v1, _, e1⟩ := mem_zipWith_elim _ _ _ _ hcA
        have hlow := tolower_range (hga v hv)
        by_cases he1 : tolower u1 = tolower v1
        · simp only [he1, if_true] at e1
          omega
        · simp only [he1, if_false] at e1
          exact hdis v hv u1 hu1 (by rw [← e, ← e1])
  exact ⟨hh, by rw [echo_hint, hh]⟩

theorem all_placeholder_of_disjoint_witness :
    (bytes "MANGO").length = 5 ∧ (bytes "twice").length = 5 ∧
    alphabetic (bytes "MANGO") ∧ alphabetic (bytes "twice") ∧
    (∀ x ∈ bytes "MANGO", ∀ y ∈ bytes "twice", tolower x ≠ tolower y) ∧
    (hint (bytes "MANGO") (bytes "twice") 5 = List.replicate 5 45 ∧
    echo_hint (bytes "MANGO") (bytes "twice") 5 = List.replicate 5 45 ++ [10]) :=
  ⟨by decide, by decide, by decide, by decide, by decide,
    all_placeholder_of_disjoint (bytes "MANGO") (bytes "twice") 5
      (by decide) (by decide) (by decide) (by decide) (by decide)⟩

/-- C7: for an alphabetic guess and answer of length `n`, the hint of
`echo_hint` has exactly `n` symbols, and the symbol at each position `i` is
the uppercase form of `guess[i]`, the lowercase form of `guess[i]`, or the
placeholder `'-'`. -/
theorem hint_symbols (guess answer : List Nat) (n : Nat)
    (hg : guess.length = n) (ha : answer.length = n)
    (hga : alphabetic guess) (haa : alphabetic answer) :
    (hint guess answer n).length = n ∧
    ∀ i, i < n →
      peek (hint guess answer n) i = toupper (peek guess i) ∨
      peek (hint guess answer n) i = tolower (peek guess i) ∨
      peek (hint guess answer n) i = 45 := by
  refine ⟨hint_length guess answer n hg ha hga haa, ?_⟩
  intro i hi
  have hGl : (pairedG guess answer).length = n := by simp [pairedG, hg, ha]
  have hMl : (pairedM guess answer).length = n := by simp [pairedM, hg, ha]
  obtain ⟨_, p2⟩ := pass2_peek (pairedG guess answer) (pairedM guess answer)
    (pairedA guess answer) i (by rw [hGl, hMl]) (by omega)
  obtain ⟨eG, eM⟩ := paired_peek guess answer n i hg ha hi
  rw [hint_eq_pass2 guess answer n hg ha hga haa]
  by_cases he : tolower (peek answer i) = tolower (peek guess i)
  · simp only [he, if_true] at eG eM
    rcases p2 with h | ⟨h0, _⟩
    · left; rw [h, eM, toupper_tolower]
    · exact absurd eG h0
  · simp only [he, if_false] at eG eM
    rcases p2 with h | ⟨_, h⟩
    · right; right; rw [h, eM]
    · right; left; rw [h, eG, tolower_idem]

theorem hint_symbols_witness :
    (bytes "SPEED").length = 5 ∧ (bytes "ERASE").length = 5 ∧
    alphabetic (bytes "SPEED") ∧ alphabetic (bytes "ERASE") ∧
    ((hint (bytes "SPEED") (bytes "ERASE") 5).length = 5 ∧
    ∀ i, i < 5 →
      peek (hint (bytes "SPEED") (bytes "ERASE") 5) i = toupper (peek (bytes "SPEED") i) ∨
      peek (hint (bytes "SPEED") (bytes "ERASE") 5) i = tolower (peek (bytes "SPEED") i) ∨
      peek (hint (bytes "SPEED") (bytes "ERASE") 5) i = 45) :=
  ⟨by decide, by decide, by decide, by decide,
    hint_symbols (bytes "SPEED") (bytes "ERASE") 5
      (by decide) (by decide) (by decide) (by decide)⟩

/-- C8: scoring is case-insensitive: for alphabetic guesses `g`, `g1` and
answers `a`, `a1` of length `n` with `g` equal to `g1` and `a` equal to `a1`
ignoring case, `echo_hint g a n` and `echo_hint g1 a1 n` print the same. -/
theorem echo_hint_case_insensitive (g g1 a a1 : List Nat) (n : Nat)
    (hg : g.length = n) (hg1 : g1.length = n) (ha : a.length = n) (ha1 : a1.length = n)
    (hga : alphabetic g) (hga1 : alphabetic g1) (haa : alphabetic a) (haa1 : alphabetic a1)
    (heg : strcasecmp g g1 = 0) (hea : strcasecmp a a1 = 0) :
    echo_hint g a n = echo_hint g1 a1 n := by
  have mg := (strcasecmp_eq_zero_iff g g1 hga hga1).mp heg
  have ma := (strcasecmp_eq_zero_iff a a1 haa haa1).mp hea
  obtain ⟨e1, e2, e3⟩ := paired_congr mg ma
  unfold echo_hint
  rw [hint_eq_pass2 g a n hg ha hga haa, hint_eq_pass2 g1 a1 n hg1 ha1 hga1 haa1, e1, e2, e3]

theorem echo_hint_case_insensitive_witness :
    (bytes "Speed").length = 5 ∧ (bytes "sPEEd").length = 5 ∧
    (bytes "ERASE").length = 5 ∧ (bytes "erase").length = 5 ∧
    alphabetic (bytes "Speed") ∧ alphabetic (bytes "sPEEd") ∧
    alphabetic (bytes "ERASE") ∧ alphabetic (bytes "erase") ∧
    strcasecmp (bytes "Speed") (bytes "sPEEd") = 0 ∧
    strcasecmp (bytes "ERASE") (bytes "erase") = 0 ∧
    echo_hint (bytes "Speed") (bytes "ERASE") 5 = echo_hint (bytes "sPEEd") (bytes "erase") 5 :=
  ⟨by decide, by decide, by decide, by decide, by decide, by decide, by decide, by decide,
    by decide, by decide,
    echo_hint_case_insensitive (bytes "Speed") (bytes "sPEEd") (bytes "ERASE") (bytes "erase") 5
      (by decide) (by decide) (by decide) (by decide) (by decide) (by decide) (by decide)
      (by decide) (by decide) (by decide)⟩

/-! ## Facts about the dictionary -/

theorem sprintfDigits_digit : ∀ (fuel k : Nat), ∀ c ∈ sprintfDigits fuel k, 48 ≤ c ∧ c ≤ 57
  | 0, k, c, h => by
    simp only [sprintfDigits, List.mem_singleton] at h
    omega
  | fuel + 1, k, c, h => by
    unfold sprintfDigits at h
    by_cases hk : k < 10
    · simp only [hk, if_true, List.mem_singleton] at h
      omega
    · simp only [hk, if_false, List.mem_append, List.mem_singleton] at h
      rcases h with h | h
      · exact sprintfDigits_digit fuel (k / 10) c h
      · omega

theorem sprintfDigits_ne_nil : ∀ (fuel k : Nat), sprintfDigits fuel k ≠ []
  | 0, k => by simp [sprintfDigits]
  | fuel + 1, k => by
    unfold sprintfDigits
    by_cases hk : k < 10 <;> simp [hk]

theorem atoiDigits_snoc : ∀ (xs : List Nat) (acc d : Nat), (∀ c ∈ xs, 48 ≤ c ∧ c ≤ 57) →
    48 ≤ d → d ≤ 57 → atoiDigits acc (xs ++ [d]) = atoiDigits acc xs * 10 + (d - 48)
  | [], acc, d, _, h1, h2 => by simp [atoiDigits, h1, h2]
  | x :: xs, acc, d, hx, h1, h2 => by
    have hd := hx x (List.mem_cons_self _ _)
    simp only [List.cons_append, atoiDigits, hd, and_self, if_true]
    exact atoiDigits_snoc xs _ d (fun c hc => hx c (List.mem_cons_of_mem _ hc)) h1 h2

theorem atoiDigits_sprintfDigits : ∀ (fuel k : Nat), k ≤ fuel →
    atoiDigits 0 (sprintfDigits fuel k) = k
  | 0, k, h => by
    have : k = 0 := by omega
    subst this
    decide
  | fuel + 1, k, h => by
    unfold sprintfDigits
    by_cases hk : k < 10
    · simp only [hk, if_true, atoiDigits]
      have : 48 ≤ 48 + k ∧ 48 + k ≤ 57 := by omega
      simp only [this, and_self, if_true]
      omega
    · simp only [hk, if_false]
      rw [atoiDigits_snoc _ _ _ (sprintfDigits_digit fuel (k / 10)) (by omega) (by omega),
        atoiDigits_sprintfDigits fuel (k / 10) (by omega)]
      omega

theorem decimalValue_of_digits (s : List Nat) (hne : s ≠ [])
    (hd : ∀ c ∈ s, 48 ≤ c ∧ c ≤ 57) : decimalValue s = (atoiDigits 0 s : Int) := by
  cases s with
  | nil => exact absurd rfl hne
  | cons c cs =>
    have hc := hd c (List.mem_cons_self _ _)
    have hsp : isspace c = false := by
      simp only [isspace, Bool.or_eq_false_iff, decide_eq_false_iff_not, Bool.and_eq_false_iff]
      omega
    unfold decimalValue
    rw [List.dropWhile_cons, hsp]
    simp only [Bool.false_eq_true, if_false]
    split
    · next r h => simp only [List.cons.injEq] at h; omega
    · next r h => simp only [List.cons.injEq] at h; omega
    · rfl

/-- A number that fits an `int` is what `atoi` returns. -/
theorem atoi_of_int_range (s : List Nat) (h1 : -2147483648 ≤ decimalValue s)
    (h2 : decimalValue s ≤ 2147483647) : atoi s = decimalValue s := by
  unfold atoi strtol longToInt
  rw [if_neg (by omega), if_neg (by omega)]
  omega

theorem atoi_of_digits (s : List Nat) (hne : s ≠ []) (hd : ∀ c ∈ s, 48 ≤ c ∧ c ≤ 57)
    (hs : atoiDigits 0 s < 2147483648) : atoi s = (atoiDigits 0 s : Int) := by
  have e := decimalValue_of_digits s hne hd
  rw [atoi_of_int_range s (by rw [e]; omega) (by rw [e]; omega), e]

/-- The count printed by `sprintf` is read back by `atoi` when it fits an
`int`. -/
theorem atoi_sprintf_d (k : Nat) (hk : k < 2147483648) : atoi (sprintf_d k) = (k : Int) := by
  unfold sprintf_d
  rw [atoi_of_digits _ (sprintfDigits_ne_nil k k) (sprintfDigits_digit k k)
      (by rw [atoiDigits_sprintfDigits k k (le_refl k)]; exact hk),
    atoiDigits_sprintfDigits k k (le_refl k)]

theorem read_file_fold (n : Nat) : ∀ (fileWords init : List (List Nat)),
    fileWords.foldl (fun gw w => if w.all isalpha ∧ w.length = n then gw ++ [w] else gw) init =
      init ++ storedWords fileWords n
  | [], init => by simp [storedWords]
  | w :: ws, init => by
    rw [List.foldl_cons, read_file_fold n ws]
    by_cases h : w.all isalpha ∧ w.length = n
    · rw [if_pos h]
      unfold storedWords
      simp only [List.filter_cons, decide_eq_true h, if_true, List.append_assoc,
        List.singleton_append]
    · rw [if_neg h]
      unfold storedWords
      simp only [List.filter_cons, decide_eq_false h, Bool.false_eq_true, if_false]

theorem read_file_eq (fileWords : List (List Nat)) (n : Nat) :
    read_file fileWords n =
      sprintf_d ((storedWords fileWords n).length + 1) :: storedWords fileWords n := by
  unfold read_file
  simp only [read_file_fold]
  simp [Nat.add_comm]

theorem cstr_nonzero (buf : List Nat) : ∀ c ∈ cstr buf, c ≠ 0 := by
  intro c hc
  have := List.mem_takeWhile_imp hc
  simpa using this

theorem cstr_idem (buf : List Nat) : cstr (cstr buf) = cstr buf := by
  have h := cstr_nonzero buf
  unfold cstr at h ⊢
  rw [List.takeWhile_eq_self_iff]
  intro x hx
  simpa using h x hx

theorem peek_cstr (buf : List Nat) (i : Nat) (h : i < strlen buf) :
    peek (cstr buf) i = peek buf i := by
  have e : buf = cstr buf ++ buf.dropWhile (fun c => c ≠ 0) := by
    unfold cstr
    exact (List.takeWhile_append_dropWhile _ _).symm
  conv_rhs => rw [e]
  exact (peek_append_left _ _ _ h).symm

theorem all_range_peek (p : Nat → Bool) (l : List Nat) :
    (List.range l.length).all (fun i => p (peek l i)) = true ↔ ∀ c ∈ l, p c = true := by
  rw [List.all_eq_true]
  constructor
  · intro h c hc
    obtain ⟨i, hi, e⟩ := List.mem_iff_getElem.mp hc
    have := h i (List.mem_range.mpr hi)
    rwa [peek_of_lt l i hi, e] at this
  · intro h i hi
    exact h _ (peek_mem l i (List.mem_range.mp hi))

theorem check_guess_iff (guess : List Nat) (n : Nat) :
    (check_guess guess n).1 = true ↔ strlen guess = n ∧ alphabetic (cstr guess) := by
  unfold check_guess
  by_cases hl : strlen guess = n
  · have hall : (List.range n).all (fun i => isalpha (peek guess i)) =
        (List.range (cstr guess).length).all (fun i => isalpha (peek (cstr guess) i)) := by
      have hn : (cstr guess).length = n := hl
      rw [hn]
      rw [Bool.eq_iff_iff, List.all_eq_true, List.all_eq_true]
      constructor
      · intro h i hi
        rw [peek_cstr guess i (by rw [hl]; exact List.mem_range.mp hi)]
        exact h i hi
      · intro h i hi
        rw [← peek_cstr guess i (by rw [hl]; exact List.mem_range.mp hi)]
        exact h i hi
    have key := all_range_peek isalpha (cstr guess)
    rw [← hall] at key
    by_cases ha : (List.range n).all (fun i => isalpha (peek guess i)) = true
    · simp only [hl, ne_eq, not_true_eq_false, if_false, ha, if_true, true_and, true_iff]
      exact key.mp ha
    · simp only [hl, ne_eq, not_true_eq_false, if_false, ha, Bool.false_eq_true, true_and,
        false_iff]
      exact fun h => ha (key.mpr h)
  · simp [hl]

theorem word_in_dict_iff (word : List Nat) (fileWords : List (List Nat)) (n : Nat)
    (hcount : (storedWords fileWords n).length + 1 < 2147483648) :
    (word_in_dict word (read_file fileWords n)).1 = true ↔
      ∃ w ∈ storedWords fileWords n, strcasecmp word w = 0 := by
  unfold word_in_dict
  rw [read_file_eq]
  simp only [List.getD_cons_zero, atoi_sprintf_d _ hcount]
  have hlen : ((((storedWords fileWords n).length + 1 : Nat) : Int).toNat - 1) =
      (storedWords fileWords n).length := by
    simp
  rw [hlen, List.any_eq_true]
  constructor
  · rintro ⟨i, hi, h⟩
    rw [List.mem_range'_1] at hi
    obtain ⟨j, rfl⟩ : ∃ j, i = j + 1 := ⟨i - 1, by omega⟩
    have hj : j < (storedWords fileWords n).length := by omega
    refine ⟨(storedWords fileWords n)[j], List.getElem_mem hj, ?_⟩
    have := of_decide_eq_true h
    simpa [List.getD_eq_getElem?_getD, List.getElem?_eq_getElem hj] using this
  · rintro ⟨w, hw, h⟩
    obtain ⟨j, hj, e⟩ := List.mem_iff_getElem.mp hw
    refine ⟨j + 1, ?_, ?_⟩
    · rw [List.mem_range'_1]; omega
    · apply decide_eq_true
      simpa [List.getD_eq_getElem?_getD, List.getElem?_eq_getElem hj, e] using h

/-! ## Facts about the session loop -/

theorem fgetsRead_length : ∀ (k : Nat) (rest : List Nat),
    (fgetsRead k rest).2.1.length ≤ rest.length
  | 0, rest => by simp [fgetsRead]
  | _ + 1, [] => by simp [fgetsRead]
  | k + 1, c :: rest => by
    unfold fgetsRead
    by_cases hc : c = 10
    · simp [hc]
    · simp only [hc, if_false, List.length_cons]
      exact Nat.le_succ_of_le (fgetsRead_length k rest)

theorem fgetsRead_progress (k : Nat) (rest : List Nat)
    (h : (fgetsRead (k + 1) rest).2.2 = false) :
    (fgetsRead (k + 1) rest).2.1.length < rest.length := by
  cases rest with
  | nil => simp [fgetsRead] at h
  | cons c rest =>
    unfold fgetsRead
    by_cases hc : c = 10
    · simp [hc]
    · simp only [hc, if_false, List.length_cons]
      exact Nat.lt_succ_of_le (fgetsRead_length k rest)

theorem fgets_progress (buf : List Nat) (s : Stdin) (h : (fgets buf 52 s).2.2.eof = false) :
    (fgets buf 52 s).2.2.rest.length < s.rest.length := by
  unfold fgets at h ⊢
  simp only at h ⊢
  split_ifs at h ⊢ with he
  · simp only [Bool.or_eq_false_iff] at h
    exact fgetsRead_progress 50 s.rest h.2
  · simp only [Bool.or_eq_false_iff] at h
    exact fgetsRead_progress 50 s.rest h.2

theorem guessLoop_succ (n i : Nat) (answer : List Nat) (dictionary : List (List Nat))
    (fuel : Nat) (s : Stdin) (input : List Nat) :
    guessLoop n i answer dictionary (fuel + 1) s input =
      if (check_guess (cstr input) n).1 = true ∧ (word_in_dict (cstr input) dictionary).1 = true
      then (conditionLines (cstr input) n dictionary, LoopEnd.accepted s input)
      else
        if (fgets input 52 s).2.2.eof = true then
          (conditionLines (cstr input) n dictionary ++ prompt n i :: (game_over answer).1,
            LoopEnd.exited 3)
        else
          (conditionLines (cstr input) n dictionary ++ prompt n i ::
              (guessLoop n i answer dictionary fuel (fgets input 52 s).2.2
                (stripNewline (fgets input 52 s).2.1)).1,
            (guessLoop n i answer dictionary fuel (fgets input 52 s).2.2
              (stripNewline (fgets input 52 s).2.1)).2) := rfl

theorem guessLoop_not_stuck (n i : Nat) (answer : List Nat) (dictionary : List (List Nat)) :
    ∀ (fuel : Nat) (s : Stdin) (input : List Nat), s.rest.length < fuel →
      (guessLoop n i answer dictionary fuel s input).2 ≠ LoopEnd.stuck
  | 0, _, _, h => by omega
  | fuel + 1, s, input, h => by
    rw [guessLoop_succ]
    split_ifs with h1 h2
    · simp
    · simp
    · have hp := fgets_progress input s (by simpa using h2)
      exact guessLoop_not_stuck n i answer dictionary fuel (fgets input 52 s).2.2 _ (by omega)

theorem check_guess_out (guess : List Nat) (n : Nat) :
    ((check_guess guess n).1 = true ∧ (check_guess guess n).2 = []) ∨
    ((check_guess guess n).1 = false ∧
      ((check_guess guess n).2 = [Out.wrongLength n] ∨
       (check_guess guess n).2 = [Out.lettersOnly])) := by
  unfold check_guess
  split_ifs <;> simp

theorem word_in_dict_out (word : List Nat) (dictionary : List (List Nat)) :
    ((word_in_dict word dictionary).1 = true ∧ (word_in_dict word dictionary).2 = []) ∨
    ((word_in_dict word dictionary).1 = false ∧
      (word_in_dict word dictionary).2 = [Out.notInDict]) := by
  unfold word_in_dict
  simp only
  split_ifs with h
  · left; exact ⟨h, rfl⟩
  · right; exact ⟨by simpa using h, rfl⟩

/-- The lines printed for a rejected guess: exactly one diagnostic. -/
theorem conditionLines_rejected (guess : List Nat) (n : Nat) (dictionary : List (List Nat))
    (h : ¬ ((check_guess guess n).1 = true ∧ (word_in_dict guess dictionary).1 = true)) :
    conditionLines guess n dictionary = [Out.wrongLength n] ∨
    conditionLines guess n dictionary = [Out.lettersOnly] ∨
    conditionLines guess n dictionary = [Out.notInDict] := by
  unfold conditionLines
  rcases check_guess_out guess n with ⟨c1, c2⟩ | ⟨c1, c2⟩
  · rcases word_in_dict_out guess dictionary with ⟨d1, _⟩ | ⟨_, d2⟩
    · exact absurd ⟨c1, d1⟩ h
    · right; right; simp [c1, c2, d2]
  · rcases c2 with c2 | c2
    · left; simp [c1, c2]
    · right; left; simp [c1, c2]

/-- An accepted guess prints no diagnostic. -/
theorem conditionLines_accepted (guess : List Nat) (n : Nat) (dictionary : List (List Nat))
    (h : (check_guess guess n).1 = true ∧ (word_in_dict guess dictionary).1 = true) :
    conditionLines guess n dictionary = [] := by
  unfold conditionLines
  rcases check_guess_out guess n with ⟨_, c2⟩ | ⟨c1, _⟩
  · rcases word_in_dict_out guess dictionary with ⟨_, d2⟩ | ⟨d1, _⟩
    · simp [h.1, c2, d2]
    · rw [h.2] at d1; cases d1
  · rw [h.1] at c1; cases c1

/-! ## The attempts counter along the output -/

theorem shownCount_prompt (n k : Nat) : shownCount (prompt n k) = some k := by
  unfold prompt
  split_ifs with h
  · simp [shownCount, h]
  · simp [shownCount]

theorem prompt_ne_hintLine (n k : Nat) (t : List Nat) : prompt n k ≠ Out.hintLine t := by
  unfold prompt
  split_ifs <;> simp

theorem countersOk_cons_prompt (n k : Nat) (rest : List Out) :
    countersOk k (prompt n k :: rest) = countersOk k rest := by
  unfold prompt
  split_ifs with h
  · subst h; simp [countersOk, shownCount]
  · simp [countersOk, shownCount]

theorem countersOk_append (n k : Nat) (answer : List Nat) : ∀ (o rest : List Out),
    (∀ e ∈ o, loopLine n k answer e) → countersOk k (o ++ rest) = countersOk k rest
  | [], rest, _ => rfl
  | e :: o, rest, h => by
    have ih := countersOk_append n k answer o rest (fun x hx => h x (List.mem_cons_of_mem _ hx))
    rcases h e (List.mem_cons_self _ _) with he | he | he | he | he
    · subst he; rw [List.cons_append, countersOk_cons_prompt, ih]
    all_goals subst he; simp [countersOk, shownCount, ih]

theorem conditionLines_loopLine (guess : List Nat) (n k : Nat) (answer : List Nat)
    (dictionary : List (List Nat)) :
    ∀ e ∈ conditionLines guess n dictionary, loopLine n k answer e := by
  intro e he
  by_cases h : (check_guess guess n).1 = true ∧ (word_in_dict guess dictionary).1 = true
  · rw [conditionLines_accepted guess n dictionary h] at he
    simp at he
  · rcases conditionLines_rejected guess n dictionary h with h | h | h <;>
      rw [h, List.mem_singleton] at he <;> subst he <;> simp [loopLine]

theorem guessLoop_loopLine (n i : Nat) (answer : List Nat) (dictionary : List (List Nat)) :
    ∀ (fuel : Nat) (s : Stdin) (input : List Nat),
      ∀ e ∈ (guessLoop n i answer dictionary fuel s input).1, loopLine n i answer e
  | 0, _, _, e, he => by simp [guessLoop] at he
  | fuel + 1, s, input, e, he => by
    rw [guessLoop_succ] at he
    have hc := conditionLines_loopLine (cstr input) n i answer dictionary
    split_ifs at he with h1 h2
    · exact hc e he
    · simp only [game_over, List.mem_append, List.mem_cons, List.mem_singleton,
        List.not_mem_nil, or_false] at he
      rcases he with he | he | he
      · exact hc e he
      · subst he; simp [loopLine]
      · subst he; simp [loopLine]
    · simp only [List.mem_append, List.mem_cons] at he
      rcases he with he | he | he
      · exact hc e he
      · subst he; simp [loopLine]
      · exact guessLoop_loopLine n i answer dictionary fuel _ _ e he

theorem sessionLoop_succ (n : Nat) (answer : List Nat) (dictionary : List (List Nat))
    (i : Nat) (s : Stdin) :
    sessionLoop n answer dictionary (i + 1) s =
      if (fgets (List.replicate 52 0) 52 s).2.2.eof = true ∧
          (fgets (List.replicate 52 0) 52 s).1 = false then
        (prompt n (i + 1) :: (game_over answer).1, (game_over answer).2)
      else
        match guessLoop n (i + 1) answer dictionary
            ((fgets (List.replicate 52 0) 52 s).2.2.rest.length + 1)
            (fgets (List.replicate 52 0) 52 s).2.2
            (stripNewline (fgets (List.replicate 52 0) 52 s).2.1) with
        | (o, LoopEnd.exited code) => (prompt n (i + 1) :: o, some code)
        | (o, LoopEnd.stuck) => (prompt n (i + 1) :: o, none)
        | (o, LoopEnd.accepted s1 input1) =>
          if strcasecmp (cstr input1) answer = 0 then
            (prompt n (i + 1) :: o ++ [Out.correct], some 0)
          else
            (prompt n (i + 1) :: o ++ Out.hintLine (echo_hint (cstr input1) answer n) ::
                (sessionLoop n answer dictionary i s1).1,
              (sessionLoop n answer dictionary i s1).2) := rfl

theorem sessionLoop_countersOk (n : Nat) (answer : List Nat) (dictionary : List (List Nat)) :
    ∀ (i : Nat) (s : Stdin), countersOk i (sessionLoop n answer dictionary i s).1 = true
  | 0, s => by simp [sessionLoop, game_over, countersOk, shownCount]
  | i + 1, s => by
    rw [sessionLoop_succ]
    split_ifs with h0
    · simp [countersOk_cons_prompt, game_over, countersOk, shownCount]
    · have hl := guessLoop_loopLine n (i + 1) answer dictionary
        ((fgets (List.replicate 52 0) 52 s).2.2.rest.length + 1)
        (fgets (List.replicate 52 0) 52 s).2.2
        (stripNewline (fgets (List.replicate 52 0) 52 s).2.1)
      generalize guessLoop n (i + 1) answer dictionary _ _ _ = r at hl
      obtain ⟨o, e⟩ := r
      have ho := countersOk_append n (i + 1) answer o
      cases e with
      | exited code =>
        simp only [countersOk_cons_prompt]
        have := ho [] hl
        rw [List.append_nil] at this
        rw [this]; rfl
      | stuck =>
        simp only [countersOk_cons_prompt]
        have := ho [] hl
        rw [List.append_nil] at this
        rw [this]; rfl
      | accepted s1 input1 =>
        simp only
        split_ifs with h1
        · simp only [List.cons_append, countersOk_cons_prompt]
          rw [ho _ hl]
          simp [countersOk, shownCount]
        · simp only [List.cons_append, countersOk_cons_prompt]
          rw [ho _ hl]
          simp [countersOk, sessionLoop_countersOk n answer dictionary i s1]

/-! ## The session: attempts and acceptance -/

theorem guessLoop_accepted_valid (n i : Nat) (answer : List Nat)
    (dictionary : List (List Nat)) :
    ∀ (fuel : Nat) (s : Stdin) (input : List Nat) (s1 : Stdin) (input1 : List Nat),
      (guessLoop n i answer dictionary fuel s input).2 = LoopEnd.accepted s1 input1 →
      (check_guess (cstr input1) n).1 = true ∧ (word_in_dict (cstr input1) dictionary).1 = true
  | 0, _, _, _, _, h => by simp [guessLoop] at h
  | fuel + 1, s, input, s1, input1, h => by
    rw [guessLoop_succ] at h
    by_cases h1 : (check_guess (cstr input) n).1 = true ∧
        (word_in_dict (cstr input) dictionary).1 = true
    · rw [if_pos h1] at h
      simp only [LoopEnd.accepted.injEq] at h
      rw [← h.2]
      exact h1
    · rw [if_neg h1] at h
      by_cases h2 : (fgets input 52 s).2.2.eof = true
      · rw [if_pos h2] at h
        simp at h
      · rw [if_neg h2] at h
        exact guessLoop_accepted_valid n i answer dictionary fuel _ _ s1 input1 h

theorem sessionLoop_status (n : Nat) (answer : List Nat) (dictionary : List (List Nat)) :
    ∀ (i : Nat) (s : Stdin),
      (sessionLoop n answer dictionary i s).2 = some 0 ∨
      (sessionLoop n answer dictionary i s).2 = some 3
  | 0, s => by simp [sessionLoop, game_over]
  | i + 1, s => by
    rw [sessionLoop_succ]
    split_ifs with h0
    · simp [game_over]
    · have hns := guessLoop_not_stuck n (i + 1) answer dictionary
        ((fgets (List.replicate 52 0) 52 s).2.2.rest.length + 1)
        (fgets (List.replicate 52 0) 52 s).2.2
        (stripNewline (fgets (List.replicate 52 0) 52 s).2.1) (Nat.lt_succ_self _)
      have hex : ∀ (fuel : Nat) (t : Stdin) (inp : List Nat) (code : Nat),
          (guessLoop n (i + 1) answer dictionary fuel t inp).2 = LoopEnd.exited code →
          code = 3 := by
        intro fuel
        induction fuel with
        | zero => intro t inp code h; simp [guessLoop] at h
        | succ fuel ih =>
          intro t inp code h
          rw [guessLoop_succ] at h
          by_cases h1 : (check_guess (cstr inp) n).1 = true ∧
              (word_in_dict (cstr inp) dictionary).1 = true
          · rw [if_pos h1] at h
            simp at h
          · rw [if_neg h1] at h
            by_cases h2 : (fgets inp 52 t).2.2.eof = true
            · rw [if_pos h2] at h
              simp only [LoopEnd.exited.injEq] at h
              exact h.symm
            · rw [if_neg h2] at h
              exact ih _ _ code h
      have hex' := hex ((fgets (List.replicate 52 0) 52 s).2.2.rest.length + 1)
        (fgets (List.replicate 52 0) 52 s).2.2
        (stripNewline (fgets (List.replicate 52 0) 52 s).2.1)
      generalize guessLoop n (i + 1) answer dictionary _ _ _ = r at hns hex'
      obtain ⟨o, e⟩ := r
      cases e with
      | exited code => right; simp [hex' code rfl]
      | stuck => exact absurd rfl hns
      | accepted s1 input1 =>
        simp only
        split_ifs with h1
        · left; rfl
        · exact sessionLoop_status n answer dictionary i s1

/-! ## The number of marks for a letter -/

theorem toupper_eq_iff (x y : Nat) : toupper x = toupper y ↔ tolower x = tolower y := by
  constructor
  · intro h
    have := congrArg tolower h
    rwa [tolower_toupper, tolower_toupper] at this
  · intro h
    have := congrArg toupper h
    rwa [toupper_tolower, toupper_tolower] at this

theorem paired_count_split (c : Nat) (hc : isalpha c = true) :
    ∀ (guess answer : List Nat), guess.length = answer.length →
    (pairedG guess answer).count (tolower c) + (pairedM guess answer).count (toupper c) =
      (guess.map tolower).count (tolower c) ∧
    (pairedA guess answer).count (tolower c) + (pairedM guess answer).count (toupper c) =
      (answer.map tolower).count (tolower c)
  | [], [], _ => by simp [pairedG, pairedM, pairedA]
  | [], _ :: _, h => by simp at h
  | _ :: _, [], h => by simp at h
  | gch :: gs, ach :: as, h => by
    have ih := paired_count_split c hc gs as (by simpa using h)
    have hlow := tolower_range hc
    have hup := toupper_range hc
    have h45l : ¬ (45 = tolower c) := by omega
    have h45u : ¬ (45 = toupper c) := by omega
    simp only [pairedG, pairedM, pairedA] at ih ⊢
    simp only [List.zipWith_cons_cons, List.map_cons, List.count_cons, beq_iff_eq]
    generalize List.count (tolower c) (List.zipWith _ as gs) = cG at ih ⊢
    generalize List.count (toupper c) (List.zipWith _ as gs) = cM at ih ⊢
    generalize List.count (tolower c) (List.zipWith _ as gs) = cA at ih ⊢
    generalize List.count (tolower c) (List.map tolower gs) = cg at ih ⊢
    generalize List.count (tolower c) (List.map tolower as) = ca at ih ⊢
    have key : toupper (tolower gch) = toupper c ↔ tolower gch = tolower c := by
      rw [toupper_eq_iff, tolower_idem]
    by_cases he : tolower ach = tolower gch
    · by_cases hk : tolower gch = tolower c
      · have hk2 : tolower ach = tolower c := he.trans hk
        rw [if_pos he, if_pos he, if_pos he, if_neg h45l, if_pos (key.mpr hk), if_pos hk,
          if_pos hk2]
        omega
      · have hk2 : ¬ tolower ach = tolower c := fun e => hk (he.symm.trans e)
        have hk3 : ¬ toupper (tolower gch) = toupper c := fun e => hk (key.mp e)
        rw [if_pos he, if_pos he, if_pos he, if_neg h45l, if_neg hk3, if_neg hk, if_neg hk2]
        omega
    · rw [if_neg he, if_neg he, if_neg he, if_neg h45u]
      omega

/-- C18: for an alphabetic guess and answer of length `n` and a letter `c`,
the hint positions of `echo_hint` that show `c`, in upper or in lower case,
are as many as the smaller of the numbers of `c` in the guess and in the
answer, counted ignoring case. -/
theorem exact_credit_count (guess answer : List Nat) (n : Nat)
    (hg : guess.length = n) (ha : answer.length = n)
    (hga : alphabetic guess) (haa : alphabetic answer) (c : Nat) (hc : isalpha c = true) :
    (hint guess answer n).count (toupper c) + (hint guess answer n).count (tolower c) =
      min ((guess.map tolower).count (tolower c)) ((answer.map tolower).count (tolower c)) := by
  have hlow := tolower_range hc
  have hup := toupper_range hc
  have hGl : (pairedG guess answer).length = (pairedM guess answer).length := by
    simp [pairedG, pairedM]
  have hGlow : ∀ x ∈ pairedG guess answer, tolower x = x := by
    intro x hx
    rcases pairedG_mem hga hx with h | h
    · subst h; decide
    · exact tolower_of_lower h
  have hM : tolower c ∉ pairedM guess answer := by
    intro h
    rcases pairedM_mem hga h with h | h <;> omega
  have h1 := pass2_count (tolower c) (by omega) (pairedG guess answer) (pairedM guess answer)
    (pairedA guess answer) hGl hM hGlow
  have h2 := pass2_count_other (toupper c) (pairedG guess answer) (pairedM guess answer)
    (pairedA guess answer) hGl
    (by
      intro x hx _
      rw [hGlow x hx]
      rcases pairedG_mem hga hx with h | h <;> omega)
    (by
      intro p hp hp1
      rw [paired_zip guess answer p hp hp1]
      omega)
  obtain ⟨s1, s2⟩ := paired_count_split c hc guess answer (by rw [hg, ha])
  rw [hint_eq_pass2 guess answer n hg ha hga haa, h1, h2]
  omega

theorem exact_credit_count_witness :
    (bytes "SPEED").length = 5 ∧ (bytes "ERASE").length = 5 ∧
    alphabetic (bytes "SPEED") ∧ alphabetic (bytes "ERASE") ∧ isalpha 101 = true ∧
    (hint (bytes "SPEED") (bytes "ERASE") 5).count (toupper 101) +
        (hint (bytes "SPEED") (bytes "ERASE") 5).count (tolower 101) =
      min (((bytes "SPEED").map tolower).count (tolower 101))
        (((bytes "ERASE").map tolower).count (tolower 101)) :=
  ⟨by decide, by decide, by decide, by decide, by decide,
    exact_credit_count (bytes "SPEED") (bytes "ERASE") 5
      (by decide) (by decide) (by decide) (by decide) 101 (by decide)⟩

/-! ## How the session ends -/

theorem guessLoop_exited_code (n i : Nat) (answer : List Nat) (dictionary : List (List Nat)) :
    ∀ (fuel : Nat) (s : Stdin) (input : List Nat) (code : Nat),
      (guessLoop n i answer dictionary fuel s input).2 = LoopEnd.exited code → code = 3
  | 0, _, _, _, h => by simp [guessLoop] at h
  | fuel + 1, s, input, code, h => by
    rw [guessLoop_succ] at h
    by_cases h1 : (check_guess (cstr input) n).1 = true ∧
        (word_in_dict (cstr input) dictionary).1 = true
    · rw [if_pos h1] at h
      simp at h
    · rw [if_neg h1] at h
      by_cases h2 : (fgets input 52 s).2.2.eof = true
      · rw [if_pos h2] at h
        simp only [LoopEnd.exited.injEq] at h
        exact h.symm
      · rw [if_neg h2] at h
        exact guessLoop_exited_code n i answer dictionary fuel _ _ code h

theorem conditionLines_retryLine (guess : List Nat) (n k : Nat)
    (dictionary : List (List Nat)) :
    ∀ e ∈ conditionLines guess n dictionary, retryLine n k e := by
  intro e he
  by_cases h : (check_guess guess n).1 = true ∧ (word_in_dict guess dictionary).1 = true
  · rw [conditionLines_accepted guess n dictionary h] at he
    simp at he
  · rcases conditionLines_rejected guess n dictionary h with h | h | h <;>
      rw [h, List.mem_singleton] at he <;> subst he <;> simp [retryLine]

theorem guessLoop_accepted_lines (n i : Nat) (answer : List Nat)
    (dictionary : List (List Nat)) :
    ∀ (fuel : Nat) (s : Stdin) (input : List Nat) (o : List Out) (s1 : Stdin)
      (input1 : List Nat),
      guessLoop n i answer dictionary fuel s input = (o, LoopEnd.accepted s1 input1) →
      (∀ e ∈ o, retryLine n i e) ∧ (o = [] ∨ ∃ o1, o = o1 ++ [prompt n i])
  | 0, _, _, _, _, _, h => by simp [guessLoop] at h
  | fuel + 1, s, input, o, s1, input1, h => by
    rw [guessLoop_succ] at h
    by_cases h1 : (check_guess (cstr input) n).1 = true ∧
        (word_in_dict (cstr input) dictionary).1 = true
    · rw [if_pos h1, conditionLines_accepted _ _ _ h1] at h
      simp only [Prod.mk.injEq] at h
      rw [← h.1]
      exact ⟨by simp, Or.inl rfl⟩
    · rw [if_neg h1] at h
      by_cases h2 : (fgets input 52 s).2.2.eof = true
      · rw [if_pos h2] at h
        simp at h
      · rw [if_neg h2] at h
        simp only [Prod.mk.injEq] at h
        obtain ⟨ho, he⟩ := h
        have hnext : guessLoop n i answer dictionary fuel (fgets input 52 s).2.2
            (stripNewline (fgets input 52 s).2.1) =
            ((guessLoop n i answer dictionary fuel (fgets input 52 s).2.2
              (stripNewline (fgets input 52 s).2.1)).1, LoopEnd.accepted s1 input1) := by
          rw [← he]
        obtain ⟨ih1, ih2⟩ := guessLoop_accepted_lines n i answer dictionary fuel _ _ _ s1
          input1 hnext
        have hcl := conditionLines_retryLine (cstr input) n i dictionary
        rw [← ho]
        constructor
        · intro e hmem
          simp only [List.mem_append, List.mem_cons] at hmem
          rcases hmem with hmem | hmem | hmem
          · exact hcl e hmem
          · subst hmem; simp [retryLine]
          · exact ih1 e hmem
        · right
          rcases ih2 with ih2 | ⟨o1, ih2⟩
          · exact ⟨conditionLines (cstr input) n dictionary, by rw [ih2]⟩
          · exact ⟨conditionLines (cstr input) n dictionary ++ prompt n i :: o1, by
              rw [ih2]; simp⟩

theorem prompt_ne_badLuck (n k : Nat) (w : List Nat) : prompt n k ≠ Out.badLuck w := by
  unfold prompt
  split_ifs <;> simp

theorem prompt_ne_correct (n k : Nat) : prompt n k ≠ Out.correct := by
  unfold prompt
  split_ifs <;> simp

theorem retryLine_ne (n k : Nat) (e : Out) (h : retryLine n k e) :
    (∀ w, e ≠ Out.badLuck w) ∧ (∀ t, e ≠ Out.hintLine t) ∧ e ≠ Out.correct := by
  rcases h with h | h | h | h
  · subst h
    exact ⟨prompt_ne_badLuck n k, prompt_ne_hintLine n k, prompt_ne_correct n k⟩
  all_goals subst h; simp

theorem sessionLoop_won (n : Nat) (answer : List Nat) (dictionary : List (List Nat)) :
    ∀ (i : Nat) (s : Stdin), (sessionLoop n answer dictionary i s).2 = some 0 →
      ∃ pre k, (sessionLoop n answer dictionary i s).1 = pre ++ [prompt n k, Out.correct] ∧
        0 < k ∧ k ≤ i ∧ (∀ w, Out.badLuck w ∉ pre) ∧ Out.correct ∉ pre
  | 0, s, h => by simp [sessionLoop, game_over] at h
  | i + 1, s, h => by
    rw [sessionLoop_succ] at h ⊢
    by_cases h0 : (fgets (List.replicate 52 0) 52 s).2.2.eof = true ∧
        (fgets (List.replicate 52 0) 52 s).1 = false
    · rw [if_pos h0] at h
      simp [game_over] at h
    · rw [if_neg h0] at h ⊢
      generalize hr : guessLoop n (i + 1) answer dictionary
        ((fgets (List.replicate 52 0) 52 s).2.2.rest.length + 1)
        (fgets (List.replicate 52 0) 52 s).2.2
        (stripNewline (fgets (List.replicate 52 0) 52 s).2.1) = r at h ⊢
      obtain ⟨o, e⟩ := r
      cases e with
      | exited code =>
        have hc := guessLoop_exited_code n (i + 1) answer dictionary _ _ _ code
          (by rw [hr])
        subst hc
        simp at h
      | stuck => simp at h
      | accepted s1 input1 =>
        obtain ⟨hl, hshape⟩ := guessLoop_accepted_lines n (i + 1) answer dictionary _ _ _ o s1
          input1 hr
        have hpre : ∀ e ∈ prompt n (i + 1) :: o,
            (∀ w, e ≠ Out.badLuck w) ∧ (∀ t, e ≠ Out.hintLine t) ∧ e ≠ Out.correct := by
          intro e he
          rcases List.mem_cons.mp he with he | he
          · exact retryLine_ne n (i + 1) e (Or.inl he)
          · exact retryLine_ne n (i + 1) e (hl e he)
        simp only at h ⊢
        by_cases heq : strcasecmp (cstr input1) answer = 0
        · rw [if_pos heq]
          rcases hshape with ho | ⟨o1, ho⟩
          · subst ho
            exact ⟨[], i + 1, by simp, by omega, le_refl _, by simp, by simp⟩
          · refine ⟨prompt n (i + 1) :: o1, i + 1, by simp [ho], by omega, le_refl _, ?_, ?_⟩
            · intro w hw
              have hmem : Out.badLuck w ∈ prompt n (i + 1) :: o := by
                rw [ho]
                rcases List.mem_cons.mp hw with e | e
                · exact List.mem_cons.mpr (Or.inl e)
                · exact List.mem_cons_of_mem _ (List.mem_append_left _ e)
              exact (hpre _ hmem).1 w rfl
            · intro hw
              have hmem : Out.correct ∈ prompt n (i + 1) :: o := by
                rw [ho]
                rcases List.mem_cons.mp hw with e | e
                · exact List.mem_cons.mpr (Or.inl e)
                · exact List.mem_cons_of_mem _ (List.mem_append_left _ e)
              exact (hpre _ hmem).2.2 rfl
        · rw [if_neg heq] at h ⊢
          obtain ⟨pre, k, e1, hk0, hk, hb, hcnot⟩ :=
            sessionLoop_won n answer dictionary i s1 h
          refine ⟨prompt n (i + 1) :: o ++
            Out.hintLine (echo_hint (cstr input1) answer n) :: pre, k, ?_, hk0, by omega, ?_, ?_⟩
          · simp only [e1]
            simp
          · intro w hw
            simp only [List.cons_append, List.mem_cons, List.mem_append] at hw
            rcases hw with hw | hw | hw | hw
            · exact (hpre _ (List.mem_cons_self _ _)).1 w hw.symm
            · exact (hpre _ (List.mem_cons_of_mem _ hw)).1 w rfl
            · simp at hw
            · exact hb w hw
          · intro hw
            simp only [List.cons_append, List.mem_cons, List.mem_append] at hw
            rcases hw with hw | hw | hw | hw
            · exact (hpre _ (List.mem_cons_self _ _)).2.2 hw.symm
            · exact (hpre _ (List.mem_cons_of_mem _ hw)).2.2 rfl
            · simp at hw
            · exact hcnot hw

/-- C11: whenever the `while` loop ends on an accepted guess that equals the
answer ignoring case, with any number `i + 1` of attempts remaining, the
session prints `Correct!` and exits with status 0: after the prompts and
diagnostics of the rejected guesses before it nothing else is printed, no
hint line and no reveal of the answer, and the rest of the input is not
read.  A session that exits with status 0 has `Correct!` as its last line,
right after a prompt, and never reveals the answer. -/
theorem won_on_match (n m : Nat) (answer : List Nat) (dictionary : List (List Nat))
    (stdin : List Nat) :
    (∀ (i : Nat) (s s1 : Stdin) (o : List Out) (input1 : List Nat),
      ¬ ((fgets (List.replicate 52 0) 52 s).2.2.eof = true ∧
          (fgets (List.replicate 52 0) 52 s).1 = false) →
      guessLoop n (i + 1) answer dictionary
          ((fgets (List.replicate 52 0) 52 s).2.2.rest.length + 1)
          (fgets (List.replicate 52 0) 52 s).2.2
          (stripNewline (fgets (List.replicate 52 0) 52 s).2.1) =
        (o, LoopEnd.accepted s1 input1) →
      strcasecmp (cstr input1) answer = 0 →
      sessionLoop n answer dictionary (i + 1) s =
          (prompt n (i + 1) :: o ++ [Out.correct], some 0) ∧
        ∀ e ∈ o, retryLine n (i + 1) e) ∧
    ((session n m answer dictionary stdin).2 = some 0 →
      ∃ pre k, (session n m answer dictionary stdin).1 = pre ++ [prompt n k, Out.correct] ∧
        0 < k ∧ k ≤ m ∧ (∀ w, Out.badLuck w ∉ pre) ∧ Out.correct ∉ pre) := by
  constructor
  · intro i s s1 o input1 h0 hg heq
    refine ⟨?_, (guessLoop_accepted_lines n (i + 1) answer dictionary _ _ _ o s1 input1 hg).1⟩
    rw [sessionLoop_succ, if_neg h0, hg]
    simp only [if_pos heq]
  · intro h
    obtain ⟨pre, k, e1, hk0, hk, hb, hc⟩ := sessionLoop_won n answer dictionary m
      { rest := stdin, eof := false } h
    refine ⟨Out.welcome :: pre, k, by simp [session, e1], hk0, hk, ?_, ?_⟩
    · intro w hw
      rcases List.mem_cons.mp hw with e | e
      · cases e
      · exact hb w e
    · intro hw
      rcases List.mem_cons.mp hw with e | e
      · cases e
      · exact hc e

set_option maxRecDepth 100000 in
theorem won_on_match_witness :
    session 5 6 (bytes "CRANE") (read_file [bytes "crane", bytes "slate"] 5)
        (bytes "xx\ncrane\nSLATE\n") =
      ([Out.welcome, Out.promptRemaining 5 6, Out.wrongLength 5, Out.promptRemaining 5 6,
        Out.correct], some 0) ∧
    ∃ pre k, (session 5 6 (bytes "CRANE") (read_file [bytes "crane", bytes "slate"] 5)
        (bytes "xx\ncrane\nSLATE\n")).1 = pre ++ [prompt 5 k, Out.correct] ∧
      0 < k ∧ k ≤ 6 ∧ (∀ w, Out.badLuck w ∉ pre) ∧ Out.correct ∉ pre :=
  ⟨by decide,
    (won_on_match 5 6 (bytes "CRANE") (read_file [bytes "crane", bytes "slate"] 5)
      (bytes "xx\ncrane\nSLATE\n")).2 (by decide)⟩

theorem hintCount_loopLines (n k : Nat) (answer : List Nat) (o : List Out)
    (h : ∀ e ∈ o, loopLine n k answer e) : hintCount o = 0 := by
  unfold hintCount
  rw [List.countP_eq_zero]
  intro e he
  rcases h e he with h | h | h | h | h
  · subst h
    unfold prompt
    split_ifs <;> simp [isHint]
  all_goals subst h; simp [isHint]

theorem isHint_prompt (n k : Nat) : isHint (prompt n k) = false := by
  unfold prompt
  split_ifs <;> rfl

theorem hintCount_cons_prompt (n k : Nat) (rest : List Out) :
    hintCount (prompt n k :: rest) = hintCount rest := by
  unfold hintCount
  rw [List.countP_cons, isHint_prompt]
  simp

theorem hintCount_append (o rest : List Out) :
    hintCount (o ++ rest) = hintCount o + hintCount rest := by
  unfold hintCount
  exact List.countP_append _ _ _

theorem hintCount_cons_hint (t : List Nat) (rest : List Out) :
    hintCount (Out.hintLine t :: rest) = hintCount rest + 1 := by
  unfold hintCount
  rw [List.countP_cons]
  rfl

theorem sessionLoop_hints (n : Nat) (answer : List Nat) (dictionary : List (List Nat)) :
    ∀ (i : Nat) (s : Stdin),
      hintCount (sessionLoop n answer dictionary i s).1 ≤ i ∧
      (hintCount (sessionLoop n answer dictionary i s).1 = i →
        (sessionLoop n answer dictionary i s).2 = some 3 ∧
        ((i = 0 ∧ (sessionLoop n answer dictionary i s).1 = [Out.badLuck answer]) ∨
          ∃ pre t, (sessionLoop n answer dictionary i s).1 =
            pre ++ [Out.hintLine t, Out.badLuck answer]))
  | 0, s => by simp [sessionLoop, game_over, hintCount, isHint]
  | i + 1, s => by
    rw [sessionLoop_succ]
    have hbad : hintCount [Out.badLuck answer] = 0 := rfl
    have hcor : hintCount [Out.correct] = 0 := rfl
    have hnil : hintCount ([] : List Out) = 0 := rfl
    by_cases h0 : (fgets (List.replicate 52 0) 52 s).2.2.eof = true ∧
        (fgets (List.replicate 52 0) 52 s).1 = false
    · rw [if_pos h0]
      simp only [game_over, hintCount_cons_prompt, hbad]
      exact ⟨by omega, fun h => by omega⟩
    · rw [if_neg h0]
      have hl := guessLoop_loopLine n (i + 1) answer dictionary
        ((fgets (List.replicate 52 0) 52 s).2.2.rest.length + 1)
        (fgets (List.replicate 52 0) 52 s).2.2
        (stripNewline (fgets (List.replicate 52 0) 52 s).2.1)
      generalize guessLoop n (i + 1) answer dictionary _ _ _ = r at hl
      obtain ⟨o, e⟩ := r
      have ho : hintCount o = 0 := hintCount_loopLines n (i + 1) answer o hl
      cases e with
      | exited code =>
        simp only [hintCount_cons_prompt, ho]
        exact ⟨by omega, fun h => by omega⟩
      | stuck =>
        simp only [hintCount_cons_prompt, ho]
        exact ⟨by omega, fun h => by omega⟩
      | accepted s1 input1 =>
        simp only
        by_cases heq : strcasecmp (cstr input1) answer = 0
        · rw [if_pos heq]
          simp only [List.cons_append, hintCount_cons_prompt, hintCount_append, ho, hcor]
          exact ⟨by omega, fun h => by omega⟩
        · rw [if_neg heq]
          obtain ⟨ih1, ih2⟩ := sessionLoop_hints n answer dictionary i s1
          have hcount : hintCount (prompt n (i + 1) :: o ++
              Out.hintLine (echo_hint (cstr input1) answer n) ::
                (sessionLoop n answer dictionary i s1).1) =
              hintCount (sessionLoop n answer dictionary i s1).1 + 1 := by
            rw [List.cons_append, hintCount_cons_prompt, hintCount_append, ho,
              hintCount_cons_hint]
            omega
          simp only [hcount]
          refine ⟨by omega, ?_⟩
          intro hc
          obtain ⟨hs, hshape⟩ := ih2 (by omega)
          refine ⟨hs, Or.inr ?_⟩
          rcases hshape with ⟨_, hout⟩ | ⟨pre, t, hout⟩
          · exact ⟨prompt n (i + 1) :: o, echo_hint (cstr input1) answer n, by
              rw [hout]⟩
          · exact ⟨prompt n (i + 1) :: o ++ Out.hintLine (echo_hint (cstr input1) answer n) ::
              pre, t, by rw [hout]; simp⟩

/-- C12: the session prints at most `m` hint lines, one for each accepted
guess that differs from the answer (such a guess prints its hint and the
`for` loop goes on with one attempt less); once `m` hint lines are printed
the session ends in Lost: the next and last line reveals the answer, right
after the last hint, and the exit status is 3.  With answer "MANGO" and
`m = 1` one incorrect accepted guess leads directly to Lost with status 3. -/
theorem lost_after_budget (n m : Nat) (answer : List Nat) (dictionary : List (List Nat))
    (stdin : List Nat) :
    hintCount (session n m answer dictionary stdin).1 ≤ m ∧
    (hintCount (session n m answer dictionary stdin).1 = m →
      (session n m answer dictionary stdin).2 = some 3 ∧
      ((m = 0 ∧ (session n m answer dictionary stdin).1 =
          [Out.welcome, Out.badLuck answer]) ∨
        ∃ pre t, (session n m answer dictionary stdin).1 =
          pre ++ [Out.hintLine t, Out.badLuck answer])) ∧
    (∀ (i : Nat) (s s1 : Stdin) (o : List Out) (input1 : List Nat),
      ¬ ((fgets (List.replicate 52 0) 52 s).2.2.eof = true ∧
          (fgets (List.replicate 52 0) 52 s).1 = false) →
      guessLoop n (i + 1) answer dictionary
          ((fgets (List.replicate 52 0) 52 s).2.2.rest.length + 1)
          (fgets (List.replicate 52 0) 52 s).2.2
          (stripNewline (fgets (List.replicate 52 0) 52 s).2.1) =
        (o, LoopEnd.accepted s1 input1) →
      strcasecmp (cstr input1) answer ≠ 0 →
      sessionLoop n answer dictionary (i + 1) s =
        (prompt n (i + 1) :: o ++ Out.hintLine (echo_hint (cstr input1) answer n) ::
            (sessionLoop n answer dictionary i s1).1,
          (sessionLoop n answer dictionary i s1).2)) ∧
    (∀ s : Stdin, sessionLoop n answer dictionary 0 s = ([Out.badLuck answer], some 3)) ∧
    session 5 1 (bytes "MANGO") (read_file [bytes "mango", bytes "crane"] 5)
        (bytes "crane\n") =
      ([Out.welcome, Out.promptLast 5, Out.hintLine (bytes "--an-\n"),
        Out.badLuck (bytes "MANGO")], some 3) := by
  obtain ⟨h1, h2⟩ := sessionLoop_hints n answer dictionary m { rest := stdin, eof := false }
  have hw : ∀ out : List Out, hintCount (Out.welcome :: out) = hintCount out := by
    intro out
    unfold hintCount
    rw [List.countP_cons]
    rfl
  refine ⟨?_, ?_, ?_, ?_, by decide⟩
  · simpa only [session, hw] using h1
  · intro hc
    simp only [session, hw] at hc
    obtain ⟨hs, hshape⟩ := h2 hc
    refine ⟨hs, ?_⟩
    rcases hshape with ⟨hm, hout⟩ | ⟨pre, t, hout⟩
    · left; exact ⟨hm, by simp only [session, hout]⟩
    · right; exact ⟨Out.welcome :: pre, t, by simp only [session, hout]; rfl⟩
  · intro i s s1 o input1 h0 hg hne
    rw [sessionLoop_succ, if_neg h0, hg]
    simp only [if_neg hne]
  · intro s
    rfl

set_option maxRecDepth 100000 in
theorem lost_after_budget_witness :
    hintCount (session 5 3 (bytes "MANGO") (read_file [bytes "mango", bytes "crane"] 5)
        (bytes "crane\nCRANE\nxx\ncrane\nmango\n")).1 = 3 ∧
    (session 5 3 (bytes "MANGO") (read_file [bytes "mango", bytes "crane"] 5)
        (bytes "crane\nCRANE\nxx\ncrane\nmango\n")).2 = some 3 ∧
    ((3 = 0 ∧ (session 5 3 (bytes "MANGO") (read_file [bytes "mango", bytes "crane"] 5)
        (bytes "crane\nCRANE\nxx\ncrane\nmango\n")).1 =
          [Out.welcome, Out.badLuck (bytes "MANGO")]) ∨
      ∃ pre t, (session 5 3 (bytes "MANGO") (read_file [bytes "mango", bytes "crane"] 5)
        (bytes "crane\nCRANE\nxx\ncrane\nmango\n")).1 =
          pre ++ [Out.hintLine t, Out.badLuck (bytes "MANGO")]) :=
  ⟨by decide,
    (lost_after_budget 5 3 (bytes "MANGO") (read_file [bytes "mango", bytes "crane"] 5)
      (bytes "crane\nCRANE\nxx\ncrane\nmango\n")).2.1 (by decide)⟩

theorem fgets_nil (buf : List Nat) (s : Stdin) (h : s.rest = []) :
    fgets buf 52 s = (false, buf, { rest := [], eof := true }) := by
  unfold fgets
  simp [h, fgetsRead]

/-- C13: when the input is at its end with nothing left, a read for a guess
ends the session in Lost at once, whatever number of attempts remains: at the
first read of an attempt the prompt is followed by the reveal of the answer
and status 3, and at a read after a rejected guess the diagnostic and the
prompt are followed by the reveal and status 3. -/
theorem lost_on_end_of_input (n : Nat) (answer : List Nat) (dictionary : List (List Nat)) :
    (∀ (i : Nat) (s : Stdin), s.rest = [] →
      sessionLoop n answer dictionary (i + 1) s =
        ([prompt n (i + 1), Out.badLuck answer], some 3)) ∧
    (∀ (i fuel : Nat) (s : Stdin) (input : List Nat), s.rest = [] →
      ¬ ((check_guess (cstr input) n).1 = true ∧
          (word_in_dict (cstr input) dictionary).1 = true) →
      guessLoop n i answer dictionary (fuel + 1) s input =
        (conditionLines (cstr input) n dictionary ++ [prompt n i, Out.badLuck answer],
          LoopEnd.exited 3)) ∧
    (∀ (i : Nat) (s : Stdin) (o : List Out),
      ¬ ((fgets (List.replicate 52 0) 52 s).2.2.eof = true ∧
          (fgets (List.replicate 52 0) 52 s).1 = false) →
      guessLoop n (i + 1) answer dictionary
          ((fgets (List.replicate 52 0) 52 s).2.2.rest.length + 1)
          (fgets (List.replicate 52 0) 52 s).2.2
          (stripNewline (fgets (List.replicate 52 0) 52 s).2.1) = (o, LoopEnd.exited 3) →
      sessionLoop n answer dictionary (i + 1) s = (prompt n (i + 1) :: o, some 3)) ∧
    (∀ m : Nat, session n (m + 1) answer dictionary [] =
      ([Out.welcome, prompt n (m + 1), Out.badLuck answer], some 3)) := by
  have first : ∀ (i : Nat) (s : Stdin), s.rest = [] →
      sessionLoop n answer dictionary (i + 1) s =
        ([prompt n (i + 1), Out.badLuck answer], some 3) := by
    intro i s hs
    rw [sessionLoop_succ, fgets_nil _ s hs]
    simp [game_over]
  refine ⟨first, ?_, ?_, ?_⟩
  · intro i fuel s input hs hrej
    rw [guessLoop_succ, if_neg hrej, fgets_nil _ s hs]
    simp [game_over]
  · intro i s o h0 hg
    rw [sessionLoop_succ, if_neg h0, hg]
  · intro m
    simp only [session]
    rw [first m { rest := [], eof := false } rfl]

set_option maxRecDepth 100000 in
theorem lost_on_end_of_input_witness :
    session 5 6 (bytes "CRANE") (read_file [bytes "crane", bytes "slate"] 5)
        (bytes "slate\nxx\n") =
      ([Out.welcome, Out.promptRemaining 5 6, Out.hintLine (bytes "--A-E\n"),
        Out.promptRemaining 5 5, Out.wrongLength 5, Out.promptRemaining 5 5,
        Out.badLuck (bytes "CRANE")], some 3) ∧
    session 5 (5 + 1) (bytes "CRANE") (read_file [bytes "crane", bytes "slate"] 5) [] =
      ([Out.welcome, prompt 5 (5 + 1), Out.badLuck (bytes "CRANE")], some 3) :=
  ⟨by decide,
    (lost_on_end_of_input 5 (bytes "CRANE")
      (read_file [bytes "crane", bytes "slate"] 5)).2.2.2 5⟩

/-! ## Diagnostics and prompts -/

theorem check_guess_eq (guess : List Nat) (n : Nat) :
    check_guess guess n =
      if strlen guess ≠ n then (false, [Out.wrongLength n])
      else if alphabetic (cstr guess) then (true, [])
      else (false, [Out.lettersOnly]) := by
  by_cases hl : strlen guess = n
  · have hiff := check_guess_iff guess n
    rw [if_neg (by simpa using hl)]
    by_cases ha : alphabetic (cstr guess)
    · rw [if_pos ha]
      have h1 : (check_guess guess n).1 = true := hiff.mpr ⟨hl, ha⟩
      rcases check_guess_out guess n with ⟨_, c2⟩ | ⟨c1, _⟩
      · exact Prod.ext h1 c2
      · rw [h1] at c1; cases c1
    · rw [if_neg ha]
      have h1 : ¬ (check_guess guess n).1 = true := fun h => ha (hiff.mp h).2
      unfold check_guess at h1 ⊢
      rw [if_neg (by simpa using hl)] at h1 ⊢
      by_cases hall : (List.range n).all (fun i => isalpha (peek guess i)) = true
      · rw [if_pos hall] at h1
        exact absurd rfl h1
      · rw [if_neg hall]
  · rw [if_pos hl]
    unfold check_guess
    rw [if_pos hl]

theorem strlen_cstr (buf : List Nat) : strlen (cstr buf) = strlen buf := by
  unfold strlen
  rw [cstr_idem]

theorem promptsOk_cons_prompt (n k : Nat) (rest : List Out) :
    promptsOk n k (prompt n k :: rest) = promptsOk n k rest := by
  unfold prompt
  split_ifs with h
  · subst h; simp [promptsOk]
  · simp [promptsOk, h]

theorem promptsOk_append (n k : Nat) (answer : List Nat) : ∀ (o rest : List Out),
    (∀ e ∈ o, loopLine n k answer e) → promptsOk n k (o ++ rest) = promptsOk n k rest
  | [], rest, _ => rfl
  | e :: o, rest, h => by
    have ih := promptsOk_append n k answer o rest (fun x hx => h x (List.mem_cons_of_mem _ hx))
    rcases h e (List.mem_cons_self _ _) with he | he | he | he | he
    · subst he; rw [List.cons_append, promptsOk_cons_prompt, ih]
    all_goals subst he; simp [promptsOk, ih]

theorem sessionLoop_promptsOk (n : Nat) (answer : List Nat) (dictionary : List (List Nat)) :
    ∀ (i : Nat) (s : Stdin), promptsOk n i (sessionLoop n answer dictionary i s).1 = true
  | 0, s => by simp [sessionLoop, game_over, promptsOk]
  | i + 1, s => by
    rw [sessionLoop_succ]
    by_cases h0 : (fgets (List.replicate 52 0) 52 s).2.2.eof = true ∧
        (fgets (List.replicate 52 0) 52 s).1 = false
    · rw [if_pos h0]
      simp [promptsOk_cons_prompt, game_over, promptsOk]
    · rw [if_neg h0]
      have hl := guessLoop_loopLine n (i + 1) answer dictionary
        ((fgets (List.replicate 52 0) 52 s).2.2.rest.length + 1)
        (fgets (List.replicate 52 0) 52 s).2.2
        (stripNewline (fgets (List.replicate 52 0) 52 s).2.1)
      generalize guessLoop n (i + 1) answer dictionary _ _ _ = r at hl
      obtain ⟨o, e⟩ := r
      have ho := promptsOk_append n (i + 1) answer o
      cases e with
      | exited code =>
        simp only [promptsOk_cons_prompt]
        have := ho [] hl
        rw [List.append_nil] at this
        rw [this]; rfl
      | stuck =>
        simp only [promptsOk_cons_prompt]
        have := ho [] hl
        rw [List.append_nil] at this
        rw [this]; rfl
      | accepted s1 input1 =>
        simp only
        by_cases heq : strcasecmp (cstr input1) answer = 0
        · rw [if_pos heq]
          simp only [List.cons_append, promptsOk_cons_prompt]
          rw [ho _ hl]
          simp [promptsOk]
        · rw [if_neg heq]
          simp only [List.cons_append, promptsOk_cons_prompt]
          rw [ho _ hl]
          simp [promptsOk, sessionLoop_promptsOk n answer dictionary i s1]

/-- C15: `prompt` uses the "last attempt" wording exactly for 1 attempt
remaining and otherwise prints the number it is given; every prompt in the
output of a session shows the current number of attempts remaining, which
starts at `m` and goes down by one at each hint line; the first prompt of an
attempt and the prompt after a rejected guess are both `prompt n i` for the
current `i`. -/
theorem prompt_reflects_attempts (n m : Nat) (answer : List Nat)
    (dictionary : List (List Nat)) (stdin : List Nat) :
    (∀ k : Nat, (prompt n k = Out.promptLast n ↔ k = 1) ∧
      (k ≠ 1 → prompt n k = Out.promptRemaining n k)) ∧
    promptsOk n m (session n m answer dictionary stdin).1 = true ∧
    (∀ (i : Nat) (s : Stdin), ∃ rest,
      (sessionLoop n answer dictionary (i + 1) s).1 = prompt n (i + 1) :: rest) ∧
    (∀ (i fuel : Nat) (s : Stdin) (input : List Nat),
      ¬ ((check_guess (cstr input) n).1 = true ∧
          (word_in_dict (cstr input) dictionary).1 = true) →
      ∃ rest, (guessLoop n i answer dictionary (fuel + 1) s input).1 =
        conditionLines (cstr input) n dictionary ++ prompt n i :: rest) := by
  refine ⟨?_, ?_, ?_, ?_⟩
  · intro k
    unfold prompt
    by_cases hk : k = 1
    · simp [hk]
    · simp [hk]
  · have := sessionLoop_promptsOk n answer dictionary m { rest := stdin, eof := false }
    simpa [session, promptsOk] using this
  · intro i s
    rw [sessionLoop_succ]
    by_cases h0 : (fgets (List.replicate 52 0) 52 s).2.2.eof = true ∧
        (fgets (List.replicate 52 0) 52 s).1 = false
    · rw [if_pos h0]; exact ⟨_, rfl⟩
    · rw [if_neg h0]
      generalize guessLoop n (i + 1) answer dictionary _ _ _ = r
      obtain ⟨o, e⟩ := r
      cases e with
      | exited code => exact ⟨_, rfl⟩
      | stuck => exact ⟨_, rfl⟩
      | accepted s1 input1 =>
        simp only
        by_cases heq : strcasecmp (cstr input1) answer = 0
        · rw [if_pos heq]; exact ⟨_, rfl⟩
        · rw [if_neg heq]; exact ⟨_, rfl⟩
  · intro i fuel s input hrej
    rw [guessLoop_succ, if_neg hrej]
    by_cases h2 : (fgets input 52 s).2.2.eof = true
    · rw [if_pos h2]; exact ⟨_, rfl⟩
    · rw [if_neg h2]; exact ⟨_, rfl⟩

set_option maxRecDepth 100000 in
theorem prompt_reflects_attempts_witness :
    session 5 2 (bytes "MANGO") (read_file [bytes "mango", bytes "crane"] 5)
        (bytes "crane\nxx\nmango\n") =
      ([Out.welcome, Out.promptRemaining 5 2, Out.hintLine (bytes "--an-\n"),
        Out.promptLast 5, Out.wrongLength 5, Out.promptLast 5, Out.correct], some 0) ∧
    promptsOk 5 2 (session 5 2 (bytes "MANGO") (read_file [bytes "mango", bytes "crane"] 5)
        (bytes "crane\nxx\nmango\n")).1 = true :=
  ⟨by decide,
    (prompt_reflects_attempts 5 2 (bytes "MANGO") (read_file [bytes "mango", bytes "crane"] 5)
      (bytes "crane\nxx\nmango\n")).2.1⟩

/-! ## End-to-end runs and the last input line -/

/-- An attempt whose first read yields a line that passes both checks: the
guess wins, or its hint is printed and the loop goes on with `i`. -/
theorem sessionLoop_accept_first (n : Nat) (answer : List Nat) (dictionary : List (List Nat))
    (i : Nat) (s s1 : Stdin) (buf : List Nat)
    (hf : fgets (List.replicate 52 0) 52 s = (true, buf, s1))
    (hv : (check_guess (cstr (stripNewline buf)) n).1 = true ∧
      (word_in_dict (cstr (stripNewline buf)) dictionary).1 = true) :
    sessionLoop n answer dictionary (i + 1) s =
      if strcasecmp (cstr (stripNewline buf)) answer = 0 then
        ([prompt n (i + 1), Out.correct], some 0)
      else
        (prompt n (i + 1) :: Out.hintLine (echo_hint (cstr (stripNewline buf)) answer n) ::
            (sessionLoop n answer dictionary i s1).1,
          (sessionLoop n answer dictionary i s1).2) := by
  rw [sessionLoop_succ, hf]
  simp only
  rw [if_neg (by simp), guessLoop_succ, if_pos hv, conditionLines_accepted _ _ _ hv]
  simp only [List.nil_append, List.cons_append]

/-- C16: with answer "CRANE", `n = 5`, 6 attempts, a dictionary in which
`word_in_dict` finds SLATE and CRANE, and the input lines "SLATE" and
"CRANE", the session prints the hint "--A-E" for the first guess, prompts
with 5 attempts remaining, and ends on the second guess with `Correct!` and
exit status 0, without revealing the answer. -/
theorem end_to_end_win (dictionary : List (List Nat))
    (h1 : (word_in_dict (bytes "SLATE") dictionary).1 = true)
    (h2 : (word_in_dict (bytes "CRANE") dictionary).1 = true) :
    session 5 6 (bytes "CRANE") dictionary (bytes "SLATE\nCRANE\n") =
      ([Out.welcome, Out.promptRemaining 5 6, Out.hintLine (bytes "--A-E\n"),
        Out.promptRemaining 5 5, Out.correct], some 0) := by
  have f1 : fgets (List.replicate 52 0) 52 { rest := bytes "SLATE\nCRANE\n", eof := false } =
      (true, bytes "SLATE\n" ++ List.replicate 46 0, { rest := bytes "CRANE\n", eof := false }) := by
    decide
  have f2 : fgets (List.replicate 52 0) 52 { rest := bytes "CRANE\n", eof := false } =
      (true, bytes "CRANE\n" ++ List.replicate 46 0, { rest := [], eof := false }) := by
    decide
  have c1 : cstr (stripNewline (bytes "SLATE\n" ++ List.replicate 46 0)) = bytes "SLATE" := by
    decide
  have c2 : cstr (stripNewline (bytes "CRANE\n" ++ List.replicate 46 0)) = bytes "CRANE" := by
    decide
  have e1 := sessionLoop_accept_first 5 (bytes "CRANE") dictionary 5 _ _ _ f1
    (by rw [c1]; exact ⟨by decide, h1⟩)
  have e2 := sessionLoop_accept_first 5 (bytes "CRANE") dictionary 4 _ _ _ f2
    (by rw [c2]; exact ⟨by decide, h2⟩)
  rw [c1, if_neg (by decide)] at e1
  rw [c2, if_pos (by decide)] at e2
  have hh : echo_hint (bytes "SLATE") (bytes "CRANE") 5 = bytes "--A-E\n" := by decide
  have p6 : prompt 5 6 = Out.promptRemaining 5 6 := by decide
  have p5 : prompt 5 5 = Out.promptRemaining 5 5 := by decide
  unfold session
  rw [e1, e2, hh, p6, p5]

set_option maxRecDepth 100000 in
theorem end_to_end_win_witness :
    (word_in_dict (bytes "SLATE") (read_file [bytes "slate", bytes "crane"] 5)).1 = true ∧
    (word_in_dict (bytes "CRANE") (read_file [bytes "slate", bytes "crane"] 5)).1 = true ∧
    session 5 6 (bytes "CRANE") (read_file [bytes "slate", bytes "crane"] 5)
        (bytes "SLATE\nCRANE\n") =
      ([Out.welcome, Out.promptRemaining 5 6, Out.hintLine (bytes "--A-E\n"),
        Out.promptRemaining 5 5, Out.correct], some 0) :=
  ⟨by decide, by decide,
    end_to_end_win (read_file [bytes "slate", bytes "crane"] 5) (by decide) (by decide)⟩

theorem fgetsRead_unterminated : ∀ (k : Nat) (w : List Nat), w.length < k →
    (∀ c ∈ w, c ≠ 10) → fgetsRead k w = (w, [], true)
  | 0, _, h, _ => by omega
  | _ + 1, [], _, _ => rfl
  | k + 1, c :: w, h, hc => by
    have hc0 : c ≠ 10 := hc c (List.mem_cons_self _ _)
    have ih := fgetsRead_unterminated k w (by simpa using h)
      (fun x hx => hc x (List.mem_cons_of_mem _ hx))
    unfold fgetsRead
    rw [if_neg hc0, ih]

theorem fgets_unterminated (buf w : List Nat) (e : Bool) (hw : w ≠ [])
    (hlen : w.length ≤ 50) (hc : ∀ c ∈ w, c ≠ 10) :
    fgets buf 52 { rest := w, eof := e } =
      (true, w ++ 0 :: buf.drop (w.length + 1), { rest := [], eof := true }) := by
  unfold fgets
  simp only [Nat.add_one_sub_one]
  rw [fgetsRead_unterminated 51 w (by omega) hc]
  simp [hw]

theorem stripNewline_unterminated (w rest : List Nat) (hc : ∀ c ∈ w, c ≠ 0 ∧ c ≠ 10) :
    stripNewline (w ++ 0 :: rest) = w ++ 0 :: rest ∧ cstr (w ++ 0 :: rest) = w := by
  have hcs : cstr (w ++ 0 :: rest) = w := cstr_append_zero (fun c h => (hc c h).1) rest
  refine ⟨?_, hcs⟩
  unfold stripNewline
  rw [if_neg]
  rintro ⟨h0, h10⟩
  have hlen : strlen (w ++ 0 :: rest) = w.length := by rw [strlen, hcs]
  rw [hlen] at h0 h10
  have hlt : w.length - 1 < w.length := by omega
  rw [peek_append_left _ _ _ hlt] at h10
  exact (hc _ (peek_mem w _ hlt)).2 h10

theorem cstr_append_zero_any (r x : List Nat) : cstr (r ++ 0 :: x) = cstr r := by
  unfold cstr
  induction r with
  | nil => simp
  | cons c r ih =>
    by_cases hc : c = 0
    · simp [hc]
    · simp only [List.cons_append, List.takeWhile_cons, ne_eq, hc, not_false_eq_true,
        decide_True, if_true, List.cons.injEq, true_and]
      exact ih

theorem cstr_of_nonzero {w : List Nat} (h : ∀ c ∈ w, c ≠ 0) : cstr w = w := by
  unfold cstr
  rw [List.takeWhile_eq_self_iff]
  intro x hx
  simpa using h x hx

theorem buffer_split (b : List Nat) : b = cstr b ++ b.dropWhile (fun c => c ≠ 0) := by
  unfold cstr
  exact (List.takeWhile_append_dropWhile _ _).symm

/-- The string left by `stripNewline`: the string in the buffer without a
final newline. -/
theorem cstr_stripNewline (b : List Nat) :
    cstr (stripNewline b) =
      if (cstr b).getLast? = some 10 then (cstr b).dropLast else cstr b := by
  rcases List.eq_nil_or_concat (cstr b) with hp | ⟨q, x, hp⟩
  on_goal 2 => rw [List.concat_eq_append] at hp
  · have h0 : strlen b = 0 := by rw [strlen, hp]; rfl
    unfold stripNewline
    rw [if_neg (by simp [h0]), hp]
    simp
  · have hq : ∀ c ∈ q, c ≠ 0 := fun c hc =>
      cstr_nonzero b c (by rw [hp]; exact List.mem_append_left _ hc)
    have hlen : strlen b = q.length + 1 := by rw [strlen, hp]; simp
    have hsplit := buffer_split b
    rw [hp] at hsplit
    have hpeek : peek b (strlen b - 1) = x := by
      rw [hlen, Nat.add_sub_cancel]
      conv_lhs => rw [hsplit]
      rw [List.append_assoc, peek_append_right _ _ _ (le_refl _), Nat.sub_self]
      rfl
    unfold stripNewline
    rw [hpeek, hp]
    by_cases hx : x = 10
    · rw [if_pos ⟨by omega, hx⟩, hlen, Nat.add_sub_cancel]
      have hset : b.set q.length 0 = q ++ 0 :: b.dropWhile (fun c => c ≠ 0) := by
        conv_lhs => rw [hsplit]
        rw [List.append_assoc, List.set_append_right _ _ (le_refl _), Nat.sub_self]
        rfl
      rw [hset, cstr_append_zero hq]
      simp [hx]
    · rw [if_neg (fun h => hx h.2), hp]
      simp [hx]

theorem fgetsRead_line : ∀ (k : Nat) (l rest : List Nat), l.length < k →
    (∀ c ∈ l, c ≠ 10) → fgetsRead k (l ++ 10 :: rest) = (l ++ [10], rest, false)
  | 0, _, _, h, _ => by omega
  | _ + 1, [], _, _, _ => by simp [fgetsRead]
  | k + 1, c :: l, rest, h, hc => by
    have hc0 : c ≠ 10 := hc c (List.mem_cons_self _ _)
    have ih := fgetsRead_line k l rest (by simpa using h)
      (fun x hx => hc x (List.mem_cons_of_mem _ hx))
    rw [List.cons_append]
    unfold fgetsRead
    rw [if_neg hc0, ih]
    rfl

/-- One `fgets` call reads a line that fits the buffer whole. -/
theorem fgets_line (buf l rest : List Nat) (e : Bool) (hl : shortLine l) :
    fgets buf 52 { rest := l ++ 10 :: rest, eof := e } =
      (true, (l ++ [10]) ++ 0 :: buf.drop (l.length + 2), { rest := rest, eof := e }) := by
  unfold fgets
  simp only [Nat.add_one_sub_one]
  rw [fgetsRead_line 51 l rest (by have := hl.1; omega) (fun c h => (hl.2 c h).2)]
  simp

/-- After `stripNewline` the buffer holds the line without its newline. -/
theorem cstr_line (l x : List Nat) (hl : shortLine l) :
    cstr (stripNewline ((l ++ [10]) ++ 0 :: x)) = l := by
  have hnz : ∀ c ∈ l ++ [10], c ≠ 0 := by
    intro c hc
    rcases List.mem_append.mp hc with h | h
    · exact (hl.2 c h).1
    · simp only [List.mem_singleton] at h; omega
  rw [cstr_stripNewline, cstr_append_zero hnz]
  simp

theorem sessionLoop_afterLoop (n : Nat) (answer : List Nat) (dictionary : List (List Nat))
    (i : Nat) (s : Stdin) :
    sessionLoop n answer dictionary (i + 1) s =
      if (fgets (List.replicate 52 0) 52 s).2.2.eof = true ∧
          (fgets (List.replicate 52 0) 52 s).1 = false then
        (prompt n (i + 1) :: (game_over answer).1, (game_over answer).2)
      else
        (prompt n (i + 1) :: (afterLoop n answer dictionary i
            (guessLoop n (i + 1) answer dictionary
              ((fgets (List.replicate 52 0) 52 s).2.2.rest.length + 1)
              (fgets (List.replicate 52 0) 52 s).2.2
              (stripNewline (fgets (List.replicate 52 0) 52 s).2.1))).1,
          (afterLoop n answer dictionary i
            (guessLoop n (i + 1) answer dictionary
              ((fgets (List.replicate 52 0) 52 s).2.2.rest.length + 1)
              (fgets (List.replicate 52 0) 52 s).2.2
              (stripNewline (fgets (List.replicate 52 0) 52 s).2.1))).2) := by
  rw [sessionLoop_succ]
  by_cases h0 : (fgets (List.replicate 52 0) 52 s).2.2.eof = true ∧
      (fgets (List.replicate 52 0) 52 s).1 = false
  · rw [if_pos h0, if_pos h0]
  · rw [if_neg h0, if_neg h0]
    generalize guessLoop n (i + 1) answer dictionary _ _ _ = r
    obtain ⟨o, e⟩ := r
    cases e with
    | exited code => rfl
    | stuck => rfl
    | accepted s1 input1 =>
      simp only [afterLoop]
      by_cases h1 : strcasecmp (cstr input1) answer = 0
      · rw [if_pos h1, if_pos h1]; rfl
      · rw [if_neg h1, if_neg h1]; rfl

theorem afterLoop_append (n : Nat) (answer : List Nat) (dictionary : List (List Nat))
    (i : Nat) (pre : List Out) (g : List Out × LoopEnd) :
    afterLoop n answer dictionary i (pre ++ g.1, g.2) =
      (pre ++ (afterLoop n answer dictionary i g).1, (afterLoop n answer dictionary i g).2) := by
  obtain ⟨o, e⟩ := g
  cases e with
  | exited code => rfl
  | stuck => rfl
  | accepted s1 input1 =>
    simp only [afterLoop]
    by_cases h1 : strcasecmp (cstr input1) answer = 0
    · simp [h1]
    · simp [h1]

theorem afterLoop_cons_append (n : Nat) (answer : List Nat) (dictionary : List (List Nat))
    (i : Nat) (pre : List Out) (x : Out) (g : List Out × LoopEnd) :
    afterLoop n answer dictionary i (pre ++ x :: g.1, g.2) =
      (pre ++ x :: (afterLoop n answer dictionary i g).1,
        (afterLoop n answer dictionary i g).2) := by
  have a := afterLoop_append n answer dictionary i (pre ++ [x]) g
  simpa using a

/-- With enough iterations allowed, their bound does not matter. -/
theorem guessLoop_fuel (n i : Nat) (answer : List Nat) (dictionary : List (List Nat)) :
    ∀ (f1 f2 : Nat) (s : Stdin) (input : List Nat), s.rest.length < f1 → s.rest.length < f2 →
      guessLoop n i answer dictionary f1 s input = guessLoop n i answer dictionary f2 s input
  | 0, _, _, _, h, _ => by omega
  | _ + 1, 0, _, _, _, h => by omega
  | f1 + 1, f2 + 1, s, input, h1, h2 => by
    rw [guessLoop_succ, guessLoop_succ]
    by_cases hv : (check_guess (cstr input) n).1 = true ∧
        (word_in_dict (cstr input) dictionary).1 = true
    · rw [if_pos hv, if_pos hv]
    · rw [if_neg hv, if_neg hv]
      by_cases he : (fgets input 52 s).2.2.eof = true
      · rw [if_pos he, if_pos he]
      · rw [if_neg he, if_neg he]
        have hp := fgets_progress input s (by simpa using he)
        rw [guessLoop_fuel n i answer dictionary f1 f2 (fgets input 52 s).2.2 _
          (by omega) (by omega)]

theorem fgets_stream (b b1 : List Nat) (s : Stdin) :
    (fgets b 52 s).2.2 = (fgets b1 52 s).2.2 ∧ (fgets b 52 s).1 = (fgets b1 52 s).1 := by
  unfold fgets
  simp only
  by_cases h : (fgetsRead (52 - 1) s.rest).1.isEmpty = true
  · rw [if_pos h, if_pos h]; exact ⟨rfl, rfl⟩
  · rw [if_neg h, if_neg h]; exact ⟨rfl, rfl⟩

theorem fgets_cstr (b b1 : List Nat) (s : Stdin) (h : cstr b = cstr b1) :
    cstr (stripNewline (fgets b 52 s).2.1) = cstr (stripNewline (fgets b1 52 s).2.1) := by
  rw [cstr_stripNewline, cstr_stripNewline]
  have e : cstr (fgets b 52 s).2.1 = cstr (fgets b1 52 s).2.1 := by
    unfold fgets
    simp only
    by_cases h0 : (fgetsRead (52 - 1) s.rest).1.isEmpty = true
    · rw [if_pos h0, if_pos h0]; exact h
    · rw [if_neg h0, if_neg h0]
      simp only
      rw [cstr_append_zero_any, cstr_append_zero_any]
  rw [e]

/-- The loop and what follows it depend on the buffer through the string in
it only. -/
theorem guessLoop_buffer (n i k : Nat) (answer : List Nat) (dictionary : List (List Nat)) :
    ∀ (fuel : Nat) (s : Stdin) (b b1 : List Nat), cstr b = cstr b1 →
      afterLoop n answer dictionary i (guessLoop n k answer dictionary fuel s b) =
        afterLoop n answer dictionary i (guessLoop n k answer dictionary fuel s b1)
  | 0, _, _, _, _ => rfl
  | fuel + 1, s, b, b1, h => by
    rw [guessLoop_succ, guessLoop_succ, ← h, (fgets_stream b b1 s).1]
    by_cases hv : (check_guess (cstr b) n).1 = true ∧
        (word_in_dict (cstr b) dictionary).1 = true
    · rw [if_pos hv, if_pos hv]
      simp only [afterLoop, h]
    · rw [if_neg hv, if_neg hv]
      by_cases he : (fgets b1 52 s).2.2.eof = true
      · rw [if_pos he, if_pos he]
      · rw [if_neg he, if_neg he]
        have ih := guessLoop_buffer n i k answer dictionary fuel (fgets b1 52 s).2.2
          (stripNewline (fgets b 52 s).2.1) (stripNewline (fgets b1 52 s).2.1)
          (fgets_cstr b b1 s h)
        rw [afterLoop_cons_append, afterLoop_cons_append, ih]

/-! ## The session on input lines -/

theorem sessionLoop_nil (n : Nat) (answer : List Nat) (dictionary : List (List Nat))
    (i : Nat) (e : Bool) :
    sessionLoop n answer dictionary (i + 1) { rest := [], eof := e } =
      ([prompt n (i + 1), Out.badLuck answer], some 3) := by
  rw [sessionLoop_succ, fgets_nil _ { rest := [], eof := e } rfl]
  simp [game_over]

/-- A line that fits the buffer and passes both checks, read as the first
line of an attempt: it wins, or its hint is printed and the session goes on
with one attempt less. -/
theorem sessionLoop_line_accept (n : Nat) (answer : List Nat) (dictionary : List (List Nat))
    (i : Nat) (l rest : List Nat) (e : Bool) (hl : shortLine l)
    (hv : passes n dictionary l) :
    sessionLoop n answer dictionary (i + 1) { rest := l ++ 10 :: rest, eof := e } =
      if strcasecmp l answer = 0 then ([prompt n (i + 1), Out.correct], some 0)
      else
        (prompt n (i + 1) :: Out.hintLine (echo_hint l answer n) ::
            (sessionLoop n answer dictionary i { rest := rest, eof := e }).1,
          (sessionLoop n answer dictionary i { rest := rest, eof := e }).2) := by
  have hf := fgets_line (List.replicate 52 0) l rest e hl
  have hc := cstr_line l ((List.replicate 52 0).drop (l.length + 2)) hl
  have := sessionLoop_accept_first n answer dictionary i _ _ _ hf (by rw [hc]; exact hv)
  rw [hc] at this
  exact this

/-- A line that fits the buffer and fails a check, read as the first line of
an attempt: its diagnostic is followed by the prompt with the same number of
attempts. -/
theorem sessionLoop_line_reject_prompt (n : Nat) (answer : List Nat)
    (dictionary : List (List Nat)) (i : Nat) (l rest : List Nat) (e : Bool)
    (hl : shortLine l) (hv : ¬ passes n dictionary l) :
    ∃ tail : List Out,
      (sessionLoop n answer dictionary (i + 1) { rest := l ++ 10 :: rest, eof := e }).1 =
        prompt n (i + 1) :: conditionLines l n dictionary ++ prompt n (i + 1) :: tail := by
  have hc := cstr_line l ((List.replicate 52 0).drop (l.length + 2)) hl
  have hv : ¬ ((check_guess l n).1 = true ∧ (word_in_dict l dictionary).1 = true) := hv
  rw [sessionLoop_afterLoop, fgets_line (List.replicate 52 0) l rest e hl]
  simp only
  rw [if_neg (by simp), guessLoop_succ, hc, if_neg hv]
  generalize stripNewline ((l ++ [10]) ++ 0 :: (List.replicate 52 0).drop (l.length + 2))
    = b
  by_cases he : (fgets b 52 { rest := rest, eof := e }).2.2.eof = true
  · rw [if_pos he]
    exact ⟨(game_over answer).1, by simp [afterLoop]⟩
  · rw [if_neg he]
    rw [afterLoop_cons_append]
    exact ⟨_, rfl⟩

/-- A line that fits the buffer and fails a check, read as the first line of
an attempt, when the input ends after it or goes on with a line that fits the
buffer: after the diagnostic the session goes on as from the start of an
attempt with the same number of attempts. -/
theorem sessionLoop_line_reject (n : Nat) (answer : List Nat) (dictionary : List (List Nat))
    (i : Nat) (l rest : List Nat) (hl : shortLine l) (hv : ¬ passes n dictionary l)
    (hrest : rest = [] ∨ ∃ l2 rest2, shortLine l2 ∧ rest = l2 ++ 10 :: rest2) :
    sessionLoop n answer dictionary (i + 1) { rest := l ++ 10 :: rest, eof := false } =
      (prompt n (i + 1) :: conditionLines l n dictionary ++
          (sessionLoop n answer dictionary (i + 1) { rest := rest, eof := false }).1,
        (sessionLoop n answer dictionary (i + 1) { rest := rest, eof := false }).2) := by
  have hc := cstr_line l ((List.replicate 52 0).drop (l.length + 2)) hl
  have hv : ¬ ((check_guess l n).1 = true ∧ (word_in_dict l dictionary).1 = true) := hv
  rw [sessionLoop_afterLoop, fgets_line (List.replicate 52 0) l rest false hl]
  simp only
  rw [if_neg (by simp), guessLoop_succ, hc, if_neg hv]
  generalize stripNewline ((l ++ [10]) ++ 0 :: (List.replicate 52 0).drop (l.length + 2))
    = b
  rcases hrest with h0 | ⟨l2, rest2, hl2, h2⟩
  · subst h0
    rw [fgets_nil _ { rest := [], eof := false } rfl, sessionLoop_nil]
    simp [afterLoop, game_over]
  · subst h2
    rw [fgets_line b l2 rest2 false hl2]
    simp only
    rw [if_neg (by simp)]
    rw [afterLoop_cons_append, sessionLoop_afterLoop, fgets_line (List.replicate 52 0) l2 rest2 false hl2]
    simp only
    rw [if_neg (by simp),
      guessLoop_fuel n (i + 1) answer dictionary (l2 ++ 10 :: rest2).length (rest2.length + 1)
        { rest := rest2, eof := false } _ (by simp; omega) (by simp),
      guessLoop_buffer n i (i + 1) answer dictionary (rest2.length + 1)
        { rest := rest2, eof := false }
        (stripNewline ((l2 ++ [10]) ++ 0 :: b.drop (l2.length + 2)))
        (stripNewline ((l2 ++ [10]) ++ 0 :: (List.replicate 52 0).drop (l2.length + 2)))
        (by rw [cstr_line l2 _ hl2, cstr_line l2 _ hl2])]
    simp

/-- Any number of lines that fit the buffer and fail a check, one after the
other: each gets the prompt and its diagnostic, and the session then goes on
with the same number of attempts. -/
theorem sessionLoop_lines_reject (n : Nat) (answer : List Nat) (dictionary : List (List Nat))
    (i : Nat) (rest : List Nat)
    (hrest : rest = [] ∨ ∃ l2 rest2, shortLine l2 ∧ rest = l2 ++ 10 :: rest2) :
    ∀ ls : List (List Nat), (∀ l ∈ ls, shortLine l ∧ ¬ passes n dictionary l) →
      sessionLoop n answer dictionary (i + 1) { rest := joinLines ls ++ rest, eof := false } =
        (retryLines n (i + 1) dictionary ls ++
            (sessionLoop n answer dictionary (i + 1) { rest := rest, eof := false }).1,
          (sessionLoop n answer dictionary (i + 1) { rest := rest, eof := false }).2)
  | [], _ => by simp [joinLines, retryLines]
  | l :: ls, h => by
    have hl := h l (List.mem_cons_self _ _)
    have ih := sessionLoop_lines_reject n answer dictionary i rest hrest ls
      (fun x hx => h x (List.mem_cons_of_mem _ hx))
    have hnext : joinLines ls ++ rest = [] ∨
        ∃ l2 rest2, shortLine l2 ∧ joinLines ls ++ rest = l2 ++ 10 :: rest2 := by
      cases ls with
      | nil => simpa [joinLines] using hrest
      | cons l2 ls2 =>
        right
        exact ⟨l2, joinLines ls2 ++ rest, (h l2 (by simp)).1, by simp [joinLines]⟩
    have e : joinLines (l :: ls) ++ rest = l ++ 10 :: (joinLines ls ++ rest) := by
      simp [joinLines]
    rw [e, sessionLoop_line_reject n answer dictionary i l _ hl.1 hl.2 hnext, ih]
    simp [retryLines]

/-- A last line without newline that fits the buffer, read as the first line
of an attempt: it is validated as a guess like a line with its newline. -/
theorem sessionLoop_final_line (n : Nat) (answer : List Nat) (dictionary : List (List Nat))
    (i : Nat) (w : List Nat) (e : Bool) (hw : w ≠ []) (hl : shortLine w) :
    (passes n dictionary w →
      sessionLoop n answer dictionary (i + 1) { rest := w, eof := e } =
        if strcasecmp w answer = 0 then ([prompt n (i + 1), Out.correct], some 0)
        else
          (prompt n (i + 1) :: Out.hintLine (echo_hint w answer n) ::
              (sessionLoop n answer dictionary i { rest := [], eof := true }).1,
            (sessionLoop n answer dictionary i { rest := [], eof := true }).2)) ∧
    (¬ passes n dictionary w →
      sessionLoop n answer dictionary (i + 1) { rest := w, eof := e } =
        (prompt n (i + 1) :: conditionLines w n dictionary ++
          [prompt n (i + 1), Out.badLuck answer], some 3)) := by
  have hf := fgets_unterminated (List.replicate 52 0) w e hw hl.1 (fun c h => (hl.2 c h).2)
  obtain ⟨hs, hcs⟩ := stripNewline_unterminated w
    ((List.replicate 52 0).drop (w.length + 1)) hl.2
  constructor
  · intro hv
    have := sessionLoop_accept_first n answer dictionary i _ _ _ hf (by rw [hs, hcs]; exact hv)
    rw [hs, hcs] at this
    exact this
  · intro hrej
    have hrej : ¬ ((check_guess w n).1 = true ∧ (word_in_dict w dictionary).1 = true) := hrej
    rw [sessionLoop_succ, hf]
    simp only
    rw [if_neg (by simp), hs, guessLoop_succ, hcs, if_neg hrej,
      fgets_nil _ { rest := [], eof := true } rfl]
    simp [game_over]

theorem check_guess_line (n : Nat) (l : List Nat) (hl : shortLine l) :
    (check_guess l n).1 = true ↔ l.length = n ∧ alphabetic l := by
  have h := check_guess_iff l n
  rwa [strlen, cstr_of_nonzero (fun c hc => (hl.2 c hc).1)] at h

/-- On the array built by `read_file`, the two checks of the loop condition
pass exactly for the valid guesses of the spec. -/
theorem passes_iff_spec_valid (n : Nat) (fileWords : List (List Nat)) (l : List Nat)
    (hcount : (storedWords fileWords n).length + 1 < 2147483648) (hl : shortLine l) :
    passes n (read_file fileWords n) l ↔ spec_valid n (storedWords fileWords n) l := by
  unfold passes spec_valid
  rw [check_guess_line n l hl, word_in_dict_iff l fileWords n hcount]
  tauto

/-- The diagnostic of a guess that fails a check is none of the lines of an
accepted guess. -/
theorem conditionLines_diagnostic (guess : List Nat) (n : Nat) (dictionary : List (List Nat))
    (h : ¬ passes n dictionary guess) :
    ∃ d : Out, conditionLines guess n dictionary = [d] ∧
      (d = Out.wrongLength n ∨ d = Out.lettersOnly ∨ d = Out.notInDict) := by
  rcases conditionLines_rejected guess n dictionary h with e | e | e
  · exact ⟨_, e, Or.inl rfl⟩
  · exact ⟨_, e, Or.inr (Or.inl rfl)⟩
  · exact ⟨_, e, Or.inr (Or.inr rfl)⟩

/-- The line printed while the loop condition is evaluated on the string in
a buffer: the first failing check decides. -/
theorem conditionLines_eq (n : Nat) (dictionary : List (List Nat)) (input : List Nat) :
    conditionLines (cstr input) n dictionary =
      (if strlen input ≠ n then [Out.wrongLength n]
       else if ¬ alphabetic (cstr input) then [Out.lettersOnly]
       else if (word_in_dict (cstr input) dictionary).1 = false then [Out.notInDict]
       else []) := by
  have hcg := check_guess_eq (cstr input) n
  rw [strlen_cstr, cstr_idem] at hcg
  by_cases hl : strlen input = n
  · by_cases ha : alphabetic (cstr input)
    · have hv : check_guess (cstr input) n = (true, []) := by
        rw [hcg, if_neg (not_not.mpr hl), if_pos ha]
      rcases word_in_dict_out (cstr input) dictionary with ⟨d1, d2⟩ | ⟨d1, d2⟩
      · simp [conditionLines, hv, hl, ha, d1, d2]
      · simp [conditionLines, hv, hl, ha, d1, d2]
    · have hv : check_guess (cstr input) n = (false, [Out.lettersOnly]) := by
        rw [hcg, if_neg (not_not.mpr hl), if_neg ha]
      simp [conditionLines, hv, hl, ha]
  · have hv : check_guess (cstr input) n = (false, [Out.wrongLength n]) := by
      rw [hcg, if_pos hl]
    simp [conditionLines, hv, hl]

/-- Whether the first read of an attempt ended in an accepted guess, read off
the output: the line after the prompt is `Correct!` or the hint. -/
theorem accepted_iff_output (n : Nat) (answer : List Nat) (dictionary : List (List Nat))
    (i : Nat) (l : List Nat) (s : Stdin) (r : List Out × Option Nat)
    (hacc : passes n dictionary l →
      sessionLoop n answer dictionary (i + 1) s =
        if strcasecmp l answer = 0 then ([prompt n (i + 1), Out.correct], some 0)
        else (prompt n (i + 1) :: Out.hintLine (echo_hint l answer n) :: r.1, r.2))
    (hrej : ¬ passes n dictionary l → ∃ tail : List Out,
      (sessionLoop n answer dictionary (i + 1) s).1 =
        prompt n (i + 1) :: conditionLines l n dictionary ++ prompt n (i + 1) :: tail) :
    passes n dictionary l ↔
      ∃ tail : List Out,
        (sessionLoop n answer dictionary (i + 1) s).1 = prompt n (i + 1) :: Out.correct :: tail ∨
        (sessionLoop n answer dictionary (i + 1) s).1 =
          prompt n (i + 1) :: Out.hintLine (echo_hint l answer n) :: tail := by
  constructor
  · intro hv
    rw [hacc hv]
    by_cases he : strcasecmp l answer = 0
    · rw [if_pos he]; exact ⟨[], Or.inl rfl⟩
    · rw [if_neg he]; exact ⟨r.1, Or.inr rfl⟩
  · rintro ⟨tail, h⟩
    by_contra hv
    obtain ⟨tail1, e⟩ := hrej hv
    obtain ⟨d, hd, hk⟩ := conditionLines_diagnostic l n dictionary hv
    rw [e, hd] at h
    simp only [List.cons_append, List.nil_append, List.cons.injEq, true_and] at h
    rcases h with h | h <;> rcases hk with k | k | k <;> rw [k] at h <;> simp at h

set_option maxRecDepth 100000 in
/-- C9 (as stated, fails on the code): with answer "crane" and 6 attempts,
the input is one line of 56 characters, 51 letters `x` followed by `slate`.
It is rejected for wrong length, and yet the number of attempts remaining
goes from 6 to 5: `fgets(input, 52, stdin)` takes the first 51 bytes of the
line as one guess and what is left of it, `slate`, as the next one, which is
accepted and gets a hint. -/
theorem attempts_counter_long_line :
    (List.replicate 51 120 ++ bytes "slate").length = 56 ∧
    10 ∉ List.replicate 51 120 ++ bytes "slate" ∧
    session 5 6 (bytes "crane") (read_file [bytes "crane", bytes "slate"] 5)
        ((List.replicate 51 120 ++ bytes "slate") ++ [10]) =
      ([Out.welcome, Out.promptRemaining 5 6, Out.wrongLength 5, Out.promptRemaining 5 6,
        Out.hintLine (bytes "--A-E\n"), Out.promptRemaining 5 5,
        Out.badLuck (bytes "crane")], some 3) := by
  decide

set_option maxRecDepth 100000 in
/-- C10 (as stated, fails on the code): with answer "crane", the input line
of 56 characters, 51 letters `x` followed by `crane`, is not a valid guess
and yet wins the game, through its last 5 bytes; and the valid guess `CRANE`,
given as a last line without newline after a rejected line, is not accepted:
the session ends with the reveal and status 3. -/
theorem guess_accepted_long_line :
    ¬ spec_valid 5 (storedWords [bytes "crane", bytes "slate"] 5)
        (List.replicate 51 120 ++ bytes "crane") ∧
    session 5 6 (bytes "crane") (read_file [bytes "crane", bytes "slate"] 5)
        ((List.replicate 51 120 ++ bytes "crane") ++ [10]) =
      ([Out.welcome, Out.promptRemaining 5 6, Out.wrongLength 5, Out.promptRemaining 5 6,
        Out.correct], some 0) ∧
    spec_valid 5 (storedWords [bytes "crane", bytes "slate"] 5) (bytes "CRANE") ∧
    session 5 6 (bytes "crane") (read_file [bytes "crane", bytes "slate"] 5)
        (bytes "xx\nCRANE") =
      ([Out.welcome, Out.promptRemaining 5 6, Out.wrongLength 5, Out.promptRemaining 5 6,
        Out.badLuck (bytes "crane")], some 3) := by
  decide

set_option maxRecDepth 100000 in
/-- C14 (as stated, fails on the code): the one rejected input line of 110
letters `x` gets three diagnostic lines, one for each piece `fgets` reads it
in (51, 51 and 8 bytes), each followed by the prompt; and a last line without
newline after a rejected line gets no diagnostic at all, whatever it is. -/
theorem one_diagnostic_long_line :
    session 5 6 (bytes "crane") (read_file [bytes "crane", bytes "slate"] 5)
        (List.replicate 110 120 ++ [10]) =
      ([Out.welcome, Out.promptRemaining 5 6, Out.wrongLength 5, Out.promptRemaining 5 6,
        Out.wrongLength 5, Out.promptRemaining 5 6, Out.wrongLength 5,
        Out.promptRemaining 5 6, Out.badLuck (bytes "crane")], some 3) ∧
    session 5 6 (bytes "crane") (read_file [bytes "crane", bytes "slate"] 5)
        (bytes "xx\ncr4ne") =
      ([Out.welcome, Out.promptRemaining 5 6, Out.wrongLength 5, Out.promptRemaining 5 6,
        Out.badLuck (bytes "crane")], some 3) := by
  decide

/-- C9 (amended): in the session loop of `main`, for input lines of at most
50 characters (none of them NUL), the number of attempts remaining goes down
by exactly 1 after each accepted line that differs from the answer and is
unchanged by any rejected line, however many rejected lines come one after
the other.  On every input each prompt shows `m` minus the number of hints
printed so far, and every attempt starts with the prompt that shows its
number of attempts.
A line that passes both checks and differs from the answer, read with its
newline or as a last line without one, gets its hint, and the session goes
on with `i` attempts after `i + 1`.  A line that fails a check gets its
diagnostic and then the prompt with `i + 1` again; when it was the last line
and had no newline the reveal follows.  After any number of lines that fail
a check, the session goes on as from the start of an attempt with `i + 1`
attempts, when the input ends there or goes on with a line of at most 50
characters. -/
theorem attempts_counter_lines (n m : Nat) (answer : List Nat)
    (dictionary : List (List Nat)) (stdin : List Nat) :
    countersOk m (session n m answer dictionary stdin).1 = true ∧
    (∀ (i : Nat) (s : Stdin), ∃ tail : List Out,
      (sessionLoop n answer dictionary (i + 1) s).1 = prompt n (i + 1) :: tail) ∧
    (∀ (i : Nat) (l rest : List Nat), shortLine l → passes n dictionary l →
      strcasecmp l answer ≠ 0 →
      sessionLoop n answer dictionary (i + 1) { rest := l ++ 10 :: rest, eof := false } =
        (prompt n (i + 1) :: Out.hintLine (echo_hint l answer n) ::
            (sessionLoop n answer dictionary i { rest := rest, eof := false }).1,
          (sessionLoop n answer dictionary i { rest := rest, eof := false }).2)) ∧
    (∀ (i : Nat) (w : List Nat), w ≠ [] → shortLine w → passes n dictionary w →
      strcasecmp w answer ≠ 0 →
      sessionLoop n answer dictionary (i + 1) { rest := w, eof := false } =
        (prompt n (i + 1) :: Out.hintLine (echo_hint w answer n) ::
            (sessionLoop n answer dictionary i { rest := [], eof := true }).1,
          (sessionLoop n answer dictionary i { rest := [], eof := true }).2)) ∧
    (∀ (i : Nat) (l rest : List Nat), shortLine l → ¬ passes n dictionary l →
      ∃ tail : List Out,
        (sessionLoop n answer dictionary (i + 1) { rest := l ++ 10 :: rest, eof := false }).1 =
          prompt n (i + 1) :: conditionLines l n dictionary ++ prompt n (i + 1) :: tail) ∧
    (∀ (i : Nat) (w : List Nat), w ≠ [] → shortLine w → ¬ passes n dictionary w →
      sessionLoop n answer dictionary (i + 1) { rest := w, eof := false } =
        (prompt n (i + 1) :: conditionLines w n dictionary ++
          [prompt n (i + 1), Out.badLuck answer], some 3)) ∧
    (∀ (i : Nat) (ls : List (List Nat)) (rest : List Nat),
      (∀ l ∈ ls, shortLine l ∧ ¬ passes n dictionary l) →
      (rest = [] ∨ ∃ l2 rest2, shortLine l2 ∧ rest = l2 ++ 10 :: rest2) →
      sessionLoop n answer dictionary (i + 1) { rest := joinLines ls ++ rest, eof := false } =
        (retryLines n (i + 1) dictionary ls ++
            (sessionLoop n answer dictionary (i + 1) { rest := rest, eof := false }).1,
          (sessionLoop n answer dictionary (i + 1) { rest := rest, eof := false }).2)) := by
  refine ⟨?_, ?_, ?_, ?_, ?_, ?_, ?_⟩
  · have := sessionLoop_countersOk n answer dictionary m { rest := stdin, eof := false }
    simpa [session, countersOk, shownCount] using this
  · intro i s
    rw [sessionLoop_afterLoop]
    by_cases h0 : (fgets (List.replicate 52 0) 52 s).2.2.eof = true ∧
        (fgets (List.replicate 52 0) 52 s).1 = false
    · rw [if_pos h0]; exact ⟨_, rfl⟩
    · rw [if_neg h0]; exact ⟨_, rfl⟩
  · intro i l rest hl hv hne
    rw [sessionLoop_line_accept n answer dictionary i l rest false hl hv, if_neg hne]
  · intro i w hw hl hv hne
    rw [(sessionLoop_final_line n answer dictionary i w false hw hl).1 hv, if_neg hne]
  · intro i l rest hl hv
    exact sessionLoop_line_reject_prompt n answer dictionary i l rest false hl hv
  · intro i w hw hl hv
    exact (sessionLoop_final_line n answer dictionary i w false hw hl).2 hv
  · intro i ls rest hls hrest
    exact sessionLoop_lines_reject n answer dictionary i rest hrest ls hls

set_option maxRecDepth 100000 in
theorem attempts_counter_lines_witness :
    session 5 6 (bytes "CRANE") (read_file [bytes "crane", bytes "slate"] 5)
        (bytes "xx\nabcde\nSLATE\nCRANE\n") =
      ([Out.welcome, Out.promptRemaining 5 6, Out.wrongLength 5, Out.promptRemaining 5 6,
        Out.notInDict, Out.promptRemaining 5 6, Out.hintLine (bytes "--A-E\n"),
        Out.promptRemaining 5 5, Out.correct], some 0) ∧
    (∀ l ∈ [bytes "xx", bytes "abcde"],
      shortLine l ∧ ¬ passes 5 (read_file [bytes "crane", bytes "slate"] 5) l) ∧
    shortLine (bytes "SLATE") ∧
    passes 5 (read_file [bytes "crane", bytes "slate"] 5) (bytes "SLATE") ∧
    strcasecmp (bytes "SLATE") (bytes "CRANE") ≠ 0 ∧
    sessionLoop 5 (bytes "CRANE") (read_file [bytes "crane", bytes "slate"] 5) (5 + 1)
        { rest := joinLines [bytes "xx", bytes "abcde"] ++ bytes "SLATE\nCRANE\n",
          eof := false } =
      (retryLines 5 (5 + 1) (read_file [bytes "crane", bytes "slate"] 5)
          [bytes "xx", bytes "abcde"] ++
          (sessionLoop 5 (bytes "CRANE") (read_file [bytes "crane", bytes "slate"] 5) (5 + 1)
            { rest := bytes "SLATE\nCRANE\n", eof := false }).1,
        (sessionLoop 5 (bytes "CRANE") (read_file [bytes "crane", bytes "slate"] 5) (5 + 1)
          { rest := bytes "SLATE\nCRANE\n", eof := false }).2) ∧
    sessionLoop 5 (bytes "CRANE") (read_file [bytes "crane", bytes "slate"] 5) (5 + 1)
        { rest := bytes "SLATE" ++ 10 :: bytes "CRANE\n", eof := false } =
      (prompt 5 (5 + 1) :: Out.hintLine (echo_hint (bytes "SLATE") (bytes "CRANE") 5) ::
          (sessionLoop 5 (bytes "CRANE") (read_file [bytes "crane", bytes "slate"] 5) 5
            { rest := bytes "CRANE\n", eof := false }).1,
        (sessionLoop 5 (bytes "CRANE") (read_file [bytes "crane", bytes "slate"] 5) 5
          { rest := bytes "CRANE\n", eof := false }).2) :=
  ⟨by decide, by decide, by decide, by decide, by decide,
    (attempts_counter_lines 5 6 (bytes "CRANE") (read_file [bytes "crane", bytes "slate"] 5)
      (bytes "xx\nabcde\nSLATE\nCRANE\n")).2.2.2.2.2.2 5 [bytes "xx", bytes "abcde"]
      (bytes "SLATE\nCRANE\n") (by decide)
      (Or.inr ⟨bytes "SLATE", bytes "CRANE\n", by decide, by decide⟩),
    (attempts_counter_lines 5 6 (bytes "CRANE") (read_file [bytes "crane", bytes "slate"] 5)
      (bytes "xx\nabcde\nSLATE\nCRANE\n")).2.2.1 5 (bytes "SLATE") (bytes "CRANE\n")
      (by decide) (by decide) (by decide)⟩

/-- C10 (amended): an input line of at most 50 characters (none of them NUL)
is accepted by the session exactly when it is a valid guess: it has exactly
`n` characters, all of them letters, and equals one of the words loaded from
the dictionary file ignoring case (the number of slots fitting the `int` that
holds it).  `check_guess` returns 1 exactly for a string of `n` characters
that are all letters, and `word_in_dict` exactly for a string that equals
one of the loaded words ignoring case.  Read with its newline as the first
line of an attempt, a valid line wins or gets its hint, and a line that is
not valid gets a diagnostic and the prompt again; so the line after the
prompt is `Correct!` or the hint exactly for a valid line.  A line read
after a rejected line is treated as at the start of an attempt.  The same
holds for a last line without newline read as the first line of an attempt. -/
theorem guess_accepted_lines (n i : Nat) (answer : List Nat) (fileWords : List (List Nat))
    (l rest : List Nat) (hcount : (storedWords fileWords n).length + 1 < 2147483648)
    (hl : shortLine l) :
    (∀ g : List Nat, (check_guess g n).1 = true ↔ strlen g = n ∧ alphabetic (cstr g)) ∧
    (∀ g : List Nat, (word_in_dict g (read_file fileWords n)).1 = true ↔
      ∃ w ∈ storedWords fileWords n, strcasecmp g w = 0) ∧
    (spec_valid n (storedWords fileWords n) l →
      sessionLoop n answer (read_file fileWords n) (i + 1)
          { rest := l ++ 10 :: rest, eof := false } =
        if strcasecmp l answer = 0 then ([prompt n (i + 1), Out.correct], some 0)
        else
          (prompt n (i + 1) :: Out.hintLine (echo_hint l answer n) ::
              (sessionLoop n answer (read_file fileWords n) i
                { rest := rest, eof := false }).1,
            (sessionLoop n answer (read_file fileWords n) i
              { rest := rest, eof := false }).2)) ∧
    (¬ spec_valid n (storedWords fileWords n) l →
      ∃ (d : Out) (tail : List Out),
        (d = Out.wrongLength n ∨ d = Out.lettersOnly ∨ d = Out.notInDict) ∧
        (sessionLoop n answer (read_file fileWords n) (i + 1)
            { rest := l ++ 10 :: rest, eof := false }).1 =
          prompt n (i + 1) :: d :: prompt n (i + 1) :: tail) ∧
    (spec_valid n (storedWords fileWords n) l ↔
      ∃ tail : List Out,
        (sessionLoop n answer (read_file fileWords n) (i + 1)
            { rest := l ++ 10 :: rest, eof := false }).1 =
          prompt n (i + 1) :: Out.correct :: tail ∨
        (sessionLoop n answer (read_file fileWords n) (i + 1)
            { rest := l ++ 10 :: rest, eof := false }).1 =
          prompt n (i + 1) :: Out.hintLine (echo_hint l answer n) :: tail) ∧
    (∀ l0 : List Nat, shortLine l0 → ¬ spec_valid n (storedWords fileWords n) l0 →
      sessionLoop n answer (read_file fileWords n) (i + 1)
          { rest := l0 ++ 10 :: (l ++ 10 :: rest), eof := false } =
        (prompt n (i + 1) :: conditionLines l0 n (read_file fileWords n) ++
            (sessionLoop n answer (read_file fileWords n) (i + 1)
              { rest := l ++ 10 :: rest, eof := false }).1,
          (sessionLoop n answer (read_file fileWords n) (i + 1)
            { rest := l ++ 10 :: rest, eof := false }).2)) ∧
    (l ≠ [] →
      (spec_valid n (storedWords fileWords n) l ↔
        ∃ tail : List Out,
          (sessionLoop n answer (read_file fileWords n) (i + 1)
              { rest := l, eof := false }).1 =
            prompt n (i + 1) :: Out.correct :: tail ∨
          (sessionLoop n answer (read_file fileWords n) (i + 1)
              { rest := l, eof := false }).1 =
            prompt n (i + 1) :: Out.hintLine (echo_hint l answer n) :: tail)) := by
  have hp := passes_iff_spec_valid n fileWords l hcount hl
  have hacc := sessionLoop_line_accept n answer (read_file fileWords n) i l rest false hl
  have hrej := sessionLoop_line_reject_prompt n answer (read_file fileWords n) i l rest false hl
  refine ⟨fun g => check_guess_iff g n, fun g => word_in_dict_iff g fileWords n hcount,
    ?_, ?_, ?_, ?_, ?_⟩
  · intro hv
    exact hacc (hp.mpr hv)
  · intro hv
    have hv1 : ¬ passes n (read_file fileWords n) l := fun h => hv (hp.mp h)
    obtain ⟨tail, e⟩ := hrej hv1
    obtain ⟨d, hd, hk⟩ := conditionLines_diagnostic l n (read_file fileWords n) hv1
    refine ⟨d, tail, hk, ?_⟩
    rw [e, hd]
    rfl
  · rw [← hp]
    exact accepted_iff_output n answer (read_file fileWords n) i l _
      (sessionLoop n answer (read_file fileWords n) i { rest := rest, eof := false }) hacc hrej
  · intro l0 hl0 hv0
    have hv1 : ¬ passes n (read_file fileWords n) l0 :=
      fun h => hv0 ((passes_iff_spec_valid n fileWords l0 hcount hl0).mp h)
    exact sessionLoop_line_reject n answer (read_file fileWords n) i l0 _ hl0 hv1
      (Or.inr ⟨l, rest, hl, rfl⟩)
  · intro hne
    have hfin := sessionLoop_final_line n answer (read_file fileWords n) i l false hne hl
    rw [← hp]
    refine accepted_iff_output n answer (read_file fileWords n) i l _
      (sessionLoop n answer (read_file fileWords n) i { rest := [], eof := true }) hfin.1 ?_
    intro hv1
    rw [hfin.2 hv1]
    exact ⟨[Out.badLuck answer], rfl⟩

set_option maxRecDepth 100000 in
theorem guess_accepted_lines_witness :
    (storedWords [bytes "crane", bytes "it's", bytes "slate"] 5).length + 1 < 2147483648 ∧
    shortLine (bytes "Slate") ∧
    spec_valid 5 (storedWords [bytes "crane", bytes "it's", bytes "slate"] 5) (bytes "Slate") ∧
    session 5 6 (bytes "CRANE") (read_file [bytes "crane", bytes "it's", bytes "slate"] 5)
        (bytes "it's\nSlate\ncrane\n") =
      ([Out.welcome, Out.promptRemaining 5 6, Out.wrongLength 5, Out.promptRemaining 5 6,
        Out.hintLine (bytes "--A-E\n"), Out.promptRemaining 5 5, Out.correct], some 0) ∧
    sessionLoop 5 (bytes "CRANE") (read_file [bytes "crane", bytes "it's", bytes "slate"] 5)
        (5 + 1) { rest := bytes "Slate" ++ 10 :: bytes "crane\n", eof := false } =
      (if strcasecmp (bytes "Slate") (bytes "CRANE") = 0 then
        ([prompt 5 (5 + 1), Out.correct], some 0)
      else
        (prompt 5 (5 + 1) :: Out.hintLine (echo_hint (bytes "Slate") (bytes "CRANE") 5) ::
            (sessionLoop 5 (bytes "CRANE")
              (read_file [bytes "crane", bytes "it's", bytes "slate"] 5) 5
              { rest := bytes "crane\n", eof := false }).1,
          (sessionLoop 5 (bytes "CRANE")
            (read_file [bytes "crane", bytes "it's", bytes "slate"] 5) 5
            { rest := bytes "crane\n", eof := false }).2)) :=
  ⟨by decide, by decide, by decide, by decide,
    (guess_accepted_lines 5 5 (bytes "CRANE") [bytes "crane", bytes "it's", bytes "slate"]
      (bytes "Slate") (bytes "crane\n") (by decide) (by decide)).2.2.1 (by decide)⟩

/-- C14 (amended): every rejected input line of at most 50 characters (none
of them NUL) gets exactly one diagnostic line before the prompt is printed
again: the wrong-length message when its length is not `n`, otherwise the
letters-only message when one of its characters is not a letter, otherwise
the not-in-dictionary message; an accepted line gets none.  For a line read
with its newline as the first line of an attempt: a line that fails a check
gets the one line and then the prompt, and when the input ends there or goes
on with a line of at most 50 characters, the session goes on as from the
start of an attempt, so that a line read after a rejected one is treated
alike; a line that passes both checks gets `Correct!` or its hint.  A last
line without newline that fails a check, read as the first line of an
attempt, gets its one diagnostic, the prompt and the reveal. -/
theorem one_diagnostic_lines (n i : Nat) (answer : List Nat) (dictionary : List (List Nat))
    (l rest : List Nat) (hl : shortLine l) :
    (∀ g : List Nat, conditionLines (cstr g) n dictionary =
      (if strlen g ≠ n then [Out.wrongLength n]
       else if ¬ alphabetic (cstr g) then [Out.lettersOnly]
       else if (word_in_dict (cstr g) dictionary).1 = false then [Out.notInDict]
       else [])) ∧
    (conditionLines l n dictionary =
      (if l.length ≠ n then [Out.wrongLength n]
       else if ¬ alphabetic l then [Out.lettersOnly]
       else if (word_in_dict l dictionary).1 = false then [Out.notInDict]
       else [])) ∧
    (passes n dictionary l ↔
      l.length = n ∧ alphabetic l ∧ (word_in_dict l dictionary).1 = true) ∧
    (¬ passes n dictionary l →
      (conditionLines l n dictionary).length = 1 ∧
      ∃ tail : List Out,
        (sessionLoop n answer dictionary (i + 1) { rest := l ++ 10 :: rest, eof := false }).1 =
          prompt n (i + 1) :: conditionLines l n dictionary ++ prompt n (i + 1) :: tail) ∧
    (¬ passes n dictionary l →
      (rest = [] ∨ ∃ l2 rest2, shortLine l2 ∧ rest = l2 ++ 10 :: rest2) →
      sessionLoop n answer dictionary (i + 1) { rest := l ++ 10 :: rest, eof := false } =
        (prompt n (i + 1) :: conditionLines l n dictionary ++
            (sessionLoop n answer dictionary (i + 1) { rest := rest, eof := false }).1,
          (sessionLoop n answer dictionary (i + 1) { rest := rest, eof := false }).2)) ∧
    (passes n dictionary l →
      sessionLoop n answer dictionary (i + 1) { rest := l ++ 10 :: rest, eof := false } =
        if strcasecmp l answer = 0 then ([prompt n (i + 1), Out.correct], some 0)
        else
          (prompt n (i + 1) :: Out.hintLine (echo_hint l answer n) ::
              (sessionLoop n answer dictionary i { rest := rest, eof := false }).1,
            (sessionLoop n answer dictionary i { rest := rest, eof := false }).2)) ∧
    (l ≠ [] → ¬ passes n dictionary l →
      sessionLoop n answer dictionary (i + 1) { rest := l, eof := false } =
        (prompt n (i + 1) :: conditionLines l n dictionary ++
          [prompt n (i + 1), Out.badLuck answer], some 3)) := by
  have hcs : cstr l = l := cstr_of_nonzero (fun c hc => (hl.2 c hc).1)
  have hcgi := check_guess_line n l hl
  refine ⟨conditionLines_eq n dictionary, ?_, ?_, ?_, ?_, ?_, ?_⟩
  · have h := conditionLines_eq n dictionary l
    rwa [strlen, hcs] at h
  · unfold passes
    rw [hcgi]
    tauto
  · intro hv
    constructor
    · obtain ⟨d, hd, _⟩ := conditionLines_diagnostic l n dictionary hv
      rw [hd]
      rfl
    · exact sessionLoop_line_reject_prompt n answer dictionary i l rest false hl hv
  · intro hv hrest
    exact sessionLoop_line_reject n answer dictionary i l rest hl hv hrest
  · intro hv
    exact sessionLoop_line_accept n answer dictionary i l rest false hl hv
  · intro hne hv
    exact (sessionLoop_final_line n answer dictionary i l false hne hl).2 hv

set_option maxRecDepth 100000 in
theorem one_diagnostic_lines_witness :
    shortLine (bytes "cr4ne") ∧
    ¬ passes 5 (read_file [bytes "crane", bytes "slate"] 5) (bytes "cr4ne") ∧
    conditionLines (bytes "cr4ne") 5 (read_file [bytes "crane", bytes "slate"] 5) =
      [Out.lettersOnly] ∧
    session 5 6 (bytes "CRANE") (read_file [bytes "crane", bytes "slate"] 5)
        (bytes "cr4ne\nslat\nabcde\nslate\n") =
      ([Out.welcome, Out.promptRemaining 5 6, Out.lettersOnly, Out.promptRemaining 5 6,
        Out.wrongLength 5, Out.promptRemaining 5 6, Out.notInDict, Out.promptRemaining 5 6,
        Out.hintLine (bytes "--A-E\n"), Out.promptRemaining 5 5,
        Out.badLuck (bytes "CRANE")], some 3) ∧
    sessionLoop 5 (bytes "CRANE") (read_file [bytes "crane", bytes "slate"] 5) (5 + 1)
        { rest := bytes "cr4ne" ++ 10 :: bytes "slat\nabcde\nslate\n", eof := false } =
      (prompt 5 (5 + 1) ::
          conditionLines (bytes "cr4ne") 5 (read_file [bytes "crane", bytes "slate"] 5) ++
          (sessionLoop 5 (bytes "CRANE") (read_file [bytes "crane", bytes "slate"] 5) (5 + 1)
            { rest := bytes "slat\nabcde\nslate\n", eof := false }).1,
        (sessionLoop 5 (bytes "CRANE") (read_file [bytes "crane", bytes "slate"] 5) (5 + 1)
          { rest := bytes "slat\nabcde\nslate\n", eof := false }).2) :=
  ⟨by decide, by decide, by decide, by decide,
    (one_diagnostic_lines 5 5 (bytes "CRANE") (read_file [bytes "crane", bytes "slate"] 5)
      (bytes "cr4ne") (bytes "slat\nabcde\nslate\n") (by decide)).2.2.2.2.1 (by decide)
      (Or.inr ⟨bytes "slat", bytes "abcde\nslate\n", by decide, by decide⟩)⟩

/-! ## The answer picked by `get_random_word` -/

theorem get_random_word_eq (fileWords : List (List Nat)) (n r1 r2 : Nat)
    (hcount : (storedWords fileWords n).length + 1 < 2147483648) :
    get_random_word (read_file fileWords n) n r1 r2 =
      (read_file fileWords n).getD (r2 % ((storedWords fileWords n).length + 1)) [] := by
  unfold get_random_word
  rw [read_file_eq]
  simp only [List.getD_cons_zero, atoi_sprintf_d _ hcount, List.foldl_cons, List.foldl_nil]
  congr 1

/-- Whenever `rand() % size` is not 0, `get_random_word` returns a stored word. -/
theorem get_random_word_stored (fileWords : List (List Nat)) (n r1 r2 : Nat)
    (hcount : (storedWords fileWords n).length + 1 < 2147483648)
    (h : r2 % ((storedWords fileWords n).length + 1) ≠ 0) :
    get_random_word (read_file fileWords n) n r1 r2 ∈ storedWords fileWords n := by
  rw [get_random_word_eq _ _ _ _ hcount, read_file_eq]
  have hlt : r2 % ((storedWords fileWords n).length + 1) < (storedWords fileWords n).length + 1 :=
    Nat.mod_lt _ (Nat.succ_pos _)
  obtain ⟨j, hj⟩ : ∃ j, r2 % ((storedWords fileWords n).length + 1) = j + 1 :=
    ⟨r2 % ((storedWords fileWords n).length + 1) - 1, by omega⟩
  rw [hj]
  have hjl : j < (storedWords fileWords n).length := by omega
  have e : (sprintf_d ((storedWords fileWords n).length + 1) ::
      storedWords fileWords n).getD (j + 1) [] = (storedWords fileWords n)[j] := by
    simp [List.getD_eq_getElem?_getD, List.getElem?_eq_getElem hjl]
  rw [e]
  exact List.getElem_mem hjl

/-- Whenever `rand() % size` is 0, `get_random_word` returns slot 0, the
printed number of slots. -/
theorem get_random_word_slot_zero (fileWords : List (List Nat)) (n r1 r2 : Nat)
    (hcount : (storedWords fileWords n).length + 1 < 2147483648)
    (h : r2 % ((storedWords fileWords n).length + 1) = 0) :
    get_random_word (read_file fileWords n) n r1 r2 =
      sprintf_d ((storedWords fileWords n).length + 1) := by
  rw [get_random_word_eq _ _ _ _ hcount, read_file_eq, h]
  rfl

/-- C17 (fails on the code): for the dictionary file with the words "crane"
and "slate", `n = 5`, and `rand()` returning 3 in its last call,
`get_random_word` returns slot 0 of the array, the string "3": it is not one
of the stored words, not alphabetic, not of length 5, and `check_guess`
rejects it as a guess. -/
theorem get_random_word_count_slot :
    read_file [bytes "crane", bytes "slate"] 5 = [bytes "3", bytes "crane", bytes "slate"] ∧
    get_random_word (read_file [bytes "crane", bytes "slate"] 5) 5 0 3 = bytes "3" ∧
    bytes "3" ∉ storedWords [bytes "crane", bytes "slate"] 5 ∧
    ¬ alphabetic (bytes "3") ∧ (bytes "3").length ≠ 5 ∧
    (check_guess (bytes "3") 5).1 = false := by
  decide

/-! ## Command-line arguments -/

theorem strcmpFrom_eq_zero_iff : ∀ (s t : List Nat), (∀ c ∈ s, c ≠ 0) → (∀ c ∈ t, c ≠ 0) →
    (strcmpFrom s t = 0 ↔ s = t)
  | [], [], _, _ => by simp [strcmpFrom]
  | [], y :: ys, _, ht => by
    have := ht y (List.mem_cons_self _ _)
    simp only [strcmpFrom]
    constructor
    · intro h; omega
    · intro h; simp at h
  | x :: xs, [], hs, _ => by
    have := hs x (List.mem_cons_self _ _)
    simp only [strcmpFrom]
    constructor
    · intro h; omega
    · intro h; simp at h
  | x :: xs, y :: ys, hs, ht => by
    have ih := strcmpFrom_eq_zero_iff xs ys (fun c hc => hs c (List.mem_cons_of_mem _ hc))
      (fun c hc => ht c (List.mem_cons_of_mem _ hc))
    simp only [strcmpFrom, List.cons.injEq]
    by_cases he : x = y
    · simp [he, ih]
    · simp only [he, if_false, false_and, iff_false]
      omega

theorem strcmp_eq_zero_iff (s t : List Nat) : strcmp s t = 0 ↔ cstr s = cstr t :=
  strcmpFrom_eq_zero_iff _ _ (cstr_nonzero s) (cstr_nonzero t)

theorem strlen_of_flag (x : List Nat) :
    (strcmp x (bytes "-len") = 0 → strlen x = 4) ∧ (strcmp x (bytes "-max") = 0 → strlen x = 4) := by
  constructor
  · intro h
    rw [strcmp_eq_zero_iff] at h
    rw [strlen, h]
    decide
  · intro h
    rw [strcmp_eq_zero_iff] at h
    rw [strlen, h]
    decide

theorem foldl_argStep_mono : ∀ (argv : List (List Nat)) (c : ArgCount),
    c.errorPresent ≤ (argv.foldl argStep c).errorPresent
  | [], c => le_refl _
  | a :: argv, c => by
    rw [List.foldl_cons]
    refine le_trans ?_ (foldl_argStep_mono argv (argStep c a))
    simp only [argStep]
    omega

theorem slotError_zero (flag value : List Nat) (h : slotError flag value = 0) :
    (strcmp flag (bytes "-len") = 0 ∨ strcmp flag (bytes "-max") = 0) ∧
    3 ≤ atoi value ∧ atoi value ≤ 9 ∧ strlen value = 1 := by
  unfold slotError at h
  by_cases hf : strcmp flag (bytes "-len") ≠ 0 ∧ strcmp flag (bytes "-max") ≠ 0
  · rw [if_pos hf] at h
    cases h
  · rw [if_neg hf] at h
    by_cases hv : atoi value < 3 ∨ atoi value > 9 ∨ strlen value ≠ 1
    · rw [if_pos hv] at h
      cases h
    · refine ⟨?_, ?_, ?_, ?_⟩
      · by_contra hno
        exact hf ⟨fun e => hno (Or.inl e), fun e => hno (Or.inr e)⟩
      · by_contra hno
        exact hv (Or.inl (by omega))
      · by_contra hno
        exact hv (Or.inr (Or.inl (by omega)))
      · by_contra hno
        exact hv (Or.inr (Or.inr hno))

theorem errorPresent_zero (argv : List (List Nat)) (h : errorPresent argv = 0) :
    argv.length ≤ 6 ∧
    (argv.length ≥ 3 → slotError (argv.getD 1 []) (argv.getD 2 []) = 0) ∧
    (argv.length ≥ 5 → slotError (argv.getD 3 []) (argv.getD 4 []) = 0) := by
  unfold errorPresent at h
  simp only [Nat.add_eq_zero_iff] at h
  obtain ⟨⟨⟨⟨⟨h0, _⟩, _⟩, h3⟩, _⟩, h5⟩ := h
  refine ⟨?_, ?_, ?_⟩
  · by_contra hlen
    have hm := foldl_argStep_mono argv
      { lenCount := 0, maxCount := 0, errorPresent := if argv.length > 6 then 1 else 0 }
    rw [h0] at hm
    simp only [if_pos (show argv.length > 6 by omega)] at hm
    omega
  · intro hl
    rwa [if_pos hl] at h3
  · intro hl
    rwa [if_pos hl] at h5

theorem not_flag_of_value (v : List Nat) (h : strlen v = 1) :
    strcmp v (bytes "-len") ≠ 0 ∧ strcmp v (bytes "-max") ≠ 0 := by
  constructor
  · intro e
    have := (strlen_of_flag v).1 e
    omega
  · intro e
    have := (strlen_of_flag v).2 e
    omega

/-- When `check_args` finds no error and the program name is not itself a
flag, `get_max` and `get_len` are between 3 and 9. -/
theorem args_bounds (name : List Nat) (args : List (List Nat))
    (h1 : strcmp name (bytes "-len") ≠ 0) (h2 : strcmp name (bytes "-max") ≠ 0)
    (h : errorPresent (name :: args) = 0) :
    (3 ≤ get_max (name :: args) ∧ get_max (name :: args) ≤ 9) ∧
    (3 ≤ get_len (name :: args) ∧ get_len (name :: args) ≤ 9) := by
  obtain ⟨hlen, s1, s2⟩ := errorPresent_zero _ h
  rcases args with _ | ⟨a, _ | ⟨b, _ | ⟨c, _ | ⟨d, _ | ⟨e, _ | ⟨f, rest⟩⟩⟩⟩⟩⟩
  · simp [get_max, get_len, List.range_succ, h1, h2]
  · simp [get_max, get_len, List.range_succ, h1, h2]
  · obtain ⟨_, b1, b2, b3⟩ := slotError_zero _ _ (s1 (by simp))
    simp only [List.getD_cons_succ, List.getD_cons_zero] at b1 b2 b3
    simp [get_max, get_len, List.range_succ, h1, h2]
    repeat' constructor
    all_goals (split_ifs <;> omega)
  · obtain ⟨_, b1, b2, b3⟩ := slotError_zero _ _ (s1 (by simp))
    simp only [List.getD_cons_succ, List.getD_cons_zero] at b1 b2 b3
    obtain ⟨nb1, nb2⟩ := not_flag_of_value b b3
    simp [get_max, get_len, List.range_succ, h1, h2, nb1, nb2]
    repeat' constructor
    all_goals (split_ifs <;> omega)
  · obtain ⟨_, b1, b2, b3⟩ := slotError_zero _ _ (s1 (by simp))
    obtain ⟨_, d1, d2, d3⟩ := slotError_zero _ _ (s2 (by simp))
    simp only [List.getD_cons_succ, List.getD_cons_zero] at b1 b2 b3 d1 d2 d3
    obtain ⟨nb1, nb2⟩ := not_flag_of_value b b3
    simp [get_max, get_len, List.range_succ, h1, h2, nb1, nb2]
    repeat' constructor
    all_goals (split_ifs <;> omega)
  · obtain ⟨_, b1, b2, b3⟩ := slotError_zero _ _ (s1 (by simp))
    obtain ⟨_, d1, d2, d3⟩ := slotError_zero _ _ (s2 (by simp))
    simp only [List.getD_cons_succ, List.getD_cons_zero] at b1 b2 b3 d1 d2 d3
    obtain ⟨nb1, nb2⟩ := not_flag_of_value b b3
    obtain ⟨nd1, nd2⟩ := not_flag_of_value d d3
    simp [get_max, get_len, List.range_succ, h1, h2, nb1, nb2, nd1, nd2]
    repeat' constructor
    all_goals (split_ifs <;> omega)
  · simp at hlen

theorem check_args_none_iff (argv : List (List Nat)) :
    check_args argv = none ↔ errorPresent argv = 0 := by
  unfold check_args
  by_cases h : errorPresent argv = 0
  · simp [h]
  · simp [h]

/-- C20 (as stated, fails on the code): the loops of `check_args`, `get_len`
and `get_max` start at `argv[0]`.  Under the program name `-max` the
arguments `-max 1` pass `check_args` and `get_max` returns 1; the value is
then not range-checked at all, and `atoi` cuts a long one to 32 bits.  The
same holds for `-len`. -/
theorem check_args_program_name_flag :
    check_args [bytes "-max", bytes "1"] = none ∧
    get_max [bytes "-max", bytes "1"] = 1 ∧
    check_args [bytes "-max", bytes "99999999999"] = none ∧
    get_max [bytes "-max", bytes "99999999999"] = 1215752191 ∧
    check_args [bytes "-len", bytes "2"] = none ∧
    get_len [bytes "-len", bytes "2"] = 2 := by
  decide

/-- C20 (amended): for an invocation whose program name `argv[0]` is not
itself `-len` or `-max`, `check_args` makes the same test on the value after
`-max` as on the value after `-len`, in the first and in the second flag
slot: the arguments pass only if the value is a one-character string with
`atoi` between 3 and 9, and otherwise the usage line is printed and the exit
status is 1, so `wordle -max k` is rejected for `k` = 1, 2 or 10 and more;
and when the arguments pass, `get_max` and `get_len` are both between 3 and
9. -/
theorem check_args_range (name : List Nat) (args : List (List Nat))
    (h1 : strcmp name (bytes "-len") ≠ 0) (h2 : strcmp name (bytes "-max") ≠ 0) :
    (∀ (flag k : List Nat) (rest : List (List Nat)),
      check_args (name :: flag :: k :: rest) = none →
      (strcmp flag (bytes "-len") = 0 ∨ strcmp flag (bytes "-max") = 0) ∧
        strlen k = 1 ∧ 3 ≤ atoi k ∧ atoi k ≤ 9) ∧
    (∀ (f1 k1 flag k : List Nat) (rest : List (List Nat)),
      check_args (name :: f1 :: k1 :: flag :: k :: rest) = none →
      (strcmp flag (bytes "-len") = 0 ∨ strcmp flag (bytes "-max") = 0) ∧
        strlen k = 1 ∧ 3 ≤ atoi k ∧ atoi k ≤ 9) ∧
    (∀ k : List Nat, ¬ (strlen k = 1 ∧ 3 ≤ atoi k ∧ atoi k ≤ 9) →
      check_args [name, bytes "-max", k] = some ([Out.usage], 1) ∧
      check_args [name, bytes "-len", k] = some ([Out.usage], 1)) ∧
    (check_args (name :: args) = none →
      (3 ≤ get_max (name :: args) ∧ get_max (name :: args) ≤ 9) ∧
      (3 ≤ get_len (name :: args) ∧ get_len (name :: args) ≤ 9)) := by
  have first : ∀ (flag k : List Nat) (rest : List (List Nat)),
      check_args (name :: flag :: k :: rest) = none →
      (strcmp flag (bytes "-len") = 0 ∨ strcmp flag (bytes "-max") = 0) ∧
        strlen k = 1 ∧ 3 ≤ atoi k ∧ atoi k ≤ 9 := by
    intro flag k rest h
    rw [check_args_none_iff] at h
    obtain ⟨_, s1, _⟩ := errorPresent_zero _ h
    obtain ⟨hf, b1, b2, b3⟩ := slotError_zero _ _ (s1 (by simp))
    exact ⟨hf, b3, b1, b2⟩
  have some_of_ne : ∀ argv : List (List Nat), check_args argv ≠ none →
      check_args argv = some ([Out.usage], 1) := by
    intro argv h
    unfold check_args at h ⊢
    by_cases he : errorPresent argv ≠ 0
    · rw [if_pos he]
    · rw [if_neg he] at h
      exact absurd rfl h
  refine ⟨first, ?_, ?_, ?_⟩
  · intro f1 k1 flag k rest h
    rw [check_args_none_iff] at h
    obtain ⟨_, _, s2⟩ := errorPresent_zero _ h
    obtain ⟨hf, b1, b2, b3⟩ := slotError_zero _ _ (s2 (by simp))
    exact ⟨hf, b3, b1, b2⟩
  · intro k hk
    constructor
    · apply some_of_ne
      intro h
      exact hk (first _ k [] h).2
    · apply some_of_ne
      intro h
      exact hk (first _ k [] h).2
  · intro h
    rw [check_args_none_iff] at h
    exact args_bounds name args h1 h2 h

theorem check_args_range_witness :
    strcmp (bytes "wordle") (bytes "-len") ≠ 0 ∧ strcmp (bytes "wordle") (bytes "-max") ≠ 0 ∧
    check_args [bytes "wordle", bytes "-max", bytes "1"] = some ([Out.usage], 1) ∧
    check_args [bytes "wordle", bytes "-max", bytes "2"] = some ([Out.usage], 1) ∧
    check_args [bytes "wordle", bytes "-max", bytes "10"] = some ([Out.usage], 1) ∧
    check_args [bytes "wordle", bytes "-len", bytes "4", bytes "-max", bytes "7"] = none ∧
    (check_args (bytes "wordle" :: [bytes "-len", bytes "4", bytes "-max", bytes "7"]) = none →
      (3 ≤ get_max (bytes "wordle" :: [bytes "-len", bytes "4", bytes "-max", bytes "7"]) ∧
        get_max (bytes "wordle" :: [bytes "-len", bytes "4", bytes "-max", bytes "7"]) ≤ 9) ∧
      (3 ≤ get_len (bytes "wordle" :: [bytes "-len", bytes "4", bytes "-max", bytes "7"]) ∧
        get_len (bytes "wordle" :: [bytes "-len", bytes "4", bytes "-max", bytes "7"]) ≤ 9)) :=
  ⟨by decide, by decide, by decide, by decide, by decide, by decide,
    (check_args_range (bytes "wordle") [bytes "-len", bytes "4", bytes "-max", bytes "7"]
      (by decide) (by decide)).2.2.2⟩

end Wordle
